import Mathlib

/-!
# Verification development for the IPv4 router dataplane

Shallow embedding of the packet-processing core (`ipv4_table.c`, `arp_table.c`,
`queue.c`, `lib.c`, `icmp.c`, `ipv4.c`, `arp.c`, `router.c`).

Conventions of the embedding:

* machine integers are `Nat` (unsigned) or `Int` (C `int`), reduced explicitly
  where the C code can wrap;
* memory buffers are functions from byte offset to byte value; the 16/32-bit
  fields are read and written as on a little-endian host;
* `malloc` is assumed to succeed;
* the link layer (`Send_To_Link`, `Get_IPV4_Interface`, `Get_MAC_Interface`)
  is a parameter: sending appends to a log of emitted frames.
-/

namespace Router

/-! ## Routing table (`ipv4_table.h`, `ipv4_table.c`) -/

/-- Routing entry `struct route`; the field `pfx` stands for the C field `prefix`. -/
structure route where
  pfx : Nat
  next_hop : Nat
  mask : Nat
  interface : Int
  deriving DecidableEq, Repr

/-- Forwarding entry `struct forward`. -/
structure forward where
  next_hop : Nat
  interface : Int
  status : Bool
  deriving DecidableEq, Repr

/-- Trie node `struct ipv4_entry`; `null` is the `NULL` pointer. -/
inductive ipv4_entry where
  | null : ipv4_entry
  | node (next_hop : Nat) (type : Int) (interface : Int)
      (left right : ipv4_entry) : ipv4_entry
  deriving DecidableEq, Repr

/-- Routing table `struct ipv4_table`. -/
structure ipv4_table where
  root : ipv4_entry
  size : Nat
  deriving DecidableEq, Repr

/-- Fresh node of `Create_IPV4_Entry`: interface -1, type 0, next hop 0, no children. -/
def Create_IPV4_Entry : ipv4_entry :=
  .node 0 0 (-1) .null .null

/-- Table of `CreateEmpty_IPV4_Table`: a fresh root whose type is set to -1, size 0. -/
def CreateEmpty_IPV4_Table : ipv4_table :=
  { root := .node 0 (-1) (-1) .null .null, size := 0 }

/-- Population count of a 32-bit value, `__builtin_popcount`. -/
def popcount (x : Nat) : Nat :=
  ((List.range 32).map (fun i => (x / 2 ^ i) % 2)).sum

/-- Child slot after the line `if (!*next_entry) *next_entry = Create_IPV4_Entry();`. -/
def orCreate : ipv4_entry → ipv4_entry
  | .null => Create_IPV4_Entry
  | e => e

/-- The `while (network_length)` loop of `Insert_IPV4_Table` together with the final
update of the reached node, as a function of the node the cursor `ipv4s` points to.
The cursor is never `NULL` in the C code (the root exists and every child is created
before it is entered); on `null` the model leaves the node as it is. -/
def insertWalk (new_entry : route) : Nat → Nat → ipv4_entry → ipv4_entry
  | _, _, .null => .null
  | 0, _, .node _ _ _ l r => .node new_entry.next_hop 1 new_entry.interface l r
  | n + 1, network, .node nh t i l r =>
      if network % 2 = 1 then
        .node nh t i l (insertWalk new_entry n (network / 2) (orCreate r))
      else
        .node nh t i (insertWalk new_entry n (network / 2) (orCreate l)) r

/-- Model of `Insert_IPV4_Table`: a route with a zero mask is ignored; otherwise the
low `popcount(mask)` bits of `prefix & mask` are walked from the root, least
significant bit first, and the node reached is made Valid. -/
def Insert_IPV4_Table (ip_table : ipv4_table) (new_entry : route) : ipv4_table :=
  if new_entry.mask = 0 then ip_table
  else
    { root := insertWalk new_entry (popcount new_entry.mask)
        (new_entry.pfx &&& new_entry.mask) ip_table.root
      size := (ip_table.size + 1) % 2 ^ 64 }

/-- The `while (entry)` loop of `LPM_IPV4_Table`; `lpm` is the result recorded so far. -/
def lpmWalk : ipv4_entry → Nat → Option forward → Option forward
  | .null, _, lpm => lpm
  | .node nh t i l r, ip, lpm =>
      let lpm1 := if t = 1 then some { next_hop := nh, interface := i, status := true } else lpm
      if ip % 2 = 1 then lpmWalk r (ip / 2) lpm1 else lpmWalk l (ip / 2) lpm1

/-- Model of `LPM_IPV4_Table`; `none` is the `NULL` result. -/
def LPM_IPV4_Table (ip_table : ipv4_table) (ip : Nat) : Option forward :=
  lpmWalk ip_table.root ip none

/-- The insertion loop of `Create_IPV4_Table`: the routes are inserted in order. -/
def insertAll (ip_table : ipv4_table) (rtable : List route) : ipv4_table :=
  rtable.foldl Insert_IPV4_Table ip_table

/-- Forwarding data of the node found `j` edges below `e` on the path spelled by the
bits of `ip` (least significant first), when that node exists and is Valid. -/
def validAt : ipv4_entry → Nat → Nat → Option forward
  | .null, _, _ => none
  | .node nh t i _ _, _, 0 =>
      if t = 1 then some { next_hop := nh, interface := i, status := true } else none
  | .node _ _ _ l r, ip, j + 1 =>
      if ip % 2 = 1 then validAt r (ip / 2) j else validAt l (ip / 2) j

/-- Matching test of the naive scanner: `(d & mask) == (prefix & mask)`. -/
def routeMatches (r : route) (d : Nat) : Prop :=
  d &&& r.mask = r.pfx &&& r.mask

instance (r : route) (d : Nat) : Decidable (routeMatches r d) := by
  unfold routeMatches; infer_instance

/-- Effect of inserting route `r` on the slot at depth `j` of the path of `d`: the
slot is overwritten when the route is accepted, has `popcount(mask) = j` and its
network agrees with `d` on the low `j` bits; otherwise it is kept. -/
def slotStep (d j : Nat) (acc : Option forward) (r : route) : Option forward :=
  if r.mask ≠ 0 ∧ popcount r.mask = j ∧ d % 2 ^ j = (r.pfx &&& r.mask) % 2 ^ j then
    some { next_hop := r.next_hop, interface := r.interface, status := true }
  else acc

/-- A mask that, as the stored 32-bit value, is `2^k - 1` with `k ≤ 32`. -/
def lowMask (m : Nat) : Prop :=
  ∃ k, k ≤ 32 ∧ m = 2 ^ k - 1

/-! ## Byte buffers and byte order -/

/-- A memory buffer: byte offset to byte value. -/
abbrev Buf := Nat → Nat

/-- Load of a `uint16_t` at byte offset `off` (little-endian host). -/
def rd16 (b : Buf) (off : Nat) : Nat :=
  b off + 256 * b (off + 1)

/-- Store of a `uint16_t` at byte offset `off` (little-endian host). -/
def wr16 (b : Buf) (off v : Nat) : Buf :=
  fun i => if i = off then v % 256 else if i = off + 1 then (v / 256) % 256 else b i

/-- Load of a `uint32_t` at byte offset `off` (little-endian host). -/
def rd32 (b : Buf) (off : Nat) : Nat :=
  b off + 256 * b (off + 1) + 65536 * b (off + 2) + 16777216 * b (off + 3)

/-- Store of a `uint32_t` at byte offset `off` (little-endian host). -/
def wr32 (b : Buf) (off v : Nat) : Buf :=
  fun i =>
    if i = off then v % 256
    else if i = off + 1 then (v / 256) % 256
    else if i = off + 2 then (v / 65536) % 256
    else if i = off + 3 then (v / 16777216) % 256
    else b i

/-- Store of a single byte. -/
def wr8 (b : Buf) (off v : Nat) : Buf :=
  fun i => if i = off then v % 256 else b i

/-- Copy of `n` bytes from `src + soff` to `dst + doff` (`memcpy`, regions disjoint). -/
def memcpy (dst : Buf) (doff : Nat) (src : Buf) (soff n : Nat) : Buf :=
  fun i => if doff ≤ i ∧ i < doff + n then src (soff + (i - doff)) else dst i

/-- Fill of `n` bytes at `off` with the byte `v` (`memset`). -/
def memset (b : Buf) (off v n : Nat) : Buf :=
  fun i => if off ≤ i ∧ i < off + n then v % 256 else b i

/-- The six bytes of a MAC address stored at `off`. -/
def readMac (b : Buf) (off : Nat) : List Nat :=
  (List.range 6).map (fun k => b (off + k))

/-- Store of a six-byte MAC address at `off` (`memcpy(..., mac, MAC_SIZE)`). -/
def writeMac (b : Buf) (off : Nat) (mac : List Nat) : Buf :=
  fun i => if off ≤ i ∧ i < off + 6 then mac.getD (i - off) 0 else b i

/-- The first `len` bytes of a buffer, as transmitted. -/
def bytesOf (b : Buf) (len : Nat) : List Nat :=
  (List.range len).map b

/-- Byte swap of a 16-bit value: `htons` on a little-endian host. -/
def htons (x : Nat) : Nat :=
  (x % 256) * 256 + (x / 256) % 256

/-- Byte swap of a 16-bit value: `ntohs` on a little-endian host. -/
def ntohs (x : Nat) : Nat :=
  (x % 256) * 256 + (x / 256) % 256

/-! ## Constants (`lib.h`, `arp_table.h`, `arp.h`, `ipv4.h`) and header layouts

Modelled from the spec: `include/protocols.h`, which declares the header structures,
is not among the sources; the layouts below are the wire formats of the
specification (Ethernet 14 bytes, IPv4 20 bytes without options, ARP for
Ethernet/IPv4 28 bytes, ICMP header 8 bytes as in `tot_len = 20 + 8`). -/

def MAX_PACKET_LEN : Nat := 1600
def MAC_SIZE : Nat := 6
def ARP_SIZE : Nat := 1001

def OP_REQUEST : Nat := htons 1
def OP_REPLY : Nat := htons 2
def HTYPE_ETHER : Nat := htons 1
def IP_TYPE : Nat := htons 0x0800
def ARP_TYPE : Nat := htons 0x0806
def HW_LEN : Nat := 6
def PT_LEN : Nat := 4

def IPV4_VERSION : Nat := 4
def IPV4_IHL : Nat := 5
def DEFAULT_TTL : Nat := 64
def ICMP_RESPONE : Nat := 0
def ICMP_TIME_EXCED : Nat := 11
def ICMP_DEST_UNREACH : Nat := 3

/-- Modelled from the spec: `sizeof *eth_hdr`, the Ethernet header of `protocols.h`
(6-byte destination, 6-byte source, 2-byte EtherType). -/
def ETH_SIZE : Nat := 14
/-- Modelled from the spec: `sizeof(struct iphdr)` of `protocols.h`, the 20-byte IPv4
header without options. -/
def IP_SIZE : Nat := 20
/-- Modelled from the spec: `sizeof(struct icmphdr)` of `protocols.h`, 8 bytes
(`tot_len = 20 + 8`; type, code, checksum and four bytes of rest-of-header). -/
def ICMP_SIZE : Nat := 8
/-- Modelled from the spec: `sizeof *arp_hdr` of `protocols.h`, the 28-byte ARP header
for Ethernet/IPv4 (frame length of a request = 14 + 28). -/
def ARP_HDR_SIZE : Nat := 28

/-! Byte offsets of the header fields inside the frame buffer.

Modelled from the spec: the field order of the structures of `protocols.h` is the wire
format of the specification: Ethernet `ether_dhost`, `ether_shost`, `ether_type`; IPv4
`ihl`/`version`, `tos`, `tot_len`, `id`, `frag_off`, `ttl`, `protocol`, `check`, `saddr`,
`daddr`; ICMP `type`, `code`, `checksum`; ARP `htype`, `ptype`, `hlen`, `plen`, `op`,
`sha`, `spa`, `tha`, `tpa`. -/

def ETH_DHOST : Nat := 0
def ETH_SHOST : Nat := 6
def ETH_TYPE : Nat := 12
def IP_VHL : Nat := 14
def IP_TOS : Nat := 15
def IP_TOT_LEN : Nat := 16
def IP_ID : Nat := 18
def IP_FRAG_OFF : Nat := 20
def IP_TTL : Nat := 22
def IP_PROTOCOL : Nat := 23
def IP_CHECK : Nat := 24
def IP_SADDR : Nat := 26
def IP_DADDR : Nat := 30
def ICMP_TYPE : Nat := 34
def ICMP_CODE : Nat := 35
def ICMP_CHECKSUM : Nat := 36
def ARP_HTYPE : Nat := 14
def ARP_PTYPE : Nat := 16
def ARP_HLEN : Nat := 18
def ARP_PLEN : Nat := 19
def ARP_OP : Nat := 20
def ARP_SHA : Nat := 22
def ARP_SPA : Nat := 28
def ARP_THA : Nat := 32
def ARP_TPA : Nat := 38

/-! ## Checksum (`lib.c`) -/

/-- The `while (len > 1)` loop of `Checksum`: `n` words starting at byte `p` are added
to the `unsigned long` accumulator. -/
def sumWords (data : Buf) : Nat → Nat → Nat → Nat
  | _, 0, checksum => checksum
  | p, n + 1, checksum => sumWords data (p + 2) n ((checksum + ntohs (rd16 data p)) % 2 ^ 64)

/-- Model of `Checksum(data + off, len)`. For an odd `len` the code stores the last
byte into the low byte of the uninitialised `extra_byte`; `junk` is the value of its
other byte. -/
def Checksum (junk : Nat) (data : Buf) (off len : Nat) : Nat :=
  let checksum := sumWords data off (len / 2) 0
  let checksum :=
    if len % 2 = 1 then (checksum + (data (off + 2 * (len / 2)) + 256 * junk)) % 2 ^ 64
    else checksum
  let checksum := (checksum / 2 ^ 16 + checksum % 2 ^ 16) % 2 ^ 64
  let checksum := (checksum + checksum / 2 ^ 16) % 2 ^ 64
  (2 ^ 64 - 1 - checksum) % 2 ^ 16

/-! ## ARP table (`arp_table.c`) -/

/-- ARP entry `struct arp_entry`. -/
structure arp_entry where
  ip : Nat
  mac : List Nat
  deriving DecidableEq, Repr

/-- ARP table `struct arp_table`: `addrs` holds the `len` entries in use. -/
structure arp_table where
  addrs : List arp_entry
  deriving DecidableEq, Repr

/-- The field `len` of the ARP table. -/
def arp_table.len (arp : arp_table) : Int :=
  arp.addrs.length

/-- Table of `Create_ARP_Table`. -/
def Create_ARP_Table : arp_table :=
  { addrs := [] }

/-- The scan of `Get_ARP_Entry` from index `entry` on. -/
def scanARP (ip : Nat) : List arp_entry → Nat → Int
  | [], _ => -1
  | a :: rest, entry => if a.ip = ip then (entry : Int) else scanARP ip rest (entry + 1)

/-- Model of `Get_ARP_Entry`: index of the first entry with the given ip, or -1. -/
def Get_ARP_Entry (arp : arp_table) (ip : Nat) : Int :=
  scanARP ip arp.addrs 0

/-- Model of `Insert_ARP_Entry`. -/
def Insert_ARP_Entry (arp : arp_table) (new_entry : arp_entry) : arp_table :=
  if arp.len ≥ ARP_SIZE then arp
  else if Get_ARP_Entry arp new_entry.ip < 0 then
    { addrs := arp.addrs ++ [{ ip := new_entry.ip, mac := new_entry.mac }] }
  else arp

/-! ## Queue (`queue.c`, `list.c`) -/

/-- The queue as the list of the elements of its cells, head first. -/
structure queue (α : Type) where
  cells : List α

/-- Model of `Queue()`. -/
def Queue {α : Type} : queue α :=
  { cells := [] }

/-- Model of `EmptyQueue`. -/
def EmptyQueue {α : Type} (q : queue α) : Bool :=
  q.cells.isEmpty

/-- Model of `Enqueue`. -/
def Enqueue {α : Type} (q : queue α) (elem : α) : queue α :=
  { cells := q.cells ++ [elem] }

/-- Model of `Dequeue`: the element removed (`none` is `NULL`) and the queue left. -/
def Dequeue {α : Type} (q : queue α) : Option α × queue α :=
  match q.cells with
  | [] => (none, q)
  | x :: rest => (some x, { cells := rest })

/-! ## Router state (`router.h`, `router.c`) -/

/-- Pending packet `struct packet`. -/
structure packet where
  buf : Buf
  len : Nat
  interface : Int
  next_hop : Nat

/-- Router state `struct routing`. The header pointers `eth_hdr`, `ip_hdr`, `arp_hdr`
and `icmp_hdr` are fixed offsets into `buf` and appear as the offset constants. -/
structure routing where
  ipv4s : ipv4_table
  macs : arp_table
  waiting : queue packet
  buf : Buf
  len : Nat
  next_hop : Nat
  interface : Int

/-- The link layer collaborator: `Get_IPV4_Interface` and `Get_MAC_Interface`. -/
structure Link where
  ipv4 : Int → Nat
  mac : Int → List Nat

/-- A frame handed to `Send_To_Link`. -/
structure frame where
  interface : Int
  data : List Nat
  deriving DecidableEq, Repr

/-- Model of `Send_To_Link(interface, frame_data, length)`: the frame written. -/
def Send_To_Link (interface : Int) (frame_data : Buf) (length : Nat) : frame :=
  { interface := interface, data := bytesOf frame_data length }

/-- Model of `Send_Packet`: a heap copy of the first `len` bytes of the working
buffer with the length, interface and next hop; the bytes of the new buffer that
are not copied are taken as zero. -/
def Send_Packet (route : routing) : packet :=
  { buf := memcpy (fun _ => 0) 0 route.buf 0 route.len
    len := route.len
    interface := route.interface
    next_hop := route.next_hop }

/-- Model of `Waiting_Packet`: the router takes length, interface and next hop from
the packet and completes the Ethernet header inside the packet's buffer (EtherType
IPv4, destination from the sender hardware address of the ARP header in the working
buffer, source the MAC of the packet's interface). -/
def Waiting_Packet (lk : Link) (route : routing) (pkt : packet) : routing × packet :=
  let route := { route with len := pkt.len, interface := pkt.interface, next_hop := pkt.next_hop }
  let b := wr16 pkt.buf ETH_TYPE IP_TYPE
  let b := writeMac b ETH_DHOST (readMac route.buf ARP_SHA)
  let b := writeMac b ETH_SHOST (lk.mac route.interface)
  (route, { pkt with buf := b })

/-! ## ARP engine (`arp.c`) -/

/-- Model of `Reply_ARP`. -/
def Reply_ARP (lk : Link) (rout : routing) : routing :=
  let b := wr16 rout.buf ARP_OP OP_REPLY
  let b := wr32 b ARP_TPA (rd32 b ARP_SPA)
  let b := writeMac b ARP_THA (readMac b ARP_SHA)
  let b := writeMac b ARP_SHA (lk.mac rout.interface)
  let b := wr32 b ARP_SPA (lk.ipv4 rout.interface)
  let b := writeMac b ETH_DHOST (readMac b ETH_SHOST)
  let b := writeMac b ETH_SHOST (lk.mac rout.interface)
  { rout with buf := b }

/-- Model of `Init_ETH_Header`. -/
def Init_ETH_Header (lk : Link) (rout : routing) : routing :=
  let b := wr16 rout.buf ETH_TYPE ARP_TYPE
  let b := writeMac b ETH_SHOST (lk.mac rout.interface)
  let b := memset b ETH_DHOST 0xff MAC_SIZE
  { rout with buf := b }

/-- Model of `Init_ARP_Header`. -/
def Init_ARP_Header (lk : Link) (rout : routing) : routing :=
  let b := wr16 rout.buf ARP_HTYPE HTYPE_ETHER
  let b := wr16 b ARP_PTYPE IP_TYPE
  let b := wr8 b ARP_HLEN HW_LEN
  let b := wr8 b ARP_PLEN PT_LEN
  let b := wr16 b ARP_OP OP_REQUEST
  let b := writeMac b ARP_SHA (lk.mac rout.interface)
  let b := wr32 b ARP_SPA (lk.ipv4 rout.interface)
  let b := memset b ARP_THA 0 MAC_SIZE
  let b := wr32 b ARP_TPA rout.next_hop
  { rout with buf := b }

/-- Model of `Update_ARP_Length`. -/
def Update_ARP_Length (rout : routing) : routing :=
  { rout with len := ETH_SIZE + ARP_HDR_SIZE }

/-- Model of `Request_ARP`. -/
def Request_ARP (lk : Link) (rout : routing) : routing :=
  Update_ARP_Length (Init_ARP_Header lk (Init_ETH_Header lk rout))

/-- One iteration of the drain loop of `Handler_ARP` on a non-empty queue: the head is
dequeued; when its next hop is the sender protocol address of the reply it is completed
by `Waiting_Packet` and sent, otherwise it is enqueued again. -/
def drainStep (lk : Link) (rout : routing) (pkt : packet) (rest : queue packet) :
    routing × List frame :=
  let rout := { rout with waiting := rest }
  if pkt.next_hop = rd32 rout.buf ARP_SPA then
    let (rout, pkt) := Waiting_Packet lk rout pkt
    (rout, [Send_To_Link rout.interface pkt.buf rout.len])
  else
    ({ rout with waiting := Enqueue rout.waiting pkt }, [])

/-- The loop `while (!EmptyQueue(rout->waiting))` of `Handler_ARP`, run for at most
`fuel` iterations; `none` means that the loop has not exited within `fuel` iterations.
The second component collects the frames sent, in order. -/
def drainLoop (lk : Link) : Nat → routing → List frame → Option (routing × List frame)
  | 0, rout, out => if EmptyQueue rout.waiting then some (rout, out) else none
  | fuel + 1, rout, out =>
    if EmptyQueue rout.waiting then some (rout, out)
    else
      match Dequeue rout.waiting with
      | (none, _) => none
      | (some pkt, rest) =>
        let step := drainStep lk rout pkt rest
        drainLoop lk fuel step.1 (out ++ step.2)

/-- Model of `Handler_ARP`, the drain loop bounded by `fuel`; the result is the router
state at return and the frames sent, `none` when the handler has not returned. -/
def Handler_ARP (lk : Link) (fuel : Nat) (rout : routing) : Option (routing × List frame) :=
  if rd16 rout.buf ETH_TYPE ≠ ARP_TYPE then some (rout, [])
  else if rd16 rout.buf ARP_OP = OP_REQUEST then
    let rout := Reply_ARP lk rout
    some (rout, [Send_To_Link rout.interface rout.buf rout.len])
  else if rd16 rout.buf ARP_OP ≠ OP_REPLY then some (rout, [])
  else
    let entry : arp_entry := { ip := rd32 rout.buf ARP_SPA, mac := readMac rout.buf ARP_SHA }
    let rout := { rout with macs := Insert_ARP_Entry rout.macs entry }
    drainLoop lk fuel rout []

/-! ## ICMP responder (`icmp.c`) and IPv4 header (`ipv4.c`) -/

/-- Model of `Init_ICMP_Header`. -/
def Init_ICMP_Header (rout : routing) (type : Nat) : routing :=
  let len := ETH_SIZE + IP_SIZE + ICMP_SIZE
  let rout := { rout with len := len }
  let rout :=
    if type = ICMP_TIME_EXCED ∨ type = ICMP_DEST_UNREACH then
      { rout with buf := memcpy rout.buf rout.len rout.buf ETH_SIZE 28, len := rout.len + 28 }
    else rout
  let b := wr8 rout.buf ICMP_CODE 0
  let b := wr8 b ICMP_TYPE type
  { rout with buf := b }

/-- Model of `Checksum_ICMP`. -/
def Checksum_ICMP (rout : routing) : routing :=
  let b := wr16 rout.buf ICMP_CHECKSUM 0
  let b := wr16 b ICMP_CHECKSUM (htons (Checksum 0 b ICMP_TYPE ICMP_SIZE))
  { rout with buf := b }

/-- Model of `Set_IPV4_Fields`, statement by statement; the bit-fields `ihl` and
`version` are the low and the high half of the first header byte. -/
def Set_IPV4_Fields (lk : Link) (route : routing) (type : Nat) : routing :=
  let b := route.buf
  let b := wr8 b IP_VHL ((b IP_VHL / 16) * 16 + IPV4_IHL % 16)
  let b := wr8 b IP_VHL ((IPV4_VERSION % 16) * 16 + b IP_VHL % 16)
  let b := wr8 b IP_TOS 0
  let b := wr16 b IP_ID (htons 1)
  let b := wr16 b IP_FRAG_OFF 0
  let b := wr8 b IP_TTL DEFAULT_TTL
  let b := wr8 b IP_PROTOCOL 1
  let b := wr16 b IP_CHECK 0
  let total_length := IP_SIZE + ICMP_SIZE
  let total_length :=
    if type = ICMP_TIME_EXCED ∨ type = ICMP_DEST_UNREACH then
      (total_length + (IP_SIZE + 8)) % 2 ^ 16
    else total_length
  let b := wr16 b IP_TOT_LEN (htons total_length)
  let src_addr := lk.ipv4 route.interface
  let b := wr32 b IP_SADDR src_addr
  let b := wr32 b IP_DADDR (rd32 b IP_SADDR)
  { route with buf := b }

/-- Model of `Update_IPV4_Checksum`. -/
def Update_IPV4_Checksum (route : routing) : routing :=
  let b := wr16 route.buf IP_CHECK 0
  let b := wr16 b IP_CHECK (htons (Checksum 0 b ETH_SIZE IP_SIZE))
  { route with buf := b }

/-- Model of `Header_IPV4`. -/
def Header_IPV4 (lk : Link) (route : routing) (type : Nat) : routing :=
  Update_IPV4_Checksum (Set_IPV4_Fields lk route type)

/-- Model of `Header_NewIP`. -/
def Header_NewIP (lk : Link) (rout : routing) (type : Nat) : routing :=
  Header_IPV4 lk rout type

/-- Model of `Header_NewETH`. -/
def Header_NewETH (lk : Link) (rout : routing) : routing :=
  let b := writeMac rout.buf ETH_DHOST (readMac rout.buf ETH_SHOST)
  let b := writeMac b ETH_SHOST (lk.mac rout.interface)
  { rout with buf := b }

/-- Model of `Reply_ICMP`. -/
def Reply_ICMP (lk : Link) (rout : routing) (type : Nat) : routing :=
  Header_NewETH lk (Header_NewIP lk (Checksum_ICMP (Init_ICMP_Header rout type)) type)

/-! ## IPv4 forwarder (`ipv4.c`) -/

/-- The operator `~` on a C `int`. -/
def bitNot (x : Int) : Int :=
  -x - 1

/-- The value stored by the assignment
`check = ~(~old_check + ~((uint16_t)ttl) + (uint16_t)(ttl - 1)) - 1`:
the operands are promoted to `int`, the result is truncated to 16 bits. -/
def incrementalCheck (old_check ttl : Nat) : Nat :=
  ((bitNot (bitNot (old_check : Int) + bitNot (ttl : Int) + ((ttl : Int) - 1) % 65536) - 1)
    % 65536).toNat

/-- The forward branch of `Handler_IPV4` (route found, `ttl > 1`): checksum update,
TTL decrement, then the ARP cache lookup. On a miss the frame is copied into the
pending queue and the working buffer is turned into an ARP request; on a hit the
Ethernet addresses are filled in. -/
def forwardIPV4 (lk : Link) (route : routing) (old_check : Nat) : routing :=
  let ttl := route.buf IP_TTL
  let b := wr16 route.buf IP_CHECK 0
  let b := wr16 b IP_CHECK (incrementalCheck old_check ttl)
  let b := wr8 b IP_TTL (ttl - 1)
  let route := { route with buf := b }
  let entry_idx := Get_ARP_Entry route.macs route.next_hop
  if entry_idx < 0 then
    let pckg := Send_Packet route
    let route := { route with waiting := Enqueue route.waiting pckg }
    Request_ARP lk route
  else
    let b := writeMac route.buf ETH_DHOST
      ((route.macs.addrs.getD entry_idx.toNat { ip := 0, mac := [] }).mac)
    let b := writeMac b ETH_SHOST (lk.mac route.interface)
    { route with buf := b }

/-- Model of `Handler_IPV4`: the router state at return and the frames sent. -/
def Handler_IPV4 (lk : Link) (route : routing) : routing × List frame :=
  let old_check := rd16 route.buf IP_CHECK
  let route := { route with buf := wr16 route.buf IP_CHECK 0 }
  if old_check ≠ htons (Checksum 0 route.buf ETH_SIZE IP_SIZE) then (route, [])
  else
    let route :=
      if rd32 route.buf IP_DADDR ≠ lk.ipv4 route.interface then
        match LPM_IPV4_Table route.ipv4s (rd32 route.buf IP_DADDR) with
        | some best_route =>
          let route :=
            { route with next_hop := best_route.next_hop, interface := best_route.interface }
          if route.buf IP_TTL > 1 then forwardIPV4 lk route old_check
          else Reply_ICMP lk route ICMP_TIME_EXCED
        | none => Reply_ICMP lk route ICMP_DEST_UNREACH
      else Reply_ICMP lk route ICMP_RESPONE
    (route, [Send_To_Link route.interface route.buf route.len])

/-! ## Derived notions used in the statements -/

/-- The validation test of `Handler_IPV4`: the stored header checksum equals
`htons(Checksum(header with the checksum field zeroed, 20))`. -/
def checksumValid (b : Buf) : Prop :=
  rd16 b IP_CHECK = htons (Checksum 0 (wr16 b IP_CHECK 0) ETH_SIZE IP_SIZE)

instance (b : Buf) : Decidable (checksumValid b) := by
  unfold checksumValid; infer_instance

/-- Every cell of the buffer holds a byte. -/
def isBytes (b : Buf) : Prop :=
  ∀ i, b i < 256

/-- The buffer whose first bytes are the list `l`, zero elsewhere. -/
def bufOfList (l : List Nat) : Buf :=
  fun i => l.getD i 0

/-! ## Concrete scenario data

Two interfaces: interface 0 with 192.168.0.1 and MAC 02:00:00:00:00:00, interface 1
with 192.168.1.254 and MAC 02:00:00:00:00:01. One route 10.0.0.0/8 via 192.168.1.1 on
interface 1. Addresses are the 32-bit values read from network-order bytes on a
little-endian host. -/

def linkEx : Link :=
  { ipv4 := fun i => if i = 0 then 0x0100A8C0 else 0xFE01A8C0
    mac := fun i => if i = 0 then [2, 0, 0, 0, 0, 0] else [2, 0, 0, 0, 0, 1] }

def tableEx : ipv4_table :=
  insertAll CreateEmpty_IPV4_Table
    [{ pfx := 0x0000000A, next_hop := 0x0101A8C0, mask := 0x000000FF, interface := 1 }]

def arpEx : arp_table :=
  { addrs := [{ ip := 0x0101A8C0, mac := [0x00, 0x11, 0x22, 0x33, 0x44, 0x55] }] }

/-- Router state right after a frame `l` has been received on `interface`. -/
def received (ipv4s : ipv4_table) (macs : arp_table) (waiting : queue packet)
    (l : List Nat) (interface : Int) : routing :=
  { ipv4s := ipv4s, macs := macs, waiting := waiting, buf := bufOfList l, len := l.length,
    next_hop := 0, interface := interface }

/-- IPv4 datagram 10.0.0.1 → 10.0.0.7, TTL 10, valid checksum. -/
def frameTTL10 : List Nat :=
  [2, 0, 0, 0, 0, 0, 0xaa, 0xaa, 0xaa, 0xaa, 0xaa, 0xaa, 0x08, 0x00,
   0x45, 0, 0, 28, 0, 0, 0x40, 0, 10, 1, 0x5c, 0xda, 10, 0, 0, 1, 10, 0, 0, 7,
   8, 0, 0xf7, 0xff, 0, 0, 0, 0]

/-- IPv4 datagram 10.0.0.1 → 10.0.0.7, TTL 1, valid checksum. -/
def frameTTL1 : List Nat :=
  [2, 0, 0, 0, 0, 0, 0xaa, 0xaa, 0xaa, 0xaa, 0xaa, 0xaa, 0x08, 0x00,
   0x45, 0, 0, 28, 0, 0, 0x40, 0, 1, 1, 0x65, 0xda, 10, 0, 0, 1, 10, 0, 0, 7,
   8, 0, 0xf7, 0xff, 0, 0, 0, 0]

/-- IPv4 datagram 10.0.0.1 → 10.0.101.169, TTL 2, whose valid checksum is `FE FF`. -/
def frameFEFF : List Nat :=
  [2, 0, 0, 0, 0, 0, 0xaa, 0xaa, 0xaa, 0xaa, 0xaa, 0xaa, 0x08, 0x00,
   0x45, 0, 0, 0x54, 0, 0, 0x40, 0, 2, 1, 0xfe, 0xff, 10, 0, 0, 1, 10, 0, 101, 169]

/-- ICMP Echo Request 10.0.0.1 → 192.168.0.1 (interface 0), TTL 64, payload "abc". -/
def frameEcho : List Nat :=
  [2, 0, 0, 0, 0, 0, 0xaa, 0xaa, 0xaa, 0xaa, 0xaa, 0xaa, 0x08, 0x00,
   0x45, 0, 0, 31, 0, 0, 0x40, 0, 64, 1, 0x70, 0x34, 10, 0, 0, 1, 192, 168, 0, 1,
   8, 0, 0x32, 0x9a, 0, 1, 0, 1, 0x61, 0x62, 0x63]

/-- ARP REPLY from 192.168.1.1, hardware address aa:bb:cc:dd:ee:ff, to interface 1. -/
def frameArpReply : List Nat :=
  [2, 0, 0, 0, 0, 1, 0xaa, 0xbb, 0xcc, 0xdd, 0xee, 0xff, 0x08, 0x06,
   0, 1, 0x08, 0x00, 6, 4, 0, 2,
   0xaa, 0xbb, 0xcc, 0xdd, 0xee, 0xff, 192, 168, 1, 1,
   2, 0, 0, 0, 0, 1, 192, 168, 1, 254]

/-- A pending packet for next hop 192.168.1.1 on interface 1. -/
def pktFor1 : packet :=
  { buf := bufOfList frameTTL10, len := 42, interface := 1, next_hop := 0x0101A8C0 }

/-- A pending packet for next hop 192.168.1.2 on interface 1. -/
def pktFor2 : packet :=
  { buf := bufOfList frameTTL10, len := 42, interface := 1, next_hop := 0x0201A8C0 }

/-- The cache lookup `find(ip)` as a linear scan: the first entry with the given ip. -/
def arpFind (arp : arp_table) (ip : Nat) : Option arp_entry :=
  arp.addrs.find? (fun e => decide (e.ip = ip))

/-- The hypotheses of a valid datagram that is to be forwarded: the stored checksum
passes the validation, the destination is not the address of the ingress interface, the
lookup yields `best`, and the TTL is greater than 1. -/
structure forwardable (lk : Link) (route : routing) (best : forward) : Prop where
  valid : checksumValid route.buf
  notLocal : rd32 route.buf IP_DADDR ≠ lk.ipv4 route.interface
  routed : LPM_IPV4_Table route.ipv4s (rd32 route.buf IP_DADDR) = some best
  alive : 1 < route.buf IP_TTL

/-- The working buffer after the first three stores of the forward branch of
`Handler_IPV4`: checksum field updated, TTL decremented. -/
def forwardedBuf (b : Buf) (old_check : Nat) : Buf :=
  wr8 (wr16 (wr16 b IP_CHECK 0) IP_CHECK (incrementalCheck old_check (b IP_TTL))) IP_TTL
    (b IP_TTL - 1)

/-! ## Dispatch loop (`router.c`) -/

/-- Model of the call `route->interface = Recv_FromAny_Link(route->buf, &route->len)`
of `main`: the bytes of the received frame overwrite the start of the working buffer,
the rest of the buffer keeps what it held. -/
def Recv_FromAny_Link (route : routing) (frame_data : List Nat) (interface : Int) : routing :=
  { route with
    buf := memcpy route.buf 0 (bufOfList frame_data) 0 frame_data.length,
    len := frame_data.length,
    interface := interface }

/-- One iteration of the loop of `main` after the frame has been received: the
EtherType read once into `PACKET_TYPE` selects `Handler_IPV4`, `Handler_ARP` or neither.
The result is the router state and the frames sent, `none` when the iteration has not
finished within `fuel` iterations of the drain loop. -/
def dispatch (lk : Link) (fuel : Nat) (route : routing) : Option (routing × List frame) :=
  let PACKET_TYPE := rd16 route.buf ETH_TYPE
  let r1 : routing × List frame :=
    if PACKET_TYPE = IP_TYPE then Handler_IPV4 lk route else (route, [])
  if PACKET_TYPE = ARP_TYPE then
    (Handler_ARP lk fuel r1.1).map (fun r2 => (r2.1, r1.2 ++ r2.2))
  else some r1

/-! ## Further notions used in the statements -/

/-- The four bytes of a 32-bit value in memory order (little-endian host). -/
def le32 (v : Nat) : List Nat :=
  [v % 256, (v / 256) % 256, (v / 65536) % 256, (v / 16777216) % 256]

/-- The `k` big-endian 16-bit words of the byte sequence starting at `off`. -/
def wordsBE (data : Buf) (off : Nat) : Nat → List Nat
  | 0 => []
  | k + 1 => (256 * data off + data (off + 1)) :: wordsBE data (off + 2) k

/-- One's-complement addition of two 16-bit values: the carry out of bit 15 is added
back in at bit 0 (end-around carry). -/
def ocAdd (a b : Nat) : Nat :=
  (a + b) % 65536 + (a + b) / 65536

/-- One's-complement sum of a list of 16-bit words. -/
def ocSum (ws : List Nat) : Nat :=
  ws.foldl ocAdd 0

/-- The accumulator of `Checksum` after the two folding steps (even length). -/
def foldedAcc (data : Buf) (off len : Nat) : Nat :=
  let checksum := sumWords data off (len / 2) 0
  let checksum := (checksum / 2 ^ 16 + checksum % 2 ^ 16) % 2 ^ 64
  (checksum + checksum / 2 ^ 16) % 2 ^ 64

/-- The frame that the drain loop sends for a pending packet when the reply carries
the sender hardware address `m`: EtherType IPv4, destination `m`, source the MAC of
the packet's interface, sent on the packet's interface with the packet's length. -/
def drainedFrame (lk : Link) (m : List Nat) (pkt : packet) : frame :=
  Send_To_Link pkt.interface
    (writeMac (writeMac (wr16 pkt.buf ETH_TYPE IP_TYPE) ETH_DHOST m) ETH_SHOST
      (lk.mac pkt.interface))
    pkt.len

/-- The Ethernet source address of an emitted frame is the MAC of the interface on
which it is sent (frames too short to hold the two Ethernet addresses apart). -/
def sourceIsOwnMac (lk : Link) (f : frame) : Prop :=
  12 ≤ f.data.length → (f.data.drop 6).take 6 = lk.mac f.interface

/-- An ARP cache at capacity: 1001 entries, for the addresses 1 … 1001. -/
def fullCache : arp_table :=
  { addrs := (List.range 1001).map (fun k => { ip := k + 1, mac := [2, 0, 0, 0, 1, 0] }) }

/-- The value of a one's-complement sum whose plain sum is `S`: zero for `S = 0`,
otherwise the representative of `S` modulo 65535 in the range 1 … 65535. -/
def ocNorm (S : Nat) : Nat :=
  if S = 0 then 0 else (S - 1) % 65535 + 1

/-- ARP REQUEST from 192.168.1.1 (aa:bb:cc:dd:ee:ff), broadcast, asking for
192.168.1.254, the address of interface 1. -/
def frameArpRequest : List Nat :=
  [0xff, 0xff, 0xff, 0xff, 0xff, 0xff, 0xaa, 0xbb, 0xcc, 0xdd, 0xee, 0xff, 0x08, 0x06,
   0, 1, 0x08, 0x00, 6, 4, 0, 1,
   0xaa, 0xbb, 0xcc, 0xdd, 0xee, 0xff, 192, 168, 1, 1,
   0, 0, 0, 0, 0, 0, 192, 168, 1, 254]

/-- ARP REQUEST from 192.168.1.1 (aa:bb:cc:dd:ee:ff), broadcast, asking for
192.168.1.77, which is not an address of the router. -/
def frameArpRequestOther : List Nat :=
  [0xff, 0xff, 0xff, 0xff, 0xff, 0xff, 0xaa, 0xbb, 0xcc, 0xdd, 0xee, 0xff, 0x08, 0x06,
   0, 1, 0x08, 0x00, 6, 4, 0, 1,
   0xaa, 0xbb, 0xcc, 0xdd, 0xee, 0xff, 192, 168, 1, 1,
   0, 0, 0, 0, 0, 0, 192, 168, 1, 77]

/-- Host route 10.0.0.7/32 via 192.168.0.9 on interface 0. -/
def routeHost : route :=
  { pfx := 0x0700000A, next_hop := 0x0900A8C0, mask := 0xFFFFFFFF, interface := 0 }

/-- Route 10.0.0.0/8 via 192.168.1.1 on interface 1. -/
def routeNetA : route :=
  { pfx := 0x0000000A, next_hop := 0x0101A8C0, mask := 0x000000FF, interface := 1 }

/-- Route 10.0.0.0/8 via 192.168.2.1 on interface 2. -/
def routeNetB : route :=
  { pfx := 0x0000000A, next_hop := 0x0102A8C0, mask := 0x000000FF, interface := 2 }

/-- The router state after `n` iterations of the loop
`while (!EmptyQueue(rout->waiting))` of `Handler_ARP`; once the queue is empty the loop
has exited and the state stays as it is. -/
def drainIterate (lk : Link) : Nat → routing → routing
  | 0, rout => rout
  | n + 1, rout =>
    if EmptyQueue rout.waiting then rout
    else
      match Dequeue rout.waiting with
      | (none, _) => rout
      | (some pkt, rest) => drainIterate lk n (drainStep lk rout pkt rest).1

/-- One step of the naive linear scan of a route list for the destination `d`: a route
with `(d & mask) == (prefix & mask)` replaces the best route so far unless that one has
a greater mask; among equal masks the later route wins. -/
def naiveStep (d : Nat) (best : Option route) (r : route) : Option route :=
  if d &&& r.mask = r.pfx &&& r.mask then
    match best with
    | none => some r
    | some b => if b.mask ≤ r.mask then some r else some b
  else best

/-- The naive linear scan: the next hop and interface of the matching route with the
greatest mask, the last one in the list among equals; `none` if no route matches. -/
def naiveLPM (R : List route) (d : Nat) : Option forward :=
  (R.foldl (naiveStep d) none).map
    (fun r => { next_hop := r.next_hop, interface := r.interface, status := true })

/-- The number of nodes on the longest downward path that starts at `e` (0 for `NULL`):
every node below `e` lies at most `height e - 1` edges below it. -/
def height : ipv4_entry → Nat
  | .null => 0
  | .node _ _ _ l r => 1 + max (height l) (height r)

/-- The route `r` is accepted by `Insert_IPV4_Table` and its walk ends at depth `k` on
the path spelled by the low bits of `d` (bit `j` of `d` chooses the child at depth `j`,
0 for left and 1 for right). -/
def endsOnPath (r : route) (d k : Nat) : Prop :=
  r.mask ≠ 0 ∧ popcount r.mask = k ∧
    ∀ j, j < k → (r.pfx &&& r.mask).testBit j = d.testBit j

/-! ## Queue in memory (`queue.c`, `list.c`)

The queue with its cells and pointers, below the list view `queue` used by the
handlers. An address is a natural number; `none` is the `NULL` pointer. -/

/-- List cell `struct cell`. -/
structure cell (α : Type) where
  elem : α
  next : Option Nat

/-- The memory of list cells together with `struct queue`: `mem a` is the cell allocated
at address `a` (`none` where no cell is allocated), `head` and `tail` are the two
pointers of the queue. -/
structure ptr.queue (α : Type) where
  mem : Nat → Option (cell α)
  head : Option Nat
  tail : Option Nat

/-- Model of `InsertElem(elem, l)`: `a` is the address returned by `malloc`; the result
is the memory with the new cell and the pointer to it. -/
def ptr.InsertElem {α : Type} (mem : Nat → Option (cell α)) (elem : α) (l : Option Nat)
    (a : Nat) : (Nat → Option (cell α)) × Option Nat :=
  (fun i => if i = a then some { elem := elem, next := l } else mem i, some a)

/-- Model of `DeleteElem(l)`: the `next` pointer of the cell at `l` is read, the cell is
freed and the pointer read is returned. -/
def ptr.DeleteElem {α : Type} (mem : Nat → Option (cell α)) (l : Nat) :
    (Nat → Option (cell α)) × Option Nat :=
  (fun i => if i = l then none else mem i, (mem l).bind (fun c => c.next))

/-- Model of `Queue()` in the cell memory `mem`: both pointers are `NULL`. -/
def ptr.Queue {α : Type} (mem : Nat → Option (cell α)) : ptr.queue α :=
  { mem := mem, head := none, tail := none }

/-- Model of `EmptyQueue`: `!q->head`. -/
def ptr.EmptyQueue {α : Type} (q : ptr.queue α) : Bool :=
  q.head.isNone

/-- Model of `Enqueue(q, elem)`, with `a` the address returned by `malloc` inside
`InsertElem`: on an empty queue both pointers are set to the new cell; otherwise the new
cell is stored into `q->tail->next` and `q->tail` advances to it. -/
def ptr.Enqueue {α : Type} (q : ptr.queue α) (elem : α) (a : Nat) : ptr.queue α :=
  if ptr.EmptyQueue q then
    let r := ptr.InsertElem q.mem elem none a
    { mem := r.1, head := r.2, tail := r.2 }
  else
    let r := ptr.InsertElem q.mem elem none a
    { mem := fun i =>
        if some i = q.tail then (r.1 i).map (fun c => { c with next := r.2 }) else r.1 i
      head := q.head
      tail := r.2 }

/-- Model of `Dequeue(q)`: `NULL` on an empty queue; otherwise the element of the head
cell is returned and `q->head = DeleteElem(q->head)`; `q->tail` is not touched. -/
def ptr.Dequeue {α : Type} (q : ptr.queue α) : Option α × ptr.queue α :=
  if ptr.EmptyQueue q then (none, q)
  else
    match q.head with
    | none => (none, q)
    | some h =>
      let temp := (q.mem h).map (fun c => c.elem)
      let r := ptr.DeleteElem q.mem h
      (temp, { mem := r.1, head := r.2, tail := q.tail })

/-- The cells reached from the pointer `p` through `next` hold the elements of the
list, in order, the last `next` pointer is `NULL`, and for a non-empty list `last`
points to the last cell. -/
def ptr.chain {α : Type} (mem : Nat → Option (cell α)) :
    Option Nat → List α → Option Nat → Prop
  | p, [], _ => p = none
  | p, x :: L, last =>
    ∃ a c, p = some a ∧ mem a = some c ∧ c.elem = x ∧ (L = [] → last = some a) ∧
      ptr.chain mem c.next L last

/-- The abstract content of the queue in memory is the list `L`. -/
def ptr.Rep {α : Type} (q : ptr.queue α) (L : List α) : Prop :=
  ptr.chain q.mem q.head L q.tail

/-- Queue operation: `Enqueue` of `x` with `malloc` returning the address `a`, or
`Dequeue`. -/
inductive qop (α : Type) where
  | enq (x : α) (a : Nat) : qop α
  | deq : qop α

/-- The queue in memory after an operation. -/
def ptr.step {α : Type} (q : ptr.queue α) : qop α → ptr.queue α
  | .enq x a => ptr.Enqueue q x a
  | .deq => (ptr.Dequeue q).2

/-- The list after an operation: `Enqueue` appends, `Dequeue` removes the head. -/
def listStep {α : Type} (L : List α) : qop α → List α
  | .enq x _ => L ++ [x]
  | .deq => L.tail

/-- Every address that `malloc` returns during the operations is free at that time. -/
def ptr.allocOk {α : Type} : ptr.queue α → List (qop α) → Prop
  | _, [] => True
  | q, .enq x a :: ops => q.mem a = none ∧ ptr.allocOk (ptr.Enqueue q x a) ops
  | q, .deq :: ops => ptr.allocOk (ptr.Dequeue q).2 ops

/-- Four operations that fill and empty a queue: two cells at the addresses 0 and 1 are
allocated and freed again. -/
def opsEmptied : List (qop Nat) :=
  [.enq 7 0, .enq 8 1, .deq, .deq]

/-- The operations `opsEmptied` followed by an `Enqueue` for which `malloc` returns the
freed address 0 again. -/
def opsRefilled : List (qop Nat) :=
  opsEmptied ++ [.enq 9 0]

end Router

namespace Router

/-! ## Longest-prefix match: the trie against the route list -/

theorem validAt_orCreate (e : ipv4_entry) (ip j : Nat) :
    validAt (orCreate e) ip j = validAt e ip j := by
  cases e with
  | null =>
    cases j with
    | zero => simp [orCreate, Create_IPV4_Entry, validAt]
    | succ j => simp [orCreate, Create_IPV4_Entry, validAt]
  | node nh t i l r => rfl

theorem orCreate_ne_null (e : ipv4_entry) : orCreate e ≠ .null := by
  cases e <;> simp [orCreate, Create_IPV4_Entry]

theorem insertWalk_ne_null (rt : route) (n network : Nat) (e : ipv4_entry)
    (he : e ≠ .null) : insertWalk rt n network e ≠ .null := by
  cases e with
  | null => exact absurd rfl he
  | node nh t i l r =>
    cases n with
    | zero => simp [insertWalk]
    | succ n =>
      simp only [insertWalk]
      split <;> simp

theorem mod_two_pow_succ_eq_iff (a b n : Nat) :
    a % 2 ^ (n + 1) = b % 2 ^ (n + 1) ↔ a % 2 = b % 2 ∧ (a / 2) % 2 ^ n = (b / 2) % 2 ^ n := by
  have ha : a % 2 ^ (n + 1) = a % 2 + 2 * (a / 2 % 2 ^ n) := by
    rw [pow_succ, Nat.mul_comm, Nat.mod_mul]
  have hb : b % 2 ^ (n + 1) = b % 2 + 2 * (b / 2 % 2 ^ n) := by
    rw [pow_succ, Nat.mul_comm, Nat.mod_mul]
  rw [ha, hb]
  have h1 : a % 2 < 2 := Nat.mod_lt _ (by decide)
  have h2 : b % 2 < 2 := Nat.mod_lt _ (by decide)
  constructor
  · intro h; omega
  · rintro ⟨h3, h4⟩; omega

/-- Lookup slots after one insertion walk: only the slot at depth `n` on the path of
the inserted network changes. -/
theorem validAt_insertWalk (rt : route) (n : Nat) :
    ∀ (network : Nat) (e : ipv4_entry), e ≠ .null → ∀ (ip j : Nat),
      validAt (insertWalk rt n network e) ip j =
        if j = n ∧ ip % 2 ^ n = network % 2 ^ n then
          some { next_hop := rt.next_hop, interface := rt.interface, status := true }
        else validAt e ip j := by
  induction n with
  | zero =>
    intro network e he ip j
    cases e with
    | null => exact absurd rfl he
    | node nh t i l r =>
      cases j with
      | zero => simp [insertWalk, validAt, Nat.mod_one]
      | succ j => simp [insertWalk, validAt]
  | succ n ih =>
    intro network e he ip j
    cases e with
    | null => exact absurd rfl he
    | node nh t i l r =>
      by_cases hb : network % 2 = 1
      · simp only [insertWalk, hb, if_true]
        cases j with
        | zero => simp [validAt]
        | succ j =>
          simp only [validAt]
          by_cases hi : ip % 2 = 1
          · simp only [hi, if_true]
            rw [ih (network / 2) (orCreate r) (orCreate_ne_null r) (ip / 2) j,
              validAt_orCreate]
            simp [mod_two_pow_succ_eq_iff, hi, hb]
          · simp only [hi, if_false]
            have : ¬ (ip % 2 = network % 2) := by omega
            simp [mod_two_pow_succ_eq_iff, this]
      · simp only [insertWalk, hb, if_false]
        cases j with
        | zero => simp [validAt]
        | succ j =>
          simp only [validAt]
          by_cases hi : ip % 2 = 1
          · simp only [hi, if_true]
            have : ¬ (ip % 2 = network % 2) := by omega
            simp [mod_two_pow_succ_eq_iff, this]
          · simp only [hi, if_false]
            rw [ih (network / 2) (orCreate l) (orCreate_ne_null l) (ip / 2) j,
              validAt_orCreate]
            have : ip % 2 = network % 2 := by omega
            simp [mod_two_pow_succ_eq_iff, this]

/-- The lookup loop returns the deepest Valid slot on the path of `ip`, or the
initial value when the path has no Valid slot. -/
theorem lpmWalk_spec (e : ipv4_entry) :
    ∀ (ip : Nat) (acc : Option forward),
      (lpmWalk e ip acc = acc ∧ ∀ j, validAt e ip j = none) ∨
      (∃ j f, validAt e ip j = some f ∧ lpmWalk e ip acc = some f ∧
        ∀ j2, j < j2 → validAt e ip j2 = none) := by
  induction e with
  | null => intro ip acc; left; exact ⟨rfl, fun j => by cases j <;> rfl⟩
  | node nh t i l r ihl ihr =>
    intro ip acc
    have key : ∀ (c : ipv4_entry),
        (∀ (ip : Nat) (acc : Option forward),
          (lpmWalk c ip acc = acc ∧ ∀ j, validAt c ip j = none) ∨
          (∃ j f, validAt c ip j = some f ∧ lpmWalk c ip acc = some f ∧
            ∀ j2, j < j2 → validAt c ip j2 = none)) →
        (∀ j, validAt (.node nh t i l r) ip (j + 1) = validAt c (ip / 2) j) →
        (∀ a, lpmWalk (.node nh t i l r) ip a =
          lpmWalk c (ip / 2)
            (if t = 1 then some { next_hop := nh, interface := i, status := true } else a)) →
        (lpmWalk (.node nh t i l r) ip acc = acc ∧
          ∀ j, validAt (.node nh t i l r) ip j = none) ∨
        (∃ j f, validAt (.node nh t i l r) ip j = some f ∧
          lpmWalk (.node nh t i l r) ip acc = some f ∧
          ∀ j2, j < j2 → validAt (.node nh t i l r) ip j2 = none) := by
      intro c ihc hv hl
      rcases ihc (ip / 2)
        (if t = 1 then some { next_hop := nh, interface := i, status := true } else acc) with
        ⟨h1, h2⟩ | ⟨j, f, h1, h2, h3⟩
      · by_cases ht : t = 1
        · right
          refine ⟨0, { next_hop := nh, interface := i, status := true }, ?_, ?_, ?_⟩
          · simp [validAt, ht]
          · rw [hl, h1]; simp [ht]
          · intro j2 hj2
            obtain ⟨j3, rfl⟩ : ∃ j3, j2 = j3 + 1 := ⟨j2 - 1, by omega⟩
            rw [hv]; exact h2 j3
        · left
          refine ⟨?_, ?_⟩
          · rw [hl, h1]; simp [ht]
          · intro j
            cases j with
            | zero => simp [validAt, ht]
            | succ j => rw [hv]; exact h2 j
      · right
        refine ⟨j + 1, f, ?_, ?_, ?_⟩
        · rw [hv]; exact h1
        · rw [hl]; exact h2
        · intro j2 hj2
          obtain ⟨j3, rfl⟩ : ∃ j3, j2 = j3 + 1 := ⟨j2 - 1, by omega⟩
          rw [hv]; exact h3 j3 (by omega)
    by_cases hi : ip % 2 = 1
    · exact key r ihr (fun j => by simp [validAt, hi]) (fun a => by simp [lpmWalk, hi])
    · exact key l ihl (fun j => by simp [validAt, hi]) (fun a => by simp [lpmWalk, hi])

theorem insertAll_root_ne_null (R : List route) :
    ∀ (T : ipv4_table), T.root ≠ .null → (insertAll T R).root ≠ .null := by
  induction R with
  | nil => intro T hT; exact hT
  | cons r R ih =>
    intro T hT
    show (insertAll (Insert_IPV4_Table T r) R).root ≠ .null
    refine ih (Insert_IPV4_Table T r) ?_
    by_cases hm : r.mask = 0
    · simpa [Insert_IPV4_Table, hm] using hT
    · simp only [Insert_IPV4_Table, hm, if_false]
      exact insertWalk_ne_null _ _ _ _ hT

theorem validAt_Insert (T : ipv4_table) (hT : T.root ≠ .null) (r : route) (d j : Nat) :
    validAt (Insert_IPV4_Table T r).root d j = slotStep d j (validAt T.root d j) r := by
  unfold Insert_IPV4_Table slotStep
  by_cases hm : r.mask = 0
  · simp [hm]
  · simp only [hm, if_false]
    rw [validAt_insertWalk _ _ _ _ hT]
    by_cases hj : popcount r.mask = j
    · subst hj; simp [hm]
    · have hj2 : ¬ j = popcount r.mask := fun h => hj h.symm
      simp [hj, hj2]

theorem validAt_insertAll (R : List route) (d j : Nat) :
    ∀ (T : ipv4_table), T.root ≠ .null →
      validAt (insertAll T R).root d j = R.foldl (slotStep d j) (validAt T.root d j) := by
  induction R with
  | nil => intro T _; rfl
  | cons r R ih =>
    intro T hT
    have h1 : (Insert_IPV4_Table T r).root ≠ .null :=
      insertAll_root_ne_null [r] T hT
    have h2 := ih (Insert_IPV4_Table T r) h1
    rw [validAt_Insert T hT] at h2
    show validAt (insertAll (Insert_IPV4_Table T r) R).root d j = _
    rw [h2]
    rfl

theorem foldl_slotStep_some (d j : Nat) (R : List route) :
    ∀ (init : Option forward) (f : forward), R.foldl (slotStep d j) init = some f →
      init = some f ∨ ∃ r ∈ R, r.mask ≠ 0 ∧ popcount r.mask = j ∧
        d % 2 ^ j = (r.pfx &&& r.mask) % 2 ^ j ∧
        f = { next_hop := r.next_hop, interface := r.interface, status := true } := by
  induction R with
  | nil => intro init f h; left; exact h
  | cons r R ih =>
    intro init f h
    rcases ih (slotStep d j init r) f h with h1 | ⟨r2, hr2, h2⟩
    · unfold slotStep at h1
      split at h1
      · rename_i hc
        right
        refine ⟨r, List.mem_cons_self _ _, hc.1, hc.2.1, hc.2.2, ?_⟩
        exact (Option.some.inj h1).symm
      · left; exact h1
    · right; exact ⟨r2, List.mem_cons_of_mem _ hr2, h2⟩

theorem foldl_slotStep_isSome (d j : Nat) (R : List route) :
    ∀ (init : Option forward),
      (init.isSome ∨ ∃ r ∈ R, r.mask ≠ 0 ∧ popcount r.mask = j ∧
        d % 2 ^ j = (r.pfx &&& r.mask) % 2 ^ j) →
      (R.foldl (slotStep d j) init).isSome := by
  induction R with
  | nil =>
    intro init h
    rcases h with h | ⟨r, hr, _⟩
    · exact h
    · cases hr
  | cons r R ih =>
    intro init h
    apply ih
    rcases h with h | ⟨r2, hr2, h2⟩
    · left
      unfold slotStep
      split
      · rfl
      · exact h
    · rcases List.mem_cons.mp hr2 with rfl | hr3
      · left
        unfold slotStep
        rw [if_pos h2]; rfl
      · right; exact ⟨r2, hr3, h2⟩

theorem popcount_lowMask (k : Nat) (hk : k ≤ 32) : popcount (2 ^ k - 1) = k := by
  interval_cases k <;> decide

/-- For a low mask the slot condition of the trie is the matching test of the scanner. -/
theorem slot_cond_iff_routeMatches (r : route) (h : lowMask r.mask) (d : Nat) :
    d % 2 ^ popcount r.mask = (r.pfx &&& r.mask) % 2 ^ popcount r.mask ↔ routeMatches r d := by
  obtain ⟨k, h2, hm⟩ := h
  unfold routeMatches
  rw [hm, popcount_lowMask k h2, Nat.and_pow_two_sub_one_eq_mod,
    Nat.and_pow_two_sub_one_eq_mod, Nat.mod_mod]

/-- C1 (amended): for every list of routes `R` whose masks are, as stored 32-bit
values, of the form `2^k - 1` with `k ≤ 32`, inserted in order into the empty table, and
every destination `d`: routes with a zero mask are ignored; the lookup returns none
exactly when no route of `R` with a non-zero mask has `(d & mask) == (prefix & mask)`,
and otherwise it returns the next hop and interface of a route of `R` with a non-zero
mask that matches `d` and whose mask has the most set bits among such routes. -/
theorem LPM_IPV4_Table_longest_match (R : List route) (hR : ∀ r ∈ R, lowMask r.mask)
    (d : Nat) :
    (LPM_IPV4_Table (insertAll CreateEmpty_IPV4_Table R) d = none ↔
      ∀ r ∈ R, r.mask ≠ 0 → ¬ routeMatches r d) ∧
    (∀ f, LPM_IPV4_Table (insertAll CreateEmpty_IPV4_Table R) d = some f →
      ∃ r ∈ R, r.mask ≠ 0 ∧ routeMatches r d ∧
        f.next_hop = r.next_hop ∧ f.interface = r.interface ∧
        ∀ r2 ∈ R, r2.mask ≠ 0 → routeMatches r2 d → popcount r2.mask ≤ popcount r.mask) := by
  have hroot : CreateEmpty_IPV4_Table.root ≠ .null := by simp [CreateEmpty_IPV4_Table]
  have hempty : ∀ j, validAt CreateEmpty_IPV4_Table.root d j = none := by
    intro j; cases j <;> simp [CreateEmpty_IPV4_Table, validAt]
  have hslot : ∀ j, validAt (insertAll CreateEmpty_IPV4_Table R).root d j =
      R.foldl (slotStep d j) none := by
    intro j; rw [validAt_insertAll R d j _ hroot, hempty]
  -- a matching route makes its slot Valid
  have hfill : ∀ r ∈ R, r.mask ≠ 0 → routeMatches r d →
      (validAt (insertAll CreateEmpty_IPV4_Table R).root d (popcount r.mask)).isSome := by
    intro r hr h0 hm
    rw [hslot]
    apply foldl_slotStep_isSome
    right
    exact ⟨r, hr, h0, rfl, (slot_cond_iff_routeMatches r (hR r hr) d).mpr hm⟩
  -- a Valid slot comes from a matching route
  have hsrc : ∀ j f, validAt (insertAll CreateEmpty_IPV4_Table R).root d j = some f →
      ∃ r ∈ R, r.mask ≠ 0 ∧ popcount r.mask = j ∧ routeMatches r d ∧
        f = { next_hop := r.next_hop, interface := r.interface, status := true } := by
    intro j f h
    rw [hslot] at h
    rcases foldl_slotStep_some d j R none f h with h0 | ⟨r, hr, hz, hp, hc, hf⟩
    · cases h0
    · refine ⟨r, hr, hz, hp, ?_, hf⟩
      rw [← hp] at hc
      exact (slot_cond_iff_routeMatches r (hR r hr) d).mp hc
  unfold LPM_IPV4_Table
  rcases lpmWalk_spec (insertAll CreateEmpty_IPV4_Table R).root d none with
    ⟨h1, h2⟩ | ⟨j, f, h1, h2, h3⟩
  · refine ⟨⟨fun _ r hr h0 hm => ?_, fun _ => h1⟩, fun f hf => ?_⟩
    · have := hfill r hr h0 hm
      rw [h2] at this
      cases this
    · rw [h1] at hf; cases hf
  · obtain ⟨r, hr, hz, hp, hm, hf⟩ := hsrc j f h1
    refine ⟨⟨fun hn => ?_, fun hall => absurd hm (hall r hr hz)⟩, fun f2 hf2 => ?_⟩
    · rw [h2] at hn; cases hn
    · rw [h2] at hf2
      obtain rfl := Option.some.inj hf2
      refine ⟨r, hr, hz, hm, by rw [hf], by rw [hf], fun r2 hr2 h0 hm2 => ?_⟩
      by_contra hlt
      have := hfill r2 hr2 h0 hm2
      rw [h3 _ (by omega)] at this
      cases this

/-- C1 (witness): the amended statement at the table holding 10.0.0.0/24, 10.0.0.0/8
and 0.0.0.0/0 (masks stored as `0x00FFFFFF`, `0x000000FF` and `0`) and destination
10.0.0.7: the /24 route is returned. -/
theorem LPM_IPV4_Table_longest_match_witness :
    (∀ r ∈ [({ pfx := 0x0000000A, next_hop := 5, mask := 0x00FFFFFF, interface := 1 } : route),
        { pfx := 0x0000000A, next_hop := 6, mask := 0x000000FF, interface := 2 },
        { pfx := 0, next_hop := 9, mask := 0, interface := 0 }],
      lowMask r.mask) ∧
    LPM_IPV4_Table (insertAll CreateEmpty_IPV4_Table
      [{ pfx := 0x0000000A, next_hop := 5, mask := 0x00FFFFFF, interface := 1 },
        { pfx := 0x0000000A, next_hop := 6, mask := 0x000000FF, interface := 2 },
        { pfx := 0, next_hop := 9, mask := 0, interface := 0 }]) 0x0700000A
      = some { next_hop := 5, interface := 1, status := true } ∧
    ((LPM_IPV4_Table (insertAll CreateEmpty_IPV4_Table
      [{ pfx := 0x0000000A, next_hop := 5, mask := 0x00FFFFFF, interface := 1 },
        { pfx := 0x0000000A, next_hop := 6, mask := 0x000000FF, interface := 2 },
        { pfx := 0, next_hop := 9, mask := 0, interface := 0 }]) 0x0700000A
        = none ↔
      ∀ r ∈ [({ pfx := 0x0000000A, next_hop := 5, mask := 0x00FFFFFF, interface := 1 } : route),
        { pfx := 0x0000000A, next_hop := 6, mask := 0x000000FF, interface := 2 },
        { pfx := 0, next_hop := 9, mask := 0, interface := 0 }],
        r.mask ≠ 0 → ¬ routeMatches r 0x0700000A)) := by
  have hR : ∀ r ∈ [({ pfx := 0x0000000A, next_hop := 5, mask := 0x00FFFFFF, interface := 1 } : route),
      { pfx := 0x0000000A, next_hop := 6, mask := 0x000000FF, interface := 2 },
      { pfx := 0, next_hop := 9, mask := 0, interface := 0 }],
      lowMask r.mask := by
    intro r hr
    simp only [List.mem_cons, List.mem_singleton, List.not_mem_nil, or_false] at hr
    rcases hr with rfl | rfl | rfl
    · exact ⟨24, by decide, by decide⟩
    · exact ⟨8, by decide, by decide⟩
    · exact ⟨0, by decide, by decide⟩
  exact ⟨hR, by decide, (LPM_IPV4_Table_longest_match _ hR 0x0700000A).1⟩

/-- C1 (counterexample): the claim as stated fails on the code. With the single route
192.168.1.128/25 (stored mask `0x80FFFFFF`) the lookup of 192.168.1.2 returns that
route although `(d & mask) != prefix`; with the single route 0.0.0.0/0 the lookup of
any address returns none although `(d & mask) == prefix`. -/
theorem LPM_IPV4_Table_not_naive :
    (LPM_IPV4_Table (insertAll CreateEmpty_IPV4_Table
        [{ pfx := 0x8001A8C0, next_hop := 7, mask := 0x80FFFFFF, interface := 1 }]) 0x0201A8C0
        = some { next_hop := 7, interface := 1, status := true } ∧
      ∀ r ∈ [({ pfx := 0x8001A8C0, next_hop := 7, mask := 0x80FFFFFF, interface := 1 } : route)],
        ¬ (0x0201A8C0 &&& r.mask = r.pfx)) ∧
    (LPM_IPV4_Table (insertAll CreateEmpty_IPV4_Table
        [{ pfx := 0, next_hop := 9, mask := 0, interface := 2 }]) 0x0201A8C0 = none ∧
      ∃ r ∈ [({ pfx := 0, next_hop := 9, mask := 0, interface := 2 } : route)],
        0x0201A8C0 &&& r.mask = r.pfx) := by
  decide

/-! ## Incremental checksum update -/

/-- C2 (code at the failing input): the frame `frameFEFF` carries a header with TTL 2
whose stored checksum `FE FF` passes the validation of `Handler_IPV4`; the incremental
update stores `0xFFFF`, while `htons(Checksum(H', 20))` for the header with TTL 1 and
the checksum field zeroed is `0x0000`; the forwarded header does not pass the validation
of `Handler_IPV4`. -/
theorem Handler_IPV4_incremental_differs_at_FEFF :
    checksumValid (bufOfList frameFEFF) ∧
    bufOfList frameFEFF IP_TTL = 2 ∧
    (Handler_IPV4 linkEx (received tableEx arpEx Queue frameFEFF 0)).2.map (fun f => f.interface)
      = [1] ∧
    rd16 (Handler_IPV4 linkEx (received tableEx arpEx Queue frameFEFF 0)).1.buf IP_CHECK
      = 0xFFFF ∧
    htons (Checksum 0 (wr16 (wr8 (bufOfList frameFEFF) IP_TTL 1) IP_CHECK 0) ETH_SIZE IP_SIZE)
      = 0 ∧
    ¬ checksumValid (Handler_IPV4 linkEx (received tableEx arpEx Queue frameFEFF 0)).1.buf := by
  decide

/-! ## Drain loop of the ARP reply handler -/

theorem drainStep_buf (lk : Link) (rout : routing) (pkt : packet) (rest : queue packet) :
    (drainStep lk rout pkt rest).1.buf = rout.buf := by
  by_cases h : pkt.next_hop = rd32 rout.buf ARP_SPA <;>
    simp [drainStep, h, Waiting_Packet]

theorem drainStep_waiting (lk : Link) (rout : routing) (pkt : packet) (rest : queue packet) :
    (drainStep lk rout pkt rest).1.waiting.cells =
      if pkt.next_hop = rd32 rout.buf ARP_SPA then rest.cells else rest.cells ++ [pkt] := by
  by_cases h : pkt.next_hop = rd32 rout.buf ARP_SPA <;>
    simp [drainStep, h, Waiting_Packet, Enqueue]

/-- While the queue holds a packet whose next hop differs from the sender protocol
address of the reply, the drain loop does not exit, whatever the number of iterations. -/
theorem drainLoop_stuck (lk : Link) (fuel : Nat) :
    ∀ (rout : routing) (out : List frame),
      (∃ p ∈ rout.waiting.cells, p.next_hop ≠ rd32 rout.buf ARP_SPA) →
      drainLoop lk fuel rout out = none := by
  induction fuel with
  | zero =>
    intro rout out ⟨p, hp, _⟩
    have hne : EmptyQueue rout.waiting = false := by
      unfold EmptyQueue
      cases hc : rout.waiting.cells with
      | nil => rw [hc] at hp; cases hp
      | cons x t => rfl
    simp [drainLoop, hne]
  | succ fuel ih =>
    intro rout out ⟨p, hp, hne⟩
    cases hc : rout.waiting.cells with
    | nil => rw [hc] at hp; cases hp
    | cons x t =>
      have hempty : EmptyQueue rout.waiting = false := by
        unfold EmptyQueue; rw [hc]; rfl
      have hdq : Dequeue rout.waiting = (some x, { cells := t }) := by
        unfold Dequeue; rw [hc]
      simp only [drainLoop, hempty, hdq]
      apply ih
      rw [drainStep_buf, drainStep_waiting]
      rw [hc] at hp
      rcases List.mem_cons.mp hp with rfl | hpt
      · refine ⟨p, ?_, hne⟩
        rw [if_neg hne]
        simp
      · refine ⟨p, ?_, hne⟩
        split
        · exact hpt
        · exact List.mem_append_left _ hpt

/-- C3 (code at the failing input): with the pending queue holding a packet for
192.168.1.1 followed by a packet for 192.168.1.2, the handling of an ARP REPLY from
192.168.1.1 never returns: no number of loop iterations ends the drain, so no queue
state "after the reply" exists. -/
theorem Handler_ARP_reply_never_returns_mixed_queue :
    ∀ fuel, Handler_ARP linkEx fuel
      (received tableEx Create_ARP_Table (Enqueue (Enqueue Queue pktFor1) pktFor2)
        frameArpReply 1) = none := by
  intro fuel
  unfold Handler_ARP
  rw [if_neg (by decide), if_neg (by decide), if_neg (by decide)]
  apply drainLoop_stuck
  exact ⟨pktFor2, by simp [received, Enqueue, Queue], by decide⟩

/-- C4 (code at the failing input): with a single pending packet for 192.168.1.2, the
handling of an ARP REPLY from 192.168.1.1 does not terminate: the drain loop has not
exited after any number of iterations. -/
theorem Handler_ARP_reply_diverges :
    ∀ fuel, Handler_ARP linkEx fuel
      (received tableEx Create_ARP_Table (Enqueue Queue pktFor2) frameArpReply 1) = none := by
  intro fuel
  unfold Handler_ARP
  rw [if_neg (by decide), if_neg (by decide), if_neg (by decide)]
  apply drainLoop_stuck
  exact ⟨pktFor2, by simp [received, Enqueue, Queue], by decide⟩

/-! ## ICMP replies -/

/-- C5 (code at the failing input): for the echo request `frameEcho` from 10.0.0.1
received on interface 0 (192.168.0.1), for each ICMP type 0, 3 and 11 the header written
by `Reply_ICMP` has `daddr` 192.168.0.1, the interface address just stored in `saddr`,
and not 10.0.0.1, the `saddr` of the provoking datagram. -/
theorem Reply_ICMP_daddr_is_interface_address :
    rd32 (bufOfList frameEcho) IP_SADDR = 0x0100000A ∧
    ∀ type ∈ [ICMP_RESPONE, ICMP_DEST_UNREACH, ICMP_TIME_EXCED],
      rd32 (Reply_ICMP linkEx (received tableEx arpEx Queue frameEcho 0) type).buf IP_DADDR
        = 0x0100A8C0 ∧
      rd32 (Reply_ICMP linkEx (received tableEx arpEx Queue frameEcho 0) type).buf IP_SADDR
        = 0x0100A8C0 := by
  decide

/-- C6 (code at the failing input): `frameTTL1` (valid checksum, TTL 1, destination
10.0.0.7 routed via interface 1) is received on interface 0. `Handler_IPV4` emits one
frame, an ICMP Time Exceeded, but on interface 1, the egress interface of the route,
with IPv4 `saddr` 192.168.1.254 (interface 1) instead of 192.168.0.1 (interface 0). -/
theorem Handler_IPV4_time_exceeded_leaves_on_egress :
    checksumValid (bufOfList frameTTL1) ∧
    bufOfList frameTTL1 IP_TTL = 1 ∧
    rd32 (bufOfList frameTTL1) IP_DADDR ≠ linkEx.ipv4 0 ∧
    LPM_IPV4_Table tableEx (rd32 (bufOfList frameTTL1) IP_DADDR)
      = some { next_hop := 0x0101A8C0, interface := 1, status := true } ∧
    (Handler_IPV4 linkEx (received tableEx arpEx Queue frameTTL1 0)).2.map
      (fun f => (f.interface, f.data.length, f.data.getD ICMP_TYPE 0, f.data.getD ICMP_CODE 0))
      = [(1, 70, 11, 0)] ∧
    rd32 (Handler_IPV4 linkEx (received tableEx arpEx Queue frameTTL1 0)).1.buf IP_SADDR
      = linkEx.ipv4 1 ∧
    linkEx.ipv4 1 ≠ linkEx.ipv4 0 := by
  decide

/-! ## Forwarding -/

theorem bytesOf_length (b : Buf) (n : Nat) : (bytesOf b n).length = n := by
  simp [bytesOf]

theorem bytesOf_getElem? (b : Buf) (n i : Nat) (h : i < n) : (bytesOf b n)[i]? = some (b i) := by
  simp [bytesOf, List.getElem?_map, List.getElem?_range h]

theorem scanARP_spec (ip : Nat) (addrs : List arp_entry) :
    ∀ (start : Nat),
      (addrs.find? (fun e => decide (e.ip = ip)) = none ∧ scanARP ip addrs start = -1) ∨
      (∃ k e, addrs.find? (fun e => decide (e.ip = ip)) = some e ∧
        scanARP ip addrs start = ((start + k : Nat) : Int) ∧ addrs[k]? = some e) := by
  induction addrs with
  | nil => intro start; left; exact ⟨rfl, rfl⟩
  | cons a rest ih =>
    intro start
    by_cases ha : a.ip = ip
    · right
      refine ⟨0, a, ?_, ?_, by simp⟩
      · simp [List.find?, ha]
      · simp [scanARP, ha]
    · rcases ih (start + 1) with ⟨h1, h2⟩ | ⟨k, e, h1, h2, h3⟩
      · left
        refine ⟨?_, ?_⟩
        · simp [List.find?, ha, h1]
        · simp [scanARP, ha, h2]
      · right
        refine ⟨k + 1, e, ?_, ?_, ?_⟩
        · simp [List.find?, ha, h1]
        · simp only [scanARP, ha, if_false, h2]
          congr 1; omega
        · simpa using h3

theorem Get_ARP_Entry_hit (arp : arp_table) (ip : Nat) (e : arp_entry)
    (h : arpFind arp ip = some e) :
    0 ≤ Get_ARP_Entry arp ip ∧
      arp.addrs.getD (Get_ARP_Entry arp ip).toNat { ip := 0, mac := [] } = e := by
  unfold arpFind at h
  unfold Get_ARP_Entry
  rcases scanARP_spec ip arp.addrs 0 with ⟨h1, _⟩ | ⟨k, e2, h1, h2, h3⟩
  · rw [h] at h1; cases h1
  · rw [h] at h1
    obtain rfl := Option.some.inj h1
    rw [h2]
    refine ⟨Int.natCast_nonneg _, ?_⟩
    simp [List.getD, h3]

theorem Get_ARP_Entry_miss (arp : arp_table) (ip : Nat) (h : arpFind arp ip = none) :
    Get_ARP_Entry arp ip < 0 := by
  unfold arpFind at h
  unfold Get_ARP_Entry
  rcases scanARP_spec ip arp.addrs 0 with ⟨_, h2⟩ | ⟨k, e2, h1, _, _⟩
  · rw [h2]; decide
  · rw [h] at h1; cases h1

/-- The forward branch of `Handler_IPV4` as an equation. -/
theorem Handler_IPV4_forward_eq (lk : Link) (route : routing) (best : forward)
    (h : forwardable lk route best) :
    Handler_IPV4 lk route =
      ((forwardIPV4 lk
          { route with buf := wr16 route.buf IP_CHECK 0, next_hop := best.next_hop,
                       interface := best.interface } (rd16 route.buf IP_CHECK)),
        [Send_To_Link
          (forwardIPV4 lk
            { route with buf := wr16 route.buf IP_CHECK 0, next_hop := best.next_hop,
                         interface := best.interface } (rd16 route.buf IP_CHECK)).interface
          (forwardIPV4 lk
            { route with buf := wr16 route.buf IP_CHECK 0, next_hop := best.next_hop,
                         interface := best.interface } (rd16 route.buf IP_CHECK)).buf
          (forwardIPV4 lk
            { route with buf := wr16 route.buf IP_CHECK 0, next_hop := best.next_hop,
                         interface := best.interface } (rd16 route.buf IP_CHECK)).len]) := by
  have hv := h.valid
  have hd := h.notLocal
  have hl := h.routed
  have ht := h.alive
  unfold checksumValid at hv
  have e1 : rd32 (wr16 route.buf IP_CHECK 0) IP_DADDR = rd32 route.buf IP_DADDR := by
    simp [rd32, wr16, IP_DADDR, IP_CHECK]
  have e2 : wr16 route.buf IP_CHECK 0 IP_TTL = route.buf IP_TTL := by
    simp [wr16, IP_TTL, IP_CHECK]
  unfold Handler_IPV4
  simp only [hv, e1, e2, hl, ne_eq, not_true_eq_false, if_false, hd, not_false_eq_true,
    if_true, ht]

theorem bytesOf_slice (b : Buf) (n off k : Nat) (h : off + k ≤ n) :
    ((bytesOf b n).drop off).take k = (List.range k).map (fun j => b (off + j)) := by
  apply List.ext_getElem?
  intro i
  by_cases hi : i < k
  · rw [List.getElem?_take_of_lt hi, List.getElem?_drop, bytesOf_getElem? b n (off + i) (by omega)]
    simp [List.getElem?_map, List.getElem?_range hi]
  · have h1 : ((List.drop off (bytesOf b n)).take k)[i]? = none := by
      apply List.getElem?_eq_none
      simp only [List.length_take, List.length_drop, bytesOf_length]
      omega
    have h2 : ((List.range k).map (fun j => b (off + j)))[i]? = none := by
      apply List.getElem?_eq_none
      simp only [List.length_map, List.length_range]
      omega
    rw [h1, h2]

theorem readMac_writeMac_same (b : Buf) (off : Nat) (m : List Nat) (hm : m.length = 6) :
    readMac (writeMac b off m) off = m := by
  apply List.ext_getElem?
  intro i
  by_cases hi : i < 6
  · have h1 : (readMac (writeMac b off m) off)[i]? = some (m.getD i 0) := by
      unfold readMac
      rw [List.getElem?_map, List.getElem?_range hi]
      simp only [Option.map_some', writeMac]
      rw [if_pos (by omega)]
      congr 2
      omega
    rw [h1]
    have h2 : i < m.length := by omega
    simp [List.getD, List.getElem?_eq_getElem h2]
  · have h1 : (readMac (writeMac b off m) off)[i]? = none := by
      apply List.getElem?_eq_none
      simp only [readMac, List.length_map, List.length_range]
      omega
    have h2 : m[i]? = none := by
      apply List.getElem?_eq_none
      omega
    rw [h1, h2]

theorem readMac_writeMac_disjoint (b : Buf) (off off2 : Nat) (m : List Nat)
    (h : off2 + 6 ≤ off ∨ off + 6 ≤ off2) :
    readMac (writeMac b off m) off2 = readMac b off2 := by
  unfold readMac
  apply List.map_congr_left
  intro k hk
  have hk6 : k < 6 := List.mem_range.mp hk
  simp only [writeMac]
  rw [if_neg (by omega)]

theorem bytesOf_take_mac (b : Buf) (n : Nat) (h : 6 ≤ n) :
    (bytesOf b n).take 6 = readMac b ETH_DHOST := by
  have := bytesOf_slice b n 0 6 (by omega)
  simpa [readMac, ETH_DHOST] using this

theorem bytesOf_drop_mac (b : Buf) (n : Nat) (h : 12 ≤ n) :
    ((bytesOf b n).drop 6).take 6 = readMac b ETH_SHOST := by
  have := bytesOf_slice b n 6 6 (by omega)
  simpa [readMac, ETH_SHOST] using this

theorem forwardIPV4_hit (lk : Link) (r : routing) (old_check : Nat) (entry : arp_entry)
    (h0 : 0 ≤ Get_ARP_Entry r.macs r.next_hop)
    (he : r.macs.addrs.getD (Get_ARP_Entry r.macs r.next_hop).toNat { ip := 0, mac := [] }
      = entry) :
    forwardIPV4 lk r old_check =
      { r with
        buf :=
          writeMac (writeMac (forwardedBuf r.buf old_check) ETH_DHOST entry.mac) ETH_SHOST
            (lk.mac r.interface) } := by
  have hnot : ¬ Get_ARP_Entry r.macs r.next_hop < 0 := not_lt.mpr h0
  simp only [forwardIPV4, hnot, if_false, he, forwardedBuf]

theorem forwardIPV4_miss (lk : Link) (r : routing) (old_check : Nat)
    (h0 : Get_ARP_Entry r.macs r.next_hop < 0) :
    forwardIPV4 lk r old_check =
      Request_ARP lk
        { r with
          buf := forwardedBuf r.buf old_check,
          waiting :=
            Enqueue r.waiting (Send_Packet { r with buf := forwardedBuf r.buf old_check }) } := by
  simp only [forwardIPV4, h0, if_true, forwardedBuf]

/-- C9: for every valid-checksum IPv4 frame (at least the Ethernet and IPv4 headers
long) not addressed to the ingress interface, whose destination has a matching route
`best` (next hop `h`, egress interface `e`), with TTL > 1, and with the ARP cache mapping
`h` to the MAC `m`: `Handler_IPV4` emits exactly one frame, on interface `e`, with Ethernet
destination `m`, Ethernet source the MAC of `e` and the received length, and leaves the
ARP cache and the pending queue unchanged. -/
theorem Handler_IPV4_forward_cache_hit (lk : Link) (route : routing) (best : forward)
    (entry : arp_entry) (h : forwardable lk route best)
    (hlen : ETH_SIZE + IP_SIZE ≤ route.len)
    (hfind : arpFind route.macs best.next_hop = some entry)
    (hm : entry.mac.length = 6) (hs : (lk.mac best.interface).length = 6) :
    ∃ f, (Handler_IPV4 lk route).2 = [f] ∧
      f.interface = best.interface ∧
      f.data.take 6 = entry.mac ∧
      (f.data.drop 6).take 6 = lk.mac best.interface ∧
      f.data.length = route.len ∧
      (Handler_IPV4 lk route).1.macs = route.macs ∧
      (Handler_IPV4 lk route).1.waiting = route.waiting := by
  obtain ⟨hidx0, hidx⟩ := Get_ARP_Entry_hit route.macs best.next_hop entry hfind
  unfold ETH_SIZE IP_SIZE at hlen
  rw [Handler_IPV4_forward_eq lk route best h,
    forwardIPV4_hit lk _ _ entry hidx0 hidx]
  refine ⟨_, rfl, rfl, ?_, ?_, ?_, rfl, rfl⟩
  · show (bytesOf _ route.len).take 6 = entry.mac
    rw [bytesOf_take_mac _ _ (by omega)]
    dsimp only
    rw [readMac_writeMac_disjoint _ ETH_SHOST ETH_DHOST _ (by unfold ETH_SHOST ETH_DHOST; omega),
      readMac_writeMac_same _ _ _ hm]
  · show ((bytesOf _ route.len).drop 6).take 6 = lk.mac best.interface
    rw [bytesOf_drop_mac _ _ (by omega)]
    dsimp only
    rw [readMac_writeMac_same _ _ _ hs]
  · exact bytesOf_length _ _

/-- C9 (witness): the scenario "forward with cached MAC": `frameTTL10` received on
interface 0, route via 192.168.1.1 on interface 1, cache entry for 192.168.1.1. -/
theorem Handler_IPV4_forward_cache_hit_witness :
    forwardable linkEx (received tableEx arpEx Queue frameTTL10 0)
      { next_hop := 0x0101A8C0, interface := 1, status := true } ∧
    arpFind arpEx 0x0101A8C0 =
      some { ip := 0x0101A8C0, mac := [0x00, 0x11, 0x22, 0x33, 0x44, 0x55] } ∧
    ∃ f, (Handler_IPV4 linkEx (received tableEx arpEx Queue frameTTL10 0)).2 = [f] ∧
      f.interface = 1 ∧
      f.data.take 6 = [0x00, 0x11, 0x22, 0x33, 0x44, 0x55] ∧
      (f.data.drop 6).take 6 = linkEx.mac 1 ∧
      f.data.length = 42 ∧
      (Handler_IPV4 linkEx (received tableEx arpEx Queue frameTTL10 0)).1.macs = arpEx ∧
      (Handler_IPV4 linkEx (received tableEx arpEx Queue frameTTL10 0)).1.waiting = Queue :=
  ⟨⟨by decide, by decide, by decide, by decide⟩, by decide,
    Handler_IPV4_forward_cache_hit linkEx (received tableEx arpEx Queue frameTTL10 0)
      { next_hop := 0x0101A8C0, interface := 1, status := true }
      { ip := 0x0101A8C0, mac := [0x00, 0x11, 0x22, 0x33, 0x44, 0x55] }
      ⟨by decide, by decide, by decide, by decide⟩ (by decide) (by decide) (by decide)
      (by decide)⟩

theorem writeMac_other (b : Buf) (off : Nat) (m : List Nat) (i : Nat)
    (h : i < off ∨ off + 6 ≤ i) : writeMac b off m i = b i := by
  simp only [writeMac]
  rw [if_neg (by omega)]

theorem wr16_other (b : Buf) (off v i : Nat) (h1 : i ≠ off) (h2 : i ≠ off + 1) :
    wr16 b off v i = b i := by
  simp [wr16, h1, h2]

theorem wr8_other (b : Buf) (off v i : Nat) (h1 : i ≠ off) : wr8 b off v i = b i := by
  simp [wr8, h1]

theorem forwardedBuf_other (b : Buf) (old_check i : Nat) (h1 : i ≠ IP_TTL) (h2 : i ≠ IP_CHECK)
    (h3 : i ≠ IP_CHECK + 1) : forwardedBuf b old_check i = b i := by
  unfold forwardedBuf
  rw [wr8_other _ _ _ _ h1, wr16_other _ _ _ _ h2 h3, wr16_other _ _ _ _ h2 h3]

theorem forwardedBuf_ttl (b : Buf) (old_check : Nat) (hb : b IP_TTL < 256) :
    forwardedBuf b old_check IP_TTL = b IP_TTL - 1 := by
  unfold forwardedBuf
  simp only [wr8, if_true]
  exact Nat.mod_eq_of_lt (by omega)

/-- C10: for every datagram that `Handler_IPV4` forwards (ARP cache hit) or snapshots
into the pending queue (ARP cache miss), the TTL byte equals the ingress TTL minus one,
every byte of the frame from the start of the IPv4 header onward other than the TTL byte
and the two header-checksum bytes equals the received byte, and the length is the
received length. -/
theorem Handler_IPV4_forward_keeps_datagram (lk : Link) (route : routing) (best : forward)
    (h : forwardable lk route best) (hb : isBytes route.buf)
    (hlen : ETH_SIZE + IP_SIZE ≤ route.len) :
    (∀ entry, arpFind route.macs best.next_hop = some entry →
      ∃ f, (Handler_IPV4 lk route).2 = [f] ∧
        f.data.length = route.len ∧
        f.data[IP_TTL]? = some (route.buf IP_TTL - 1) ∧
        ∀ i, ETH_SIZE ≤ i → i < route.len → i ≠ IP_TTL → i ≠ IP_CHECK → i ≠ IP_CHECK + 1 →
          f.data[i]? = some (route.buf i)) ∧
    (arpFind route.macs best.next_hop = none →
      ∃ pkt, (Handler_IPV4 lk route).1.waiting.cells = route.waiting.cells ++ [pkt] ∧
        pkt.len = route.len ∧
        pkt.buf IP_TTL = route.buf IP_TTL - 1 ∧
        ∀ i, ETH_SIZE ≤ i → i < route.len → i ≠ IP_TTL → i ≠ IP_CHECK → i ≠ IP_CHECK + 1 →
          pkt.buf i = route.buf i) := by
  unfold ETH_SIZE IP_SIZE at hlen
  have httl0 : wr16 route.buf IP_CHECK 0 IP_TTL = route.buf IP_TTL :=
    wr16_other _ _ _ _ (by decide) (by decide)
  have httl : forwardedBuf (wr16 route.buf IP_CHECK 0) (rd16 route.buf IP_CHECK) IP_TTL
      = route.buf IP_TTL - 1 := by
    rw [forwardedBuf_ttl _ _ (by rw [httl0]; exact hb _), httl0]
  have hrest : ∀ i, i ≠ IP_TTL → i ≠ IP_CHECK → i ≠ IP_CHECK + 1 →
      forwardedBuf (wr16 route.buf IP_CHECK 0) (rd16 route.buf IP_CHECK) i = route.buf i := by
    intro i h1 h2 h3
    rw [forwardedBuf_other _ _ _ h1 h2 h3, wr16_other _ _ _ _ h2 h3]
  constructor
  · intro entry hfind
    obtain ⟨hidx0, hidx⟩ := Get_ARP_Entry_hit route.macs best.next_hop entry hfind
    rw [Handler_IPV4_forward_eq lk route best h, forwardIPV4_hit lk _ _ entry hidx0 hidx]
    refine ⟨_, rfl, bytesOf_length _ _, ?_, ?_⟩
    · show (bytesOf _ route.len)[IP_TTL]? = _
      rw [bytesOf_getElem? _ _ _ (by unfold IP_TTL; omega)]
      dsimp only
      rw [writeMac_other _ _ _ _ (by unfold IP_TTL ETH_SHOST; omega),
        writeMac_other _ _ _ _ (by unfold IP_TTL ETH_DHOST; omega), httl]
    · intro i hi1 hi2 h1 h2 h3
      unfold ETH_SIZE at hi1
      show (bytesOf _ route.len)[i]? = _
      rw [bytesOf_getElem? _ _ _ hi2]
      dsimp only
      rw [writeMac_other _ _ _ _ (by unfold ETH_SHOST; omega),
        writeMac_other _ _ _ _ (by unfold ETH_DHOST; omega), hrest i h1 h2 h3]
  · intro hfind
    have hmiss := Get_ARP_Entry_miss route.macs best.next_hop hfind
    rw [Handler_IPV4_forward_eq lk route best h, forwardIPV4_miss lk _ _ hmiss]
    refine ⟨Send_Packet
      { route with
        buf := forwardedBuf (wr16 route.buf IP_CHECK 0) (rd16 route.buf IP_CHECK),
        next_hop := best.next_hop, interface := best.interface }, rfl, rfl, ?_, ?_⟩
    · simp only [Send_Packet, memcpy]
      rw [if_pos (by unfold IP_TTL; omega)]
      simp only [Nat.sub_zero, Nat.zero_add]
      exact httl
    · intro i hi1 hi2 h1 h2 h3
      simp only [Send_Packet, memcpy]
      rw [if_pos (by omega)]
      simp only [Nat.sub_zero, Nat.zero_add]
      exact hrest i h1 h2 h3

theorem isBytes_bufOfList (l : List Nat) (h : ∀ x ∈ l, x < 256) : isBytes (bufOfList l) := by
  intro i
  unfold bufOfList
  by_cases hi : i < l.length
  · have h1 : l.getD i 0 = l[i] := by
      simp [List.getD, List.getElem?_eq_getElem hi]
    rw [h1]
    exact h _ (List.getElem_mem hi)
  · have : l[i]? = none := List.getElem?_eq_none (by omega)
    simp [List.getD, this]

/-- C10 (witness): `frameTTL10` received on interface 0, once with the ARP cache
holding the next hop (the datagram is forwarded) and once with an empty ARP cache (the
datagram is snapshotted into the pending queue). -/
theorem Handler_IPV4_forward_keeps_datagram_witness :
    forwardable linkEx (received tableEx arpEx Queue frameTTL10 0)
      { next_hop := 0x0101A8C0, interface := 1, status := true } ∧
    isBytes (bufOfList frameTTL10) ∧
    (∀ entry, arpFind arpEx 0x0101A8C0 = some entry →
      ∃ f, (Handler_IPV4 linkEx (received tableEx arpEx Queue frameTTL10 0)).2 = [f] ∧
        f.data.length = 42 ∧
        f.data[IP_TTL]? = some (10 - 1) ∧
        ∀ i, ETH_SIZE ≤ i → i < 42 → i ≠ IP_TTL → i ≠ IP_CHECK → i ≠ IP_CHECK + 1 →
          f.data[i]? = some (bufOfList frameTTL10 i)) ∧
    (arpFind Create_ARP_Table 0x0101A8C0 = none →
      ∃ pkt, (Handler_IPV4 linkEx
          (received tableEx Create_ARP_Table Queue frameTTL10 0)).1.waiting.cells = [] ++ [pkt] ∧
        pkt.len = 42 ∧
        pkt.buf IP_TTL = 10 - 1 ∧
        ∀ i, ETH_SIZE ≤ i → i < 42 → i ≠ IP_TTL → i ≠ IP_CHECK → i ≠ IP_CHECK + 1 →
          pkt.buf i = bufOfList frameTTL10 i) :=
  ⟨⟨by decide, by decide, by decide, by decide⟩,
    isBytes_bufOfList frameTTL10 (by decide),
    (Handler_IPV4_forward_keeps_datagram linkEx (received tableEx arpEx Queue frameTTL10 0)
      { next_hop := 0x0101A8C0, interface := 1, status := true }
      ⟨by decide, by decide, by decide, by decide⟩
      (isBytes_bufOfList frameTTL10 (by decide)) (by decide)).1,
    (Handler_IPV4_forward_keeps_datagram linkEx
      (received tableEx Create_ARP_Table Queue frameTTL10 0)
      { next_hop := 0x0101A8C0, interface := 1, status := true }
      ⟨by decide, by decide, by decide, by decide⟩
      (isBytes_bufOfList frameTTL10 (by decide)) (by decide)).2⟩

/-! ## ICMP replies: what the assembly leaves in the buffer -/

theorem wr32_other (b : Buf) (off v i : Nat) (h : i < off ∨ off + 4 ≤ i) :
    wr32 b off v i = b i := by
  simp only [wr32]
  rw [if_neg (by omega), if_neg (by omega), if_neg (by omega), if_neg (by omega)]

theorem memcpy_other (dst : Buf) (doff : Nat) (src : Buf) (soff n i : Nat)
    (h : i < doff ∨ doff + n ≤ i) : memcpy dst doff src soff n i = dst i := by
  simp only [memcpy]
  rw [if_neg (by omega)]

theorem memcpy_inside (dst : Buf) (doff : Nat) (src : Buf) (soff n k : Nat) (h : k < n) :
    memcpy dst doff src soff n (doff + k) = src (soff + k) := by
  simp only [memcpy]
  rw [if_pos (by omega)]
  congr 1
  omega

/-- The stages of `Reply_ICMP` after `Init_ICMP_Header` (ICMP checksum, new IPv4 header,
new Ethernet header) write below byte 38 only. -/
theorem Reply_ICMP_later_stages_high (lk : Link) (r : routing) (type i : Nat) (hi : 38 ≤ i) :
    (Header_NewETH lk (Header_NewIP lk (Checksum_ICMP r) type)).buf i = r.buf i := by
  simp only [Header_NewETH, Header_NewIP, Header_IPV4, Update_IPV4_Checksum, Set_IPV4_Fields,
    Checksum_ICMP, ETH_DHOST, ETH_SHOST, IP_VHL, IP_TOS, IP_TOT_LEN, IP_ID, IP_FRAG_OFF, IP_TTL,
    IP_PROTOCOL, IP_CHECK, IP_SADDR, IP_DADDR, ICMP_CHECKSUM]
  rw [writeMac_other _ _ _ _ (by omega), writeMac_other _ _ _ _ (by omega),
    wr16_other _ _ _ _ (by omega) (by omega), wr16_other _ _ _ _ (by omega) (by omega),
    wr32_other _ _ _ _ (by omega), wr32_other _ _ _ _ (by omega),
    wr16_other _ _ _ _ (by omega) (by omega), wr16_other _ _ _ _ (by omega) (by omega),
    wr8_other _ _ _ _ (by omega), wr8_other _ _ _ _ (by omega),
    wr16_other _ _ _ _ (by omega) (by omega), wr16_other _ _ _ _ (by omega) (by omega),
    wr8_other _ _ _ _ (by omega), wr8_other _ _ _ _ (by omega), wr8_other _ _ _ _ (by omega),
    wr16_other _ _ _ _ (by omega) (by omega), wr16_other _ _ _ _ (by omega) (by omega)]

theorem Reply_ICMP_interface (lk : Link) (r : routing) (type : Nat) :
    (Reply_ICMP lk r type).interface = r.interface := by
  unfold Reply_ICMP Header_NewETH Header_NewIP Header_IPV4 Update_IPV4_Checksum Set_IPV4_Fields
    Checksum_ICMP Init_ICMP_Header
  dsimp only
  split <;> rfl

theorem Reply_ICMP_len_error (lk : Link) (r : routing) (type : Nat)
    (ht : type = ICMP_TIME_EXCED ∨ type = ICMP_DEST_UNREACH) :
    (Reply_ICMP lk r type).len = 70 := by
  unfold Reply_ICMP Header_NewETH Header_NewIP Header_IPV4 Update_IPV4_Checksum Set_IPV4_Fields
    Checksum_ICMP Init_ICMP_Header
  dsimp only
  rw [if_pos ht]
  rfl

theorem Reply_ICMP_len_echo (lk : Link) (r : routing) :
    (Reply_ICMP lk r ICMP_RESPONE).len = 42 := by
  unfold Reply_ICMP Header_NewETH Header_NewIP Header_IPV4 Update_IPV4_Checksum Set_IPV4_Fields
    Checksum_ICMP Init_ICMP_Header
  dsimp only
  rw [if_neg (by decide)]
  rfl

/-- The quotation written by `Init_ICMP_Header` for the error types survives the rest
of `Reply_ICMP`: bytes 42..69 are bytes 14..41 of the buffer handed to `Reply_ICMP`. -/
theorem Reply_ICMP_quotation (lk : Link) (r : routing) (type k : Nat)
    (ht : type = ICMP_TIME_EXCED ∨ type = ICMP_DEST_UNREACH) (hk : k < 28) :
    (Reply_ICMP lk r type).buf (42 + k) = r.buf (14 + k) := by
  unfold Reply_ICMP
  rw [Reply_ICMP_later_stages_high lk _ type (42 + k) (by omega)]
  simp only [Init_ICMP_Header, if_pos ht, ICMP_TYPE, ICMP_CODE, ETH_SIZE, IP_SIZE, ICMP_SIZE]
  rw [wr8_other _ _ _ _ (by omega), wr8_other _ _ _ _ (by omega)]
  exact memcpy_inside _ 42 _ 14 28 k hk

theorem Reply_ICMP_type_byte (lk : Link) (r : routing) (type : Nat) :
    (Reply_ICMP lk r type).buf ICMP_TYPE = type % 256 := by
  simp only [Reply_ICMP, Header_NewETH, Header_NewIP, Header_IPV4, Update_IPV4_Checksum,
    Set_IPV4_Fields, Checksum_ICMP, ETH_DHOST, ETH_SHOST, IP_VHL, IP_TOS, IP_TOT_LEN, IP_ID,
    IP_FRAG_OFF, IP_TTL, IP_PROTOCOL, IP_CHECK, IP_SADDR, IP_DADDR, ICMP_CHECKSUM, ICMP_TYPE]
  rw [writeMac_other _ _ _ _ (by omega), writeMac_other _ _ _ _ (by omega),
    wr16_other _ _ _ _ (by omega) (by omega), wr16_other _ _ _ _ (by omega) (by omega),
    wr32_other _ _ _ _ (by omega), wr32_other _ _ _ _ (by omega),
    wr16_other _ _ _ _ (by omega) (by omega), wr16_other _ _ _ _ (by omega) (by omega),
    wr8_other _ _ _ _ (by omega), wr8_other _ _ _ _ (by omega),
    wr16_other _ _ _ _ (by omega) (by omega), wr16_other _ _ _ _ (by omega) (by omega),
    wr8_other _ _ _ _ (by omega), wr8_other _ _ _ _ (by omega), wr8_other _ _ _ _ (by omega),
    wr16_other _ _ _ _ (by omega) (by omega), wr16_other _ _ _ _ (by omega) (by omega)]
  simp [Init_ICMP_Header, wr8, ICMP_TYPE]

/-- The echo reply leaves the working buffer from byte 38 on as it was handed in. -/
theorem Reply_ICMP_echo_high (lk : Link) (r : routing) (i : Nat) (hi : 38 ≤ i) :
    (Reply_ICMP lk r ICMP_RESPONE).buf i = r.buf i := by
  unfold Reply_ICMP
  rw [Reply_ICMP_later_stages_high lk _ _ i hi]
  simp only [Init_ICMP_Header, ICMP_RESPONE, ICMP_TIME_EXCED, ICMP_DEST_UNREACH, ICMP_TYPE,
    ICMP_CODE]
  rw [if_neg (by decide)]
  dsimp only
  rw [wr8_other _ _ _ _ (by omega), wr8_other _ _ _ _ (by omega)]

/-- The local-delivery branch of `Handler_IPV4` as an equation. -/
theorem Handler_IPV4_local_eq (lk : Link) (route : routing) (hv : checksumValid route.buf)
    (hloc : rd32 route.buf IP_DADDR = lk.ipv4 route.interface) :
    Handler_IPV4 lk route =
      (Reply_ICMP lk { route with buf := wr16 route.buf IP_CHECK 0 } ICMP_RESPONE,
        [Send_To_Link
          (Reply_ICMP lk { route with buf := wr16 route.buf IP_CHECK 0 } ICMP_RESPONE).interface
          (Reply_ICMP lk { route with buf := wr16 route.buf IP_CHECK 0 } ICMP_RESPONE).buf
          (Reply_ICMP lk { route with buf := wr16 route.buf IP_CHECK 0 } ICMP_RESPONE).len]) := by
  unfold checksumValid at hv
  have e1 : rd32 (wr16 route.buf IP_CHECK 0) IP_DADDR = rd32 route.buf IP_DADDR := by
    simp [rd32, wr16, IP_DADDR, IP_CHECK]
  unfold Handler_IPV4
  simp only [hv, e1, hloc, ne_eq, not_true_eq_false, if_false]

/-- The no-route branch of `Handler_IPV4` as an equation. -/
theorem Handler_IPV4_unreachable_eq (lk : Link) (route : routing)
    (hv : checksumValid route.buf)
    (hd : rd32 route.buf IP_DADDR ≠ lk.ipv4 route.interface)
    (hl : LPM_IPV4_Table route.ipv4s (rd32 route.buf IP_DADDR) = none) :
    Handler_IPV4 lk route =
      (Reply_ICMP lk { route with buf := wr16 route.buf IP_CHECK 0 } ICMP_DEST_UNREACH,
        [Send_To_Link
          (Reply_ICMP lk { route with buf := wr16 route.buf IP_CHECK 0 }
            ICMP_DEST_UNREACH).interface
          (Reply_ICMP lk { route with buf := wr16 route.buf IP_CHECK 0 } ICMP_DEST_UNREACH).buf
          (Reply_ICMP lk { route with buf := wr16 route.buf IP_CHECK 0 }
            ICMP_DEST_UNREACH).len]) := by
  unfold checksumValid at hv
  have e1 : rd32 (wr16 route.buf IP_CHECK 0) IP_DADDR = rd32 route.buf IP_DADDR := by
    simp [rd32, wr16, IP_DADDR, IP_CHECK]
  unfold Handler_IPV4
  simp only [hv, e1, hl, hd, ne_eq, not_true_eq_false, if_false, not_false_eq_true, if_true]

/-- The TTL-expiry branch of `Handler_IPV4` as an equation. -/
theorem Handler_IPV4_expired_eq (lk : Link) (route : routing) (best : forward)
    (hv : checksumValid route.buf)
    (hd : rd32 route.buf IP_DADDR ≠ lk.ipv4 route.interface)
    (hl : LPM_IPV4_Table route.ipv4s (rd32 route.buf IP_DADDR) = some best)
    (ht : route.buf IP_TTL ≤ 1) :
    Handler_IPV4 lk route =
      (Reply_ICMP lk
          { route with buf := wr16 route.buf IP_CHECK 0, next_hop := best.next_hop,
                       interface := best.interface } ICMP_TIME_EXCED,
        [Send_To_Link
          (Reply_ICMP lk
            { route with buf := wr16 route.buf IP_CHECK 0, next_hop := best.next_hop,
                         interface := best.interface } ICMP_TIME_EXCED).interface
          (Reply_ICMP lk
            { route with buf := wr16 route.buf IP_CHECK 0, next_hop := best.next_hop,
                         interface := best.interface } ICMP_TIME_EXCED).buf
          (Reply_ICMP lk
            { route with buf := wr16 route.buf IP_CHECK 0, next_hop := best.next_hop,
                         interface := best.interface } ICMP_TIME_EXCED).len]) := by
  unfold checksumValid at hv
  have e1 : rd32 (wr16 route.buf IP_CHECK 0) IP_DADDR = rd32 route.buf IP_DADDR := by
    simp [rd32, wr16, IP_DADDR, IP_CHECK]
  have e2 : wr16 route.buf IP_CHECK 0 IP_TTL = route.buf IP_TTL := by
    simp [wr16, IP_TTL, IP_CHECK]
  have ht2 : ¬ (route.buf IP_TTL > 1) := by omega
  unfold Handler_IPV4
  simp only [hv, e1, e2, hl, hd, ht2, ne_eq, not_true_eq_false, if_false, not_false_eq_true,
    if_true]

/-- The frame sent after `Reply_ICMP` for an error type: 70 bytes, the ICMP type byte,
and the 28 bytes after the ICMP header copied from bytes 14..41 of the buffer. -/
theorem Reply_ICMP_error_frame (lk : Link) (r : routing) (type : Nat)
    (ht : type = ICMP_TIME_EXCED ∨ type = ICMP_DEST_UNREACH) :
    (Send_To_Link (Reply_ICMP lk r type).interface (Reply_ICMP lk r type).buf
        (Reply_ICMP lk r type).len).data.length = 70 ∧
    (Send_To_Link (Reply_ICMP lk r type).interface (Reply_ICMP lk r type).buf
        (Reply_ICMP lk r type).len).data[ICMP_TYPE]? = some (type % 256) ∧
    ∀ k, k < 28 →
      (Send_To_Link (Reply_ICMP lk r type).interface (Reply_ICMP lk r type).buf
        (Reply_ICMP lk r type).len).data[42 + k]? = some (r.buf (14 + k)) := by
  simp only [Send_To_Link, Reply_ICMP_len_error lk r type ht]
  refine ⟨bytesOf_length _ _, ?_, ?_⟩
  · rw [bytesOf_getElem? _ _ _ (by decide), Reply_ICMP_type_byte]
  · intro k hk
    rw [bytesOf_getElem? _ _ _ (by omega), Reply_ICMP_quotation lk r type k ht hk]

theorem zeroed_check_quote (b : Buf) (k : Nat) :
    wr16 b IP_CHECK 0 (14 + k) = if k = 10 ∨ k = 11 then 0 else b (ETH_SIZE + k) := by
  by_cases h1 : k = 10
  · subst h1; simp [wr16, IP_CHECK]
  · by_cases h2 : k = 11
    · subst h2; simp [wr16, IP_CHECK]
    · rw [wr16_other _ _ _ _ (by unfold IP_CHECK; omega) (by unfold IP_CHECK; omega)]
      simp [h1, h2, ETH_SIZE]

/-- C7 (amended): for every ICMP Destination Unreachable or Time Exceeded reply produced
by `Handler_IPV4` (valid checksum, destination not the ingress interface, and either no
route or a route with TTL ≤ 1), exactly one frame of 70 bytes is emitted, and the 28
bytes that follow its ICMP header equal the 20 bytes of the received IPv4 header with the
two checksum bytes zeroed, followed by the first 8 bytes of the received datagram after
that header. -/
theorem Handler_IPV4_error_quotation (lk : Link) (route : routing)
    (hv : checksumValid route.buf)
    (hd : rd32 route.buf IP_DADDR ≠ lk.ipv4 route.interface)
    (herr : LPM_IPV4_Table route.ipv4s (rd32 route.buf IP_DADDR) = none ∨
      ∃ best, LPM_IPV4_Table route.ipv4s (rd32 route.buf IP_DADDR) = some best ∧
        route.buf IP_TTL ≤ 1) :
    ∃ f, (Handler_IPV4 lk route).2 = [f] ∧
      f.data.length = 70 ∧
      (f.data[ICMP_TYPE]? = some ICMP_DEST_UNREACH ∨
        f.data[ICMP_TYPE]? = some ICMP_TIME_EXCED) ∧
      ∀ k, k < 28 →
        f.data[ETH_SIZE + IP_SIZE + ICMP_SIZE + k]? =
          some (if k = 10 ∨ k = 11 then 0 else route.buf (ETH_SIZE + k)) := by
  rcases herr with hl | ⟨best, hl, ht⟩
  · rw [Handler_IPV4_unreachable_eq lk route hv hd hl]
    obtain ⟨h1, h2, h3⟩ := Reply_ICMP_error_frame lk
      { route with buf := wr16 route.buf IP_CHECK 0 } ICMP_DEST_UNREACH (Or.inr rfl)
    refine ⟨_, rfl, h1, Or.inl h2, ?_⟩
    intro k hk
    have := h3 k hk
    dsimp only at this
    rw [zeroed_check_quote] at this
    exact this
  · rw [Handler_IPV4_expired_eq lk route best hv hd hl ht]
    obtain ⟨h1, h2, h3⟩ := Reply_ICMP_error_frame lk
      { route with buf := wr16 route.buf IP_CHECK 0, next_hop := best.next_hop,
                   interface := best.interface } ICMP_TIME_EXCED (Or.inl rfl)
    refine ⟨_, rfl, h1, Or.inr h2, ?_⟩
    intro k hk
    have := h3 k hk
    dsimp only at this
    rw [zeroed_check_quote] at this
    exact this

/-- C7 (witness): the expired datagram `frameTTL1` received on interface 0. -/
theorem Handler_IPV4_error_quotation_witness :
    checksumValid (bufOfList frameTTL1) ∧
    rd32 (bufOfList frameTTL1) IP_DADDR ≠ linkEx.ipv4 0 ∧
    ∃ f, (Handler_IPV4 linkEx (received tableEx arpEx Queue frameTTL1 0)).2 = [f] ∧
      f.data.length = 70 ∧
      (f.data[ICMP_TYPE]? = some ICMP_DEST_UNREACH ∨
        f.data[ICMP_TYPE]? = some ICMP_TIME_EXCED) ∧
      ∀ k, k < 28 →
        f.data[ETH_SIZE + IP_SIZE + ICMP_SIZE + k]? =
          some (if k = 10 ∨ k = 11 then 0 else bufOfList frameTTL1 (ETH_SIZE + k)) :=
  ⟨by decide, by decide,
    Handler_IPV4_error_quotation linkEx (received tableEx arpEx Queue frameTTL1 0)
      (by decide) (by decide)
      (Or.inr ⟨{ next_hop := 0x0101A8C0, interface := 1, status := true },
        by decide, by decide⟩)⟩

/-- C7 (counterexample): for the expired datagram `frameTTL1`, whose stored checksum is
`65 DA`, the 28 bytes after the ICMP header of the emitted Time Exceeded differ from the
received header and first 8 bytes of the datagram: the quoted checksum field is `00 00`. -/
theorem Handler_IPV4_quotation_not_as_received :
    checksumValid (bufOfList frameTTL1) ∧
    (Handler_IPV4 linkEx (received tableEx arpEx Queue frameTTL1 0)).2.map
        (fun f => (f.data.getD ICMP_TYPE 0, (f.data.drop 42).take 28))
      = [(11, [0x45, 0, 0, 28, 0, 0, 0x40, 0, 1, 1, 0, 0, 10, 0, 0, 1, 10, 0, 0, 7,
          8, 0, 0xf7, 0xff, 0, 0, 0, 0])] ∧
    (frameTTL1.drop 14).take 28
      = [0x45, 0, 0, 28, 0, 0, 0x40, 0, 1, 1, 0x65, 0xda, 10, 0, 0, 1, 10, 0, 0, 7,
          8, 0, 0xf7, 0xff, 0, 0, 0, 0] ∧
    (Handler_IPV4 linkEx (received tableEx arpEx Queue frameTTL1 0)).2.map
        (fun f => (f.data.drop 42).take 28) ≠ [(frameTTL1.drop 14).take 28] := by
  decide

/-- C8 (amended): for every valid-checksum IPv4 frame addressed to the address of the
ingress interface, `Handler_IPV4` emits exactly one frame, on the ingress interface, an
Echo Reply of 42 bytes (Ethernet, IPv4 and ICMP headers) whatever the received length:
no byte after the ICMP header is emitted. The last four bytes of the ICMP header are
the received ones, and in the working buffer every byte after the ICMP header is
unchanged. -/
theorem Handler_IPV4_echo_reply_headers_only (lk : Link) (route : routing)
    (hv : checksumValid route.buf)
    (hloc : rd32 route.buf IP_DADDR = lk.ipv4 route.interface) :
    ∃ f, (Handler_IPV4 lk route).2 = [f] ∧
      f.interface = route.interface ∧
      f.data.length = ETH_SIZE + IP_SIZE + ICMP_SIZE ∧
      f.data[ICMP_TYPE]? = some ICMP_RESPONE ∧
      (∀ i, 38 ≤ i → i < 42 → f.data[i]? = some (route.buf i)) ∧
      ∀ i, ETH_SIZE + IP_SIZE + ICMP_SIZE ≤ i → (Handler_IPV4 lk route).1.buf i = route.buf i := by
  rw [Handler_IPV4_local_eq lk route hv hloc]
  have hhigh : ∀ i, 38 ≤ i →
      (Reply_ICMP lk { route with buf := wr16 route.buf IP_CHECK 0 } ICMP_RESPONE).buf i
        = route.buf i := by
    intro i hi
    rw [Reply_ICMP_echo_high lk _ i hi]
    exact wr16_other _ _ _ _ (by unfold IP_CHECK; omega) (by unfold IP_CHECK; omega)
  refine ⟨_, rfl, Reply_ICMP_interface lk _ _, ?_, ?_, ?_, ?_⟩
  · simp only [Send_To_Link, Reply_ICMP_len_echo]
    exact bytesOf_length _ _
  · simp only [Send_To_Link, Reply_ICMP_len_echo]
    rw [bytesOf_getElem? _ _ _ (by decide), Reply_ICMP_type_byte]
    rfl
  · intro i h1 h2
    simp only [Send_To_Link, Reply_ICMP_len_echo]
    rw [bytesOf_getElem? _ _ _ h2, hhigh i h1]
  · intro i hi
    unfold ETH_SIZE IP_SIZE ICMP_SIZE at hi
    exact hhigh i (by omega)

/-- C8 (witness): the echo request `frameEcho` with payload "abc" received on
interface 0. -/
theorem Handler_IPV4_echo_reply_headers_only_witness :
    checksumValid (bufOfList frameEcho) ∧
    rd32 (bufOfList frameEcho) IP_DADDR = linkEx.ipv4 0 ∧
    ∃ f, (Handler_IPV4 linkEx (received tableEx arpEx Queue frameEcho 0)).2 = [f] ∧
      f.interface = 0 ∧
      f.data.length = ETH_SIZE + IP_SIZE + ICMP_SIZE ∧
      f.data[ICMP_TYPE]? = some ICMP_RESPONE ∧
      (∀ i, 38 ≤ i → i < 42 → f.data[i]? = some (bufOfList frameEcho i)) ∧
      ∀ i, ETH_SIZE + IP_SIZE + ICMP_SIZE ≤ i →
        (Handler_IPV4 linkEx (received tableEx arpEx Queue frameEcho 0)).1.buf i
          = bufOfList frameEcho i :=
  ⟨by decide, by decide,
    Handler_IPV4_echo_reply_headers_only linkEx (received tableEx arpEx Queue frameEcho 0)
      (by decide) (by decide)⟩

/-- C8 (counterexample): the echo request `frameEcho` is 45 bytes long and carries the
payload "abc" after its ICMP header; the Echo Reply emitted is 42 bytes long and ends
with the ICMP header, so the payload is not in it. -/
theorem Handler_IPV4_echo_reply_drops_payload :
    checksumValid (bufOfList frameEcho) ∧
    rd32 (bufOfList frameEcho) IP_DADDR = linkEx.ipv4 0 ∧
    frameEcho.length = 45 ∧
    frameEcho.drop 42 = [0x61, 0x62, 0x63] ∧
    (Handler_IPV4 linkEx (received tableEx arpEx Queue frameEcho 0)).2.map
        (fun f => (f.interface, f.data.getD ICMP_TYPE 1, f.data.length, f.data.drop 42))
      = [(0, 0, 42, [])] := by
  decide

/-! ## Checksum failure -/

/-- The drop branch of `Handler_IPV4` as an equation. -/
theorem Handler_IPV4_invalid_eq (lk : Link) (route : routing) (hv : ¬ checksumValid route.buf) :
    Handler_IPV4 lk route = ({ route with buf := wr16 route.buf IP_CHECK 0 }, []) := by
  unfold checksumValid at hv
  unfold Handler_IPV4
  simp only [ne_eq, hv, not_false_eq_true, if_true]

/-- C15: for every IPv4 frame whose stored header checksum differs from
`htons(Checksum(header with the checksum field zeroed, 20))`, `Handler_IPV4` emits no
frame and leaves the ARP cache, the pending queue and the routing table unchanged. -/
theorem Handler_IPV4_drops_invalid_checksum (lk : Link) (route : routing)
    (hv : rd16 route.buf IP_CHECK ≠
      htons (Checksum 0 (wr16 route.buf IP_CHECK 0) ETH_SIZE IP_SIZE)) :
    (Handler_IPV4 lk route).2 = [] ∧
    (Handler_IPV4 lk route).1.macs = route.macs ∧
    (Handler_IPV4 lk route).1.waiting = route.waiting ∧
    (Handler_IPV4 lk route).1.ipv4s = route.ipv4s := by
  rw [Handler_IPV4_invalid_eq lk route hv]
  exact ⟨rfl, rfl, rfl, rfl⟩

/-- C15 (witness): `frameTTL10` with its checksum bytes replaced by `00 00`. -/
theorem Handler_IPV4_drops_invalid_checksum_witness :
    rd16 (wr16 (bufOfList frameTTL10) IP_CHECK 0) IP_CHECK ≠
      htons (Checksum 0 (wr16 (wr16 (bufOfList frameTTL10) IP_CHECK 0) IP_CHECK 0)
        ETH_SIZE IP_SIZE) ∧
    (Handler_IPV4 linkEx
      { received tableEx arpEx Queue frameTTL10 0 with
        buf := wr16 (bufOfList frameTTL10) IP_CHECK 0 }).2 = [] :=
  ⟨by decide,
    (Handler_IPV4_drops_invalid_checksum linkEx
      { received tableEx arpEx Queue frameTTL10 0 with
        buf := wr16 (bufOfList frameTTL10) IP_CHECK 0 } (by decide)).1⟩

/-! ## ICMP replies: the headers written -/

theorem readMac_length (b : Buf) (off : Nat) : (readMac b off).length = 6 := by
  simp [readMac]

theorem readMac_congr (b c : Buf) (off : Nat) (h : ∀ k, k < 6 → b (off + k) = c (off + k)) :
    readMac b off = readMac c off := by
  unfold readMac
  apply List.map_congr_left
  intro k hk
  exact h k (List.mem_range.mp hk)

theorem sumWords_congr (b c : Buf) (n : Nat) :
    ∀ (p acc : Nat), (∀ i, p ≤ i → i < p + 2 * n → b i = c i) →
      sumWords b p n acc = sumWords c p n acc := by
  induction n with
  | zero => intro p acc _; rfl
  | succ n ih =>
    intro p acc h
    simp only [sumWords, rd16]
    rw [h p (by omega) (by omega), h (p + 1) (by omega) (by omega)]
    exact ih (p + 2) _ (fun i h1 h2 => h i (by omega) (by omega))

/-- `Checksum` depends only on the bytes of the region it is given. -/
theorem Checksum_congr (junk : Nat) (b c : Buf) (off len : Nat)
    (h : ∀ i, off ≤ i → i < off + len → b i = c i) :
    Checksum junk b off len = Checksum junk c off len := by
  unfold Checksum
  rw [sumWords_congr b c (len / 2) off 0 (fun i h1 h2 => h i h1 (by omega))]
  by_cases hodd : len % 2 = 1
  · rw [h (off + 2 * (len / 2)) (by omega) (by omega)]
  · simp only [hodd, if_false]

theorem htons_lt (x : Nat) : htons x < 65536 := by
  unfold htons
  omega

theorem rd16_wr16_same (b : Buf) (off v : Nat) (hv : v < 65536) :
    rd16 (wr16 b off v) off = v := by
  have h1 : wr16 b off v off = v % 256 := by simp [wr16]
  have h2 : wr16 b off v (off + 1) = (v / 256) % 256 := by simp [wr16]
  rw [rd16, h1, h2]
  omega

/-- The stages of `Reply_ICMP` after `Checksum_ICMP` (new IPv4 header, new Ethernet
header) write below byte 34 only. -/
theorem Reply_ICMP_ip_eth_stages_high (lk : Link) (r : routing) (type i : Nat) (hi : 34 ≤ i) :
    (Header_NewETH lk (Header_NewIP lk r type)).buf i = r.buf i := by
  simp only [Header_NewETH, Header_NewIP, Header_IPV4, Update_IPV4_Checksum, Set_IPV4_Fields,
    ETH_DHOST, ETH_SHOST, IP_VHL, IP_TOS, IP_TOT_LEN, IP_ID, IP_FRAG_OFF, IP_TTL,
    IP_PROTOCOL, IP_CHECK, IP_SADDR, IP_DADDR]
  rw [writeMac_other _ _ _ _ (by omega), writeMac_other _ _ _ _ (by omega),
    wr16_other _ _ _ _ (by omega) (by omega), wr16_other _ _ _ _ (by omega) (by omega),
    wr32_other _ _ _ _ (by omega), wr32_other _ _ _ _ (by omega),
    wr16_other _ _ _ _ (by omega) (by omega), wr16_other _ _ _ _ (by omega) (by omega),
    wr8_other _ _ _ _ (by omega), wr8_other _ _ _ _ (by omega),
    wr16_other _ _ _ _ (by omega) (by omega), wr16_other _ _ _ _ (by omega) (by omega),
    wr8_other _ _ _ _ (by omega), wr8_other _ _ _ _ (by omega), wr8_other _ _ _ _ (by omega)]

/-- The stages of `Reply_ICMP` before `Header_NewETH` leave the Ethernet header
(bytes 0..13) as it was handed in. -/
theorem Reply_ICMP_before_eth_low (lk : Link) (r : routing) (type i : Nat) (hi : i < 14) :
    (Header_NewIP lk (Checksum_ICMP (Init_ICMP_Header r type)) type).buf i = r.buf i := by
  simp only [Header_NewIP, Header_IPV4, Update_IPV4_Checksum, Set_IPV4_Fields, Checksum_ICMP,
    IP_VHL, IP_TOS, IP_TOT_LEN, IP_ID, IP_FRAG_OFF, IP_TTL, IP_PROTOCOL, IP_CHECK, IP_SADDR,
    IP_DADDR, ICMP_CHECKSUM]
  rw [wr16_other _ _ _ _ (by omega) (by omega), wr16_other _ _ _ _ (by omega) (by omega),
    wr32_other _ _ _ _ (by omega), wr32_other _ _ _ _ (by omega),
    wr16_other _ _ _ _ (by omega) (by omega), wr16_other _ _ _ _ (by omega) (by omega),
    wr8_other _ _ _ _ (by omega), wr8_other _ _ _ _ (by omega),
    wr16_other _ _ _ _ (by omega) (by omega), wr16_other _ _ _ _ (by omega) (by omega),
    wr8_other _ _ _ _ (by omega), wr8_other _ _ _ _ (by omega), wr8_other _ _ _ _ (by omega),
    wr16_other _ _ _ _ (by omega) (by omega), wr16_other _ _ _ _ (by omega) (by omega)]
  simp only [Init_ICMP_Header, ICMP_TYPE, ICMP_CODE, ETH_SIZE, IP_SIZE, ICMP_SIZE]
  rw [wr8_other _ _ _ _ (by omega), wr8_other _ _ _ _ (by omega)]
  split
  · exact memcpy_other _ _ _ _ _ _ (by omega)
  · rfl

theorem Reply_ICMP_state (lk : Link) (r : routing) (type : Nat) :
    (Reply_ICMP lk r type).macs = r.macs ∧ (Reply_ICMP lk r type).waiting = r.waiting ∧
      (Reply_ICMP lk r type).ipv4s = r.ipv4s := by
  unfold Reply_ICMP Header_NewETH Header_NewIP Header_IPV4 Update_IPV4_Checksum Set_IPV4_Fields
    Checksum_ICMP Init_ICMP_Header
  dsimp only
  split <;> exact ⟨rfl, rfl, rfl⟩

theorem Reply_ICMP_len (lk : Link) (r : routing) (type : Nat) :
    (Reply_ICMP lk r type).len =
      if type = ICMP_TIME_EXCED ∨ type = ICMP_DEST_UNREACH then 70 else 42 := by
  unfold Reply_ICMP Header_NewETH Header_NewIP Header_IPV4 Update_IPV4_Checksum Set_IPV4_Fields
    Checksum_ICMP Init_ICMP_Header
  dsimp only
  split <;> rfl

/-- C18: for every working buffer and every ICMP type (0, 3, 11 in particular), after
`Reply_ICMP` the IPv4 header has version 4 and IHL 5, TOS 0, id 1 in network order (bytes
`00 01`), `frag_off` 0, TTL 64, protocol 1 and `tot_len` in network order 28 for type 0
and 56 for types 3 and 11; the frame length is 14 + `tot_len`; the Ethernet destination
is the Ethernet source of the received frame and the EtherType bytes are unchanged. -/
theorem Reply_ICMP_header_fields (lk : Link) (r : routing) (type : Nat) :
    (Reply_ICMP lk r type).buf IP_VHL / 16 = 4 ∧
    (Reply_ICMP lk r type).buf IP_VHL % 16 = 5 ∧
    (Reply_ICMP lk r type).buf IP_TOS = 0 ∧
    [(Reply_ICMP lk r type).buf IP_ID, (Reply_ICMP lk r type).buf (IP_ID + 1)] = [0, 1] ∧
    rd16 (Reply_ICMP lk r type).buf IP_FRAG_OFF = 0 ∧
    (Reply_ICMP lk r type).buf IP_TTL = 64 ∧
    (Reply_ICMP lk r type).buf IP_PROTOCOL = 1 ∧
    [(Reply_ICMP lk r type).buf IP_TOT_LEN, (Reply_ICMP lk r type).buf (IP_TOT_LEN + 1)] =
      [0, if type = ICMP_TIME_EXCED ∨ type = ICMP_DEST_UNREACH then 56 else 28] ∧
    (Reply_ICMP lk r type).len =
      14 + (if type = ICMP_TIME_EXCED ∨ type = ICMP_DEST_UNREACH then 56 else 28) ∧
    readMac (Reply_ICMP lk r type).buf ETH_DHOST = readMac r.buf ETH_SHOST ∧
    [(Reply_ICMP lk r type).buf ETH_TYPE, (Reply_ICMP lk r type).buf (ETH_TYPE + 1)] =
      [r.buf ETH_TYPE, r.buf (ETH_TYPE + 1)] := by
  have hvhl : (Reply_ICMP lk r type).buf IP_VHL = 69 := by
    simp [Reply_ICMP, Header_NewETH, Header_NewIP, Header_IPV4, Update_IPV4_Checksum, writeMac,
      ETH_DHOST, ETH_SHOST, Set_IPV4_Fields, wr8, wr16, wr32, IP_VHL, IP_TOS, IP_TOT_LEN, IP_ID,
      IP_FRAG_OFF, IP_TTL, IP_PROTOCOL, IP_CHECK, IP_SADDR, IP_DADDR, IPV4_IHL, IPV4_VERSION]
    omega
  refine ⟨by rw [hvhl], by rw [hvhl], ?_, ?_, ?_, ?_, ?_, ?_, ?_, ?_, ?_⟩
  · simp [Reply_ICMP, Header_NewETH, Header_NewIP, Header_IPV4, Update_IPV4_Checksum, writeMac,
      ETH_DHOST, ETH_SHOST, Set_IPV4_Fields, wr8, wr16, wr32, IP_VHL, IP_TOS, IP_TOT_LEN, IP_ID,
      IP_FRAG_OFF, IP_TTL, IP_PROTOCOL, IP_CHECK, IP_SADDR, IP_DADDR]
  · simp [Reply_ICMP, Header_NewETH, Header_NewIP, Header_IPV4, Update_IPV4_Checksum, writeMac,
      ETH_DHOST, ETH_SHOST, Set_IPV4_Fields, wr8, wr16, wr32, IP_VHL, IP_TOS, IP_TOT_LEN, IP_ID,
      IP_FRAG_OFF, IP_TTL, IP_PROTOCOL, IP_CHECK, IP_SADDR, IP_DADDR, htons]
  · simp [Reply_ICMP, Header_NewETH, Header_NewIP, Header_IPV4, Update_IPV4_Checksum, writeMac,
      ETH_DHOST, ETH_SHOST, Set_IPV4_Fields, wr8, wr16, wr32, IP_VHL, IP_TOS, IP_TOT_LEN, IP_ID,
      IP_FRAG_OFF, IP_TTL, IP_PROTOCOL, IP_CHECK, IP_SADDR, IP_DADDR, rd16]
  · simp [Reply_ICMP, Header_NewETH, Header_NewIP, Header_IPV4, Update_IPV4_Checksum, writeMac,
      ETH_DHOST, ETH_SHOST, Set_IPV4_Fields, wr8, wr16, wr32, IP_VHL, IP_TOS, IP_TOT_LEN, IP_ID,
      IP_FRAG_OFF, IP_TTL, IP_PROTOCOL, IP_CHECK, IP_SADDR, IP_DADDR, DEFAULT_TTL]
  · simp [Reply_ICMP, Header_NewETH, Header_NewIP, Header_IPV4, Update_IPV4_Checksum, writeMac,
      ETH_DHOST, ETH_SHOST, Set_IPV4_Fields, wr8, wr16, wr32, IP_VHL, IP_TOS, IP_TOT_LEN, IP_ID,
      IP_FRAG_OFF, IP_TTL, IP_PROTOCOL, IP_CHECK, IP_SADDR, IP_DADDR]
  · simp [Reply_ICMP, Header_NewETH, Header_NewIP, Header_IPV4, Update_IPV4_Checksum, writeMac,
      ETH_DHOST, ETH_SHOST, Set_IPV4_Fields, wr8, wr16, wr32, IP_VHL, IP_TOS, IP_TOT_LEN, IP_ID,
      IP_FRAG_OFF, IP_TTL, IP_PROTOCOL, IP_CHECK, IP_SADDR, IP_DADDR, htons, IP_SIZE, ICMP_SIZE]
    split <;> simp
  · rw [Reply_ICMP_len]
    split <;> rfl
  · unfold Reply_ICMP
    simp only [Header_NewETH]
    rw [readMac_writeMac_disjoint _ ETH_SHOST ETH_DHOST _ (by unfold ETH_SHOST ETH_DHOST; omega),
      readMac_writeMac_same _ _ _ (readMac_length _ _)]
    apply readMac_congr
    intro k hk
    exact Reply_ICMP_before_eth_low lk r type _ (by unfold ETH_SHOST; omega)
  · have h12 : (Reply_ICMP lk r type).buf ETH_TYPE = r.buf ETH_TYPE := by
      unfold Reply_ICMP
      simp only [Header_NewETH]
      rw [writeMac_other _ _ _ _ (by unfold ETH_TYPE ETH_SHOST; omega),
        writeMac_other _ _ _ _ (by unfold ETH_TYPE ETH_DHOST; omega)]
      exact Reply_ICMP_before_eth_low lk r type _ (by unfold ETH_TYPE; omega)
    have h13 : (Reply_ICMP lk r type).buf (ETH_TYPE + 1) = r.buf (ETH_TYPE + 1) := by
      unfold Reply_ICMP
      simp only [Header_NewETH]
      rw [writeMac_other _ _ _ _ (by unfold ETH_TYPE ETH_SHOST; omega),
        writeMac_other _ _ _ _ (by unfold ETH_TYPE ETH_DHOST; omega)]
      exact Reply_ICMP_before_eth_low lk r type _ (by unfold ETH_TYPE; omega)
    rw [h12, h13]

theorem Header_NewETH_buf_high (lk : Link) (r : routing) (i : Nat) (hi : 12 ≤ i) :
    (Header_NewETH lk r).buf i = r.buf i := by
  simp only [Header_NewETH, ETH_DHOST, ETH_SHOST]
  rw [writeMac_other _ _ _ _ (by omega), writeMac_other _ _ _ _ (by omega)]

/-- A checksum stored by "zero the field, compute, store `htons` of the result" passes
the test "stored value = `htons(Checksum(region with the field zeroed))`", also when the
buffer was changed outside the region afterwards. -/
theorem stored_checksum_valid (Z R : Buf) (f off len : Nat) (hf1 : off ≤ f)
    (hf2 : f + 1 < off + len) (hZ0 : Z f = 0) (hZ1 : Z (f + 1) = 0)
    (hR : ∀ i, off ≤ i → i < off + len → R i = wr16 Z f (htons (Checksum 0 Z off len)) i) :
    rd16 R f = htons (Checksum 0 (wr16 R f 0) off len) := by
  have h1 : rd16 R f = htons (Checksum 0 Z off len) := by
    rw [rd16, hR f hf1 (by omega), hR (f + 1) (by omega) hf2]
    exact rd16_wr16_same Z f _ (htons_lt _)
  rw [h1]
  congr 1
  apply Checksum_congr
  intro i hi1 hi2
  by_cases e1 : i = f
  · subst e1; simp [wr16, hZ0]
  · by_cases e2 : i = f + 1
    · subst e2; simp [wr16, hZ1]
    · rw [wr16_other _ _ _ _ e1 e2, hR i hi1 hi2, wr16_other _ _ _ _ e1 e2]

/-- C19: for every working buffer and every ICMP type (0, 3, 11 in particular), in the
frame produced by `Reply_ICMP` the stored IPv4 header checksum equals
`htons(Checksum(the 20-byte IPv4 header with its checksum field zeroed))` and the stored
ICMP checksum equals `htons(Checksum(the 8-byte ICMP header with its checksum field
zeroed))`; the produced IPv4 header passes the validation test of `Handler_IPV4`. -/
theorem Reply_ICMP_checksums_valid (lk : Link) (r : routing) (type : Nat) :
    rd16 (Reply_ICMP lk r type).buf IP_CHECK =
      htons (Checksum 0 (wr16 (Reply_ICMP lk r type).buf IP_CHECK 0) ETH_SIZE IP_SIZE) ∧
    rd16 (Reply_ICMP lk r type).buf ICMP_CHECKSUM =
      htons (Checksum 0 (wr16 (Reply_ICMP lk r type).buf ICMP_CHECKSUM 0) ICMP_TYPE ICMP_SIZE) ∧
    checksumValid (Reply_ICMP lk r type).buf := by
  have hip : rd16 (Reply_ICMP lk r type).buf IP_CHECK =
      htons (Checksum 0 (wr16 (Reply_ICMP lk r type).buf IP_CHECK 0) ETH_SIZE IP_SIZE) := by
    apply stored_checksum_valid
      (wr16 (Set_IPV4_Fields lk (Checksum_ICMP (Init_ICMP_Header r type)) type).buf IP_CHECK 0)
    · decide
    · decide
    · simp [wr16]
    · simp [wr16]
    · intro i hi1 hi2
      unfold ETH_SIZE at hi1
      unfold Reply_ICMP
      rw [Header_NewETH_buf_high lk _ i (by omega)]
      rfl
  refine ⟨hip, ?_, hip⟩
  apply stored_checksum_valid (wr16 (Init_ICMP_Header r type).buf ICMP_CHECKSUM 0)
  · decide
  · decide
  · simp [wr16]
  · simp [wr16]
  · intro i hi1 hi2
    unfold ICMP_TYPE at hi1
    unfold Reply_ICMP
    rw [Reply_ICMP_ip_eth_stages_high lk _ type i hi1]
    rfl

theorem Reply_ICMP_code_byte (lk : Link) (r : routing) (type : Nat) :
    (Reply_ICMP lk r type).buf ICMP_CODE = 0 := by
  unfold Reply_ICMP
  rw [Reply_ICMP_ip_eth_stages_high lk _ type ICMP_CODE (by decide)]
  simp [Checksum_ICMP, Init_ICMP_Header, wr8, wr16, ICMP_CODE, ICMP_TYPE, ICMP_CHECKSUM]

theorem Reply_ICMP_saddr_bytes (lk : Link) (r : routing) (type : Nat) :
    (List.range 4).map (fun j => (Reply_ICMP lk r type).buf (IP_SADDR + j)) =
      le32 (lk.ipv4 r.interface) := by
  have hint : ∀ t, (Checksum_ICMP (Init_ICMP_Header r t)).interface = r.interface := by
    intro t
    unfold Checksum_ICMP Init_ICMP_Header
    dsimp only
    split <;> rfl
  show [(Reply_ICMP lk r type).buf (IP_SADDR + 0), (Reply_ICMP lk r type).buf (IP_SADDR + 1),
    (Reply_ICMP lk r type).buf (IP_SADDR + 2), (Reply_ICMP lk r type).buf (IP_SADDR + 3)] = _
  simp [Reply_ICMP, Header_NewETH, Header_NewIP, Header_IPV4, Update_IPV4_Checksum, writeMac,
    ETH_DHOST, ETH_SHOST, Set_IPV4_Fields, wr8, wr16, wr32, IP_VHL, IP_TOS, IP_TOT_LEN, IP_ID,
    IP_FRAG_OFF, IP_TTL, IP_PROTOCOL, IP_CHECK, IP_SADDR, IP_DADDR, le32, hint]

/-- The frame sent after `Reply_ICMP`, for every type: interface, length, ICMP type
and code bytes, IPv4 source address bytes, and the tables left as they were. -/
theorem Reply_ICMP_frame (lk : Link) (r : routing) (type : Nat) :
    (Send_To_Link (Reply_ICMP lk r type).interface (Reply_ICMP lk r type).buf
        (Reply_ICMP lk r type).len).interface = r.interface ∧
    (Send_To_Link (Reply_ICMP lk r type).interface (Reply_ICMP lk r type).buf
        (Reply_ICMP lk r type).len).data.length =
      (if type = ICMP_TIME_EXCED ∨ type = ICMP_DEST_UNREACH then 70 else 42) ∧
    (Send_To_Link (Reply_ICMP lk r type).interface (Reply_ICMP lk r type).buf
        (Reply_ICMP lk r type).len).data[ICMP_TYPE]? = some (type % 256) ∧
    (Send_To_Link (Reply_ICMP lk r type).interface (Reply_ICMP lk r type).buf
        (Reply_ICMP lk r type).len).data[ICMP_CODE]? = some 0 ∧
    ((Send_To_Link (Reply_ICMP lk r type).interface (Reply_ICMP lk r type).buf
        (Reply_ICMP lk r type).len).data.drop IP_SADDR).take 4 = le32 (lk.ipv4 r.interface) := by
  have hlen : 42 ≤ (Reply_ICMP lk r type).len := by
    rw [Reply_ICMP_len]; split <;> decide
  refine ⟨Reply_ICMP_interface lk r type, ?_, ?_, ?_, ?_⟩
  · simp only [Send_To_Link, bytesOf_length]
    exact Reply_ICMP_len lk r type
  · simp only [Send_To_Link]
    rw [bytesOf_getElem? _ _ _ (by unfold ICMP_TYPE; omega), Reply_ICMP_type_byte]
  · simp only [Send_To_Link]
    rw [bytesOf_getElem? _ _ _ (by unfold ICMP_CODE; omega), Reply_ICMP_code_byte]
  · simp only [Send_To_Link]
    rw [bytesOf_slice _ _ _ 4 (by unfold IP_SADDR; omega)]
    exact Reply_ICMP_saddr_bytes lk r type

/-- C16: for every valid-checksum IPv4 frame received on interface `i` that is not
addressed to the IPv4 address of `i` and for which `LPM_IPV4_Table` returns none, whatever
its TTL, `Handler_IPV4` emits exactly one frame, on interface `i`, of length 70 bytes,
carrying ICMP type 3 with code 0 and IPv4 `saddr` equal to the address of `i`, and leaves
the ARP cache and the pending queue unchanged. -/
theorem Handler_IPV4_no_route_unreachable (lk : Link) (route : routing)
    (hv : checksumValid route.buf)
    (hd : rd32 route.buf IP_DADDR ≠ lk.ipv4 route.interface)
    (hl : LPM_IPV4_Table route.ipv4s (rd32 route.buf IP_DADDR) = none) :
    ∃ f, (Handler_IPV4 lk route).2 = [f] ∧
      f.interface = route.interface ∧
      f.data.length = 70 ∧
      f.data[ICMP_TYPE]? = some 3 ∧
      f.data[ICMP_CODE]? = some 0 ∧
      (f.data.drop IP_SADDR).take 4 = le32 (lk.ipv4 route.interface) ∧
      (Handler_IPV4 lk route).1.macs = route.macs ∧
      (Handler_IPV4 lk route).1.waiting = route.waiting := by
  rw [Handler_IPV4_unreachable_eq lk route hv hd hl]
  obtain ⟨h1, h2, h3, h4, h5⟩ :=
    Reply_ICMP_frame lk { route with buf := wr16 route.buf IP_CHECK 0 } ICMP_DEST_UNREACH
  obtain ⟨h6, h7, _⟩ :=
    Reply_ICMP_state lk { route with buf := wr16 route.buf IP_CHECK 0 } ICMP_DEST_UNREACH
  exact ⟨_, rfl, h1, h2, h3, h4, h5, h6, h7⟩

/-- C16 (witness): `frameTTL10` received on interface 0 with an empty routing table. -/
theorem Handler_IPV4_no_route_unreachable_witness :
    checksumValid (bufOfList frameTTL10) ∧
    LPM_IPV4_Table CreateEmpty_IPV4_Table (rd32 (bufOfList frameTTL10) IP_DADDR) = none ∧
    ∃ f, (Handler_IPV4 linkEx
        (received CreateEmpty_IPV4_Table arpEx Queue frameTTL10 0)).2 = [f] ∧
      f.interface = 0 ∧
      f.data.length = 70 ∧
      f.data[ICMP_TYPE]? = some 3 ∧
      f.data[ICMP_CODE]? = some 0 ∧
      (f.data.drop IP_SADDR).take 4 = le32 (linkEx.ipv4 0) ∧
      (Handler_IPV4 linkEx (received CreateEmpty_IPV4_Table arpEx Queue frameTTL10 0)).1.macs
        = arpEx ∧
      (Handler_IPV4 linkEx (received CreateEmpty_IPV4_Table arpEx Queue frameTTL10 0)).1.waiting
        = Queue :=
  ⟨by decide, by decide,
    Handler_IPV4_no_route_unreachable linkEx
      (received CreateEmpty_IPV4_Table arpEx Queue frameTTL10 0)
      (by decide) (by decide) (by decide)⟩

/-- C17: for every valid-checksum IPv4 frame received on interface `i` whose destination
address equals the IPv4 address of `i`, regardless of its protocol field, its ICMP type,
its TTL and the routing table, `Handler_IPV4` emits exactly one frame, on interface `i`,
whose ICMP type is 0 and code is 0 and whose IPv4 `saddr` is the address of `i`, and
leaves the ARP cache and the pending queue unchanged. -/
theorem Handler_IPV4_local_delivery_echo_reply (lk : Link) (route : routing)
    (hv : checksumValid route.buf)
    (hloc : rd32 route.buf IP_DADDR = lk.ipv4 route.interface) :
    ∃ f, (Handler_IPV4 lk route).2 = [f] ∧
      f.interface = route.interface ∧
      f.data[ICMP_TYPE]? = some 0 ∧
      f.data[ICMP_CODE]? = some 0 ∧
      (f.data.drop IP_SADDR).take 4 = le32 (lk.ipv4 route.interface) ∧
      (Handler_IPV4 lk route).1.macs = route.macs ∧
      (Handler_IPV4 lk route).1.waiting = route.waiting := by
  rw [Handler_IPV4_local_eq lk route hv hloc]
  obtain ⟨h1, _, h3, h4, h5⟩ :=
    Reply_ICMP_frame lk { route with buf := wr16 route.buf IP_CHECK 0 } ICMP_RESPONE
  obtain ⟨h6, h7, _⟩ :=
    Reply_ICMP_state lk { route with buf := wr16 route.buf IP_CHECK 0 } ICMP_RESPONE
  exact ⟨_, rfl, h1, h3, h4, h5, h6, h7⟩

/-- C17 (witness): `frameEcho` with its protocol field set to 17 (UDP) and the header
checksum adjusted, received on interface 0 with an empty routing table. -/
theorem Handler_IPV4_local_delivery_echo_reply_witness :
    checksumValid (wr16 (wr8 (bufOfList frameEcho) IP_PROTOCOL 17) IP_CHECK 0x2470) ∧
    (wr16 (wr8 (bufOfList frameEcho) IP_PROTOCOL 17) IP_CHECK 0x2470) IP_PROTOCOL = 17 ∧
    ∃ f, (Handler_IPV4 linkEx
        { received CreateEmpty_IPV4_Table arpEx Queue frameEcho 0 with
          buf := wr16 (wr8 (bufOfList frameEcho) IP_PROTOCOL 17) IP_CHECK 0x2470 }).2 = [f] ∧
      f.interface = 0 ∧
      f.data[ICMP_TYPE]? = some 0 ∧
      f.data[ICMP_CODE]? = some 0 ∧
      (f.data.drop IP_SADDR).take 4 = le32 (linkEx.ipv4 0) ∧
      (Handler_IPV4 linkEx
        { received CreateEmpty_IPV4_Table arpEx Queue frameEcho 0 with
          buf := wr16 (wr8 (bufOfList frameEcho) IP_PROTOCOL 17) IP_CHECK 0x2470 }).1.macs
        = arpEx ∧
      (Handler_IPV4 linkEx
        { received CreateEmpty_IPV4_Table arpEx Queue frameEcho 0 with
          buf := wr16 (wr8 (bufOfList frameEcho) IP_PROTOCOL 17) IP_CHECK 0x2470 }).1.waiting
        = Queue :=
  ⟨by decide, by decide,
    Handler_IPV4_local_delivery_echo_reply linkEx
      { received CreateEmpty_IPV4_Table arpEx Queue frameEcho 0 with
        buf := wr16 (wr8 (bufOfList frameEcho) IP_PROTOCOL 17) IP_CHECK 0x2470 }
      (by decide) (by decide)⟩

/-! ## Forwarding with an ARP cache miss -/

theorem forwardedBuf_zeroed (b : Buf) (old_check i : Nat) :
    forwardedBuf (wr16 b IP_CHECK 0) old_check i = forwardedBuf b old_check i := by
  have httl : wr16 b IP_CHECK 0 IP_TTL = b IP_TTL := wr16_other _ _ _ _ (by decide) (by decide)
  unfold forwardedBuf
  rw [httl]
  by_cases h1 : i = IP_TTL
  · subst h1; simp [wr8]
  · rw [wr8_other _ _ _ _ h1, wr8_other _ _ _ _ h1]
    by_cases h2 : i = IP_CHECK
    · subst h2; simp [wr16]
    · by_cases h3 : i = IP_CHECK + 1
      · subst h3; simp [wr16]
      · rw [wr16_other _ _ _ _ h2 h3, wr16_other _ _ _ _ h2 h3, wr16_other _ _ _ _ h2 h3,
          wr16_other _ _ _ _ h2 h3, wr16_other _ _ _ _ h2 h3]

/-- What `Request_ARP` leaves in the router state: length 42, the interface and the
tables untouched, EtherType `08 06`, operation `00 01`, target protocol address the
next hop. -/
theorem Request_ARP_result (lk : Link) (r : routing) :
    (Request_ARP lk r).len = 42 ∧
    (Request_ARP lk r).interface = r.interface ∧
    (Request_ARP lk r).waiting = r.waiting ∧
    (Request_ARP lk r).macs = r.macs ∧
    (List.range 2).map (fun j => (Request_ARP lk r).buf (ETH_TYPE + j)) = [0x08, 0x06] ∧
    (List.range 2).map (fun j => (Request_ARP lk r).buf (ARP_OP + j)) = [0x00, 0x01] ∧
    (List.range 4).map (fun j => (Request_ARP lk r).buf (ARP_TPA + j)) = le32 r.next_hop := by
  refine ⟨rfl, rfl, rfl, rfl, ?_, ?_, ?_⟩
  · show [(Request_ARP lk r).buf (ETH_TYPE + 0), (Request_ARP lk r).buf (ETH_TYPE + 1)] = _
    simp [Request_ARP, Update_ARP_Length, Init_ARP_Header, Init_ETH_Header, wr8, wr16, wr32,
      writeMac, memset, ETH_TYPE, ETH_SHOST, ETH_DHOST, MAC_SIZE, ARP_HTYPE, ARP_PTYPE, ARP_HLEN,
      ARP_PLEN, ARP_OP, ARP_SHA, ARP_SPA, ARP_THA, ARP_TPA, ARP_TYPE, htons]
  · show [(Request_ARP lk r).buf (ARP_OP + 0), (Request_ARP lk r).buf (ARP_OP + 1)] = _
    simp [Request_ARP, Update_ARP_Length, Init_ARP_Header, Init_ETH_Header, wr8, wr16, wr32,
      writeMac, memset, ETH_TYPE, ETH_SHOST, ETH_DHOST, MAC_SIZE, ARP_HTYPE, ARP_PTYPE, ARP_HLEN,
      ARP_PLEN, ARP_OP, ARP_SHA, ARP_SPA, ARP_THA, ARP_TPA, OP_REQUEST, htons]
  · show [(Request_ARP lk r).buf (ARP_TPA + 0), (Request_ARP lk r).buf (ARP_TPA + 1),
      (Request_ARP lk r).buf (ARP_TPA + 2), (Request_ARP lk r).buf (ARP_TPA + 3)] = _
    simp [Request_ARP, Update_ARP_Length, Init_ARP_Header, Init_ETH_Header, wr8, wr16, wr32,
      writeMac, memset, ETH_TYPE, ETH_SHOST, ETH_DHOST, MAC_SIZE, ARP_HTYPE, ARP_PTYPE, ARP_HLEN,
      ARP_PLEN, ARP_OP, ARP_SHA, ARP_SPA, ARP_THA, ARP_TPA, le32]

/-- C11: for every valid-checksum IPv4 frame not addressed to the ingress interface
whose destination has a matching route `best` (next hop `h`, egress interface `e`), with
TTL > 1 and no ARP cache entry for `h`: `Handler_IPV4` appends exactly one packet to the
tail of the pending queue, with next hop `h`, interface `e`, the received length and the
bytes of the received frame with the checksum updated and the TTL decremented, and emits
exactly one frame, on interface `e`, which is an ARP request (42 bytes, EtherType
`08 06`, operation `00 01`) for `h`; the ARP cache is unchanged. -/
theorem Handler_IPV4_forward_cache_miss (lk : Link) (route : routing) (best : forward)
    (h : forwardable lk route best)
    (hmiss : arpFind route.macs best.next_hop = none) :
    ∃ pkt f,
      (Handler_IPV4 lk route).1.waiting.cells = route.waiting.cells ++ [pkt] ∧
      pkt.next_hop = best.next_hop ∧
      pkt.interface = best.interface ∧
      pkt.len = route.len ∧
      (∀ i, i < route.len → pkt.buf i = forwardedBuf route.buf (rd16 route.buf IP_CHECK) i) ∧
      (Handler_IPV4 lk route).2 = [f] ∧
      f.interface = best.interface ∧
      f.data.length = ETH_SIZE + ARP_HDR_SIZE ∧
      (f.data.drop ETH_TYPE).take 2 = [0x08, 0x06] ∧
      (f.data.drop ARP_OP).take 2 = [0x00, 0x01] ∧
      (f.data.drop ARP_TPA).take 4 = le32 best.next_hop ∧
      (Handler_IPV4 lk route).1.macs = route.macs := by
  have hm := Get_ARP_Entry_miss route.macs best.next_hop hmiss
  rw [Handler_IPV4_forward_eq lk route best h, forwardIPV4_miss lk _ _ hm]
  obtain ⟨h1, h2, h3, h4, h5, h6, h7⟩ := Request_ARP_result lk
    { route with
      buf := forwardedBuf (wr16 route.buf IP_CHECK 0) (rd16 route.buf IP_CHECK),
      next_hop := best.next_hop, interface := best.interface,
      waiting := Enqueue route.waiting
        (Send_Packet
          { route with
            buf := forwardedBuf (wr16 route.buf IP_CHECK 0) (rd16 route.buf IP_CHECK),
            next_hop := best.next_hop, interface := best.interface }) }
  refine ⟨Send_Packet
      { route with
        buf := forwardedBuf (wr16 route.buf IP_CHECK 0) (rd16 route.buf IP_CHECK),
        next_hop := best.next_hop, interface := best.interface }, _,
    ?_, rfl, rfl, rfl, ?_, rfl, h2, ?_, ?_, ?_, ?_, h4⟩
  · rw [h3]; rfl
  · intro i hi
    simp only [Send_Packet, memcpy]
    rw [if_pos (by omega)]
    simp only [Nat.sub_zero, Nat.zero_add]
    exact forwardedBuf_zeroed _ _ _
  · simp only [Send_To_Link, bytesOf_length]
    exact h1
  · simp only [Send_To_Link]
    rw [h1, bytesOf_slice _ _ _ 2 (by decide)]
    exact h5
  · simp only [Send_To_Link]
    rw [h1, bytesOf_slice _ _ _ 2 (by decide)]
    exact h6
  · simp only [Send_To_Link]
    rw [h1, bytesOf_slice _ _ _ 4 (by decide)]
    exact h7

/-- C11 (witness): `frameTTL10` received on interface 0 with an empty ARP cache and
an empty pending queue. -/
theorem Handler_IPV4_forward_cache_miss_witness :
    forwardable linkEx (received tableEx Create_ARP_Table Queue frameTTL10 0)
      { next_hop := 0x0101A8C0, interface := 1, status := true } ∧
    arpFind Create_ARP_Table 0x0101A8C0 = none ∧
    ∃ pkt f,
      (Handler_IPV4 linkEx (received tableEx Create_ARP_Table Queue frameTTL10 0)).1.waiting.cells
        = [] ++ [pkt] ∧
      pkt.next_hop = 0x0101A8C0 ∧
      pkt.interface = 1 ∧
      pkt.len = 42 ∧
      (∀ i, i < 42 →
        pkt.buf i = forwardedBuf (bufOfList frameTTL10) (rd16 (bufOfList frameTTL10) IP_CHECK) i) ∧
      (Handler_IPV4 linkEx (received tableEx Create_ARP_Table Queue frameTTL10 0)).2 = [f] ∧
      f.interface = 1 ∧
      f.data.length = ETH_SIZE + ARP_HDR_SIZE ∧
      (f.data.drop ETH_TYPE).take 2 = [0x08, 0x06] ∧
      (f.data.drop ARP_OP).take 2 = [0x00, 0x01] ∧
      (f.data.drop ARP_TPA).take 4 = le32 0x0101A8C0 ∧
      (Handler_IPV4 linkEx (received tableEx Create_ARP_Table Queue frameTTL10 0)).1.macs
        = Create_ARP_Table :=
  ⟨⟨by decide, by decide, by decide, by decide⟩, by decide,
    Handler_IPV4_forward_cache_miss linkEx
      (received tableEx Create_ARP_Table Queue frameTTL10 0)
      { next_hop := 0x0101A8C0, interface := 1, status := true }
      ⟨by decide, by decide, by decide, by decide⟩ (by decide)⟩

/-! ## Draining a queue of matching packets -/

theorem drainStep_match (lk : Link) (rout : routing) (pkt : packet) (rest : queue packet)
    (h : pkt.next_hop = rd32 rout.buf ARP_SPA) :
    drainStep lk rout pkt rest =
      ({ rout with waiting := rest, len := pkt.len, interface := pkt.interface,
                   next_hop := pkt.next_hop },
        [drainedFrame lk (readMac rout.buf ARP_SHA) pkt]) := by
  simp [drainStep, h, Waiting_Packet, drainedFrame]

/-- When every queued packet has the sender protocol address of the reply as next hop,
the drain loop exits after one iteration per packet, has sent the packets in queue
order, and leaves the queue empty and the tables and the working buffer untouched. -/
theorem drainLoop_all_match (lk : Link) (cells : List packet) :
    ∀ (fuel : Nat) (rout : routing) (out : List frame),
      rout.waiting.cells = cells →
      (∀ p ∈ cells, p.next_hop = rd32 rout.buf ARP_SPA) →
      cells.length ≤ fuel →
      ∃ s, drainLoop lk fuel rout out =
          some (s, out ++ cells.map (drainedFrame lk (readMac rout.buf ARP_SHA))) ∧
        s.waiting.cells = [] ∧ s.macs = rout.macs ∧ s.buf = rout.buf ∧
        s.ipv4s = rout.ipv4s := by
  induction cells with
  | nil =>
    intro fuel rout out hc _ _
    have hempty : EmptyQueue rout.waiting = true := by
      unfold EmptyQueue; rw [hc]; rfl
    refine ⟨rout, ?_, hc, rfl, rfl, rfl⟩
    cases fuel <;> simp [drainLoop, hempty]
  | cons x t ih =>
    intro fuel rout out hc hall hfuel
    obtain ⟨fuel, rfl⟩ : ∃ f, fuel = f + 1 := ⟨fuel - 1, by simp at hfuel; omega⟩
    have hempty : EmptyQueue rout.waiting = false := by
      unfold EmptyQueue; rw [hc]; rfl
    have hdq : Dequeue rout.waiting = (some x, { cells := t }) := by
      unfold Dequeue; rw [hc]
    have hx : x.next_hop = rd32 rout.buf ARP_SPA := hall x (List.mem_cons_self _ _)
    simp only [drainLoop, hempty, hdq, drainStep_match lk rout x _ hx]
    obtain ⟨s, h1, h2, h3, h4, h5⟩ := ih fuel
      { rout with waiting := { cells := t }, len := x.len, interface := x.interface,
                  next_hop := x.next_hop }
      (out ++ [drainedFrame lk (readMac rout.buf ARP_SHA) x]) rfl
      (fun p hp => hall p (List.mem_cons_of_mem _ hp))
      (by simp at hfuel; omega)
    refine ⟨s, ?_, h2, h3, h4, h5⟩
    rw [h1]
    simp

/-- The frame sent for a drained packet: interface and length of the packet, the
Ethernet header completed, every byte after the Ethernet header as stored. -/
theorem drainedFrame_spec (lk : Link) (m : List Nat) (pkt : packet) (hm : m.length = 6)
    (hs : (lk.mac pkt.interface).length = 6) :
    (drainedFrame lk m pkt).interface = pkt.interface ∧
    (drainedFrame lk m pkt).data.length = pkt.len ∧
    (14 ≤ pkt.len →
      (drainedFrame lk m pkt).data.take 6 = m ∧
      ((drainedFrame lk m pkt).data.drop 6).take 6 = lk.mac pkt.interface ∧
      ((drainedFrame lk m pkt).data.drop 12).take 2 = [0x08, 0x00]) ∧
    ∀ i, 14 ≤ i → i < pkt.len → (drainedFrame lk m pkt).data[i]? = some (pkt.buf i) := by
  refine ⟨rfl, bytesOf_length _ _, ?_, ?_⟩
  · intro hlen
    refine ⟨?_, ?_, ?_⟩
    · show (bytesOf _ pkt.len).take 6 = m
      rw [bytesOf_take_mac _ _ (by omega),
        readMac_writeMac_disjoint _ ETH_SHOST ETH_DHOST _ (by unfold ETH_SHOST ETH_DHOST; omega),
        readMac_writeMac_same _ _ _ hm]
    · show ((bytesOf _ pkt.len).drop 6).take 6 = _
      rw [bytesOf_drop_mac _ _ (by omega), readMac_writeMac_same _ _ _ hs]
    · show ((bytesOf _ pkt.len).drop 12).take 2 = _
      rw [bytesOf_slice _ _ 12 2 (by omega)]
      show [_, _] = _
      simp [writeMac, wr16, ETH_SHOST, ETH_DHOST, ETH_TYPE, IP_TYPE, htons]
  · intro i h1 h2
    show (bytesOf _ pkt.len)[i]? = _
    rw [bytesOf_getElem? _ _ _ h2,
      writeMac_other _ _ _ _ (by unfold ETH_SHOST; omega),
      writeMac_other _ _ _ _ (by unfold ETH_DHOST; omega),
      wr16_other _ _ _ _ (by unfold ETH_TYPE; omega) (by unfold ETH_TYPE; omega)]

/-- The ARP REPLY branch of `Handler_ARP` as an equation. -/
theorem Handler_ARP_reply_eq (lk : Link) (fuel : Nat) (rout : routing)
    (harp : rd16 rout.buf ETH_TYPE = ARP_TYPE) (hop : rd16 rout.buf ARP_OP = OP_REPLY) :
    Handler_ARP lk fuel rout =
      drainLoop lk fuel
        { rout with
          macs := Insert_ARP_Entry rout.macs
            { ip := rd32 rout.buf ARP_SPA, mac := readMac rout.buf ARP_SHA } } [] := by
  have hne : ¬ (OP_REPLY = OP_REQUEST) := by decide
  unfold Handler_ARP
  simp only [harp, hop, ne_eq, not_true_eq_false, if_false, hne]

/-- C13: for every pending queue in which every packet has next hop `r`, handling an
ARP REPLY with sender protocol address `r` and sender hardware address `m` returns
(within one loop iteration per packet), has emitted the queued packets one by one in
FIFO order, each on its own stored interface with its stored length, with Ethernet
destination `m`, Ethernet source the MAC of that interface, EtherType IPv4 and all
bytes after the Ethernet header unchanged, and leaves the pending queue empty. -/
theorem Handler_ARP_reply_drains_matching_queue (lk : Link) (fuel : Nat) (rout : routing)
    (harp : rd16 rout.buf ETH_TYPE = ARP_TYPE) (hop : rd16 rout.buf ARP_OP = OP_REPLY)
    (hall : ∀ p ∈ rout.waiting.cells, p.next_hop = rd32 rout.buf ARP_SPA)
    (hfuel : rout.waiting.cells.length ≤ fuel)
    (hmac : ∀ i, (lk.mac i).length = 6) :
    ∃ s out, Handler_ARP lk fuel rout = some (s, out) ∧
      s.waiting.cells = [] ∧
      out = rout.waiting.cells.map (drainedFrame lk (readMac rout.buf ARP_SHA)) ∧
      ∀ p ∈ rout.waiting.cells,
        (drainedFrame lk (readMac rout.buf ARP_SHA) p).interface = p.interface ∧
        (drainedFrame lk (readMac rout.buf ARP_SHA) p).data.length = p.len ∧
        (14 ≤ p.len →
          (drainedFrame lk (readMac rout.buf ARP_SHA) p).data.take 6
            = readMac rout.buf ARP_SHA ∧
          ((drainedFrame lk (readMac rout.buf ARP_SHA) p).data.drop 6).take 6
            = lk.mac p.interface ∧
          ((drainedFrame lk (readMac rout.buf ARP_SHA) p).data.drop 12).take 2
            = [0x08, 0x00]) ∧
        ∀ i, 14 ≤ i → i < p.len →
          (drainedFrame lk (readMac rout.buf ARP_SHA) p).data[i]? = some (p.buf i) := by
  rw [Handler_ARP_reply_eq lk fuel rout harp hop]
  obtain ⟨s, h1, h2, _, _, _⟩ := drainLoop_all_match lk rout.waiting.cells fuel
    { rout with
      macs := Insert_ARP_Entry rout.macs
        { ip := rd32 rout.buf ARP_SPA, mac := readMac rout.buf ARP_SHA } } [] rfl hall hfuel
  refine ⟨s, _, h1, h2, by simp, ?_⟩
  intro p _
  exact drainedFrame_spec lk _ p (readMac_length _ _) (hmac p.interface)

/-- C13 (witness): two pending packets for 192.168.1.1 and the ARP REPLY
`frameArpReply` from 192.168.1.1 received on interface 1. -/
theorem Handler_ARP_reply_drains_matching_queue_witness :
    (∀ p ∈ (received tableEx Create_ARP_Table
        (Enqueue (Enqueue Queue pktFor1) { pktFor1 with len := 34 })
        frameArpReply 1).waiting.cells,
      p.next_hop = rd32 (bufOfList frameArpReply) ARP_SPA) ∧
    (∀ i, (linkEx.mac i).length = 6) ∧
    ∃ s out, Handler_ARP linkEx 2
        (received tableEx Create_ARP_Table
          (Enqueue (Enqueue Queue pktFor1) { pktFor1 with len := 34 })
          frameArpReply 1) = some (s, out) ∧
      s.waiting.cells = [] ∧
      out.map (fun f => (f.interface, f.data.length)) = [(1, 42), (1, 34)] := by
  have h1 : ∀ p ∈ (received tableEx Create_ARP_Table
        (Enqueue (Enqueue Queue pktFor1) { pktFor1 with len := 34 })
        frameArpReply 1).waiting.cells,
      p.next_hop = rd32 (bufOfList frameArpReply) ARP_SPA := by
    intro p hp
    simp only [received, Enqueue, Queue, List.nil_append, List.cons_append, List.mem_cons,
      List.mem_singleton, List.not_mem_nil, or_false] at hp
    rcases hp with rfl | rfl <;> decide
  have h2 : ∀ i, (linkEx.mac i).length = 6 := by
    intro i
    unfold linkEx
    dsimp only
    split <;> rfl
  obtain ⟨s, out, e1, e2, e3, _⟩ := Handler_ARP_reply_drains_matching_queue linkEx 2
    (received tableEx Create_ARP_Table
      (Enqueue (Enqueue Queue pktFor1) { pktFor1 with len := 34 }) frameArpReply 1)
    (by decide) (by decide) h1 (by decide) h2
  refine ⟨h1, h2, s, out, e1, e2, ?_⟩
  rw [e3]
  rfl

/-! ## Two dispatches: cache miss, then the ARP reply -/

theorem dispatch_ip (lk : Link) (fuel : Nat) (route : routing)
    (h : rd16 route.buf ETH_TYPE = IP_TYPE) :
    dispatch lk fuel route = some (Handler_IPV4 lk route) := by
  have hne : ¬ (IP_TYPE = ARP_TYPE) := by decide
  unfold dispatch
  simp only [h, if_true, hne, if_false]

theorem dispatch_arp (lk : Link) (fuel : Nat) (route : routing)
    (h : rd16 route.buf ETH_TYPE = ARP_TYPE) :
    dispatch lk fuel route = Handler_ARP lk fuel route := by
  have hne : ¬ (ARP_TYPE = IP_TYPE) := by decide
  unfold dispatch
  simp only [h, if_true, hne, if_false, List.nil_append]
  cases Handler_ARP lk fuel route <;> rfl

theorem Recv_FromAny_Link_buf (route : routing) (frame_data : List Nat) (interface : Int)
    (i : Nat) (hi : i < frame_data.length) :
    (Recv_FromAny_Link route frame_data interface).buf i = bufOfList frame_data i := by
  simp only [Recv_FromAny_Link, memcpy]
  rw [if_pos (by omega)]
  simp

theorem Insert_ARP_Entry_find (arp : arp_table) (ip : Nat) (mac : List Nat)
    (hmiss : arpFind arp ip = none) (hroom : arp.addrs.length < ARP_SIZE) :
    arpFind (Insert_ARP_Entry arp { ip := ip, mac := mac }) ip = some { ip := ip, mac := mac } := by
  have h1 : ¬ (arp.len ≥ (ARP_SIZE : Int)) := by
    unfold arp_table.len
    omega
  have h2 := Get_ARP_Entry_miss arp ip hmiss
  unfold arpFind at hmiss
  simp only [Insert_ARP_Entry, h1, if_false, h2, if_true, arpFind, List.find?_append, hmiss,
    Option.none_or]
  simp [List.find?]

/-- The router state after the cache-miss branch of `Handler_IPV4`. -/
theorem Handler_IPV4_miss_state (lk : Link) (route : routing) (best : forward)
    (h : forwardable lk route best) (hmiss : arpFind route.macs best.next_hop = none) :
    (Handler_IPV4 lk route).1.waiting =
      Enqueue route.waiting
        (Send_Packet
          { route with
            buf := forwardedBuf (wr16 route.buf IP_CHECK 0) (rd16 route.buf IP_CHECK),
            next_hop := best.next_hop, interface := best.interface }) ∧
    (Handler_IPV4 lk route).1.macs = route.macs := by
  have hm := Get_ARP_Entry_miss route.macs best.next_hop hmiss
  rw [Handler_IPV4_forward_eq lk route best h, forwardIPV4_miss lk _ _ hm]
  exact ⟨rfl, rfl⟩

/-- C12 (amended): starting from an empty pending queue and an ARP cache with fewer than
1001 entries and no entry for next hop `h`: if a valid IPv4 frame `F` with TTL `t > 1`
routed to (`h`, egress `e`) is dispatched and then an ARP REPLY with sender protocol
address `h` and sender hardware address `m` is dispatched, the second dispatch returns
and emits exactly one frame, on interface `e`, equal to `F` with TTL `t - 1`, updated
header checksum, Ethernet destination `m` and Ethernet source the MAC of `e`; afterwards
the ARP cache maps `h` to `m` and the pending queue is empty. -/
theorem dispatch_miss_then_reply (lk : Link) (s0 : routing) (best : forward)
    (reply : List Nat) (i2 : Int) (m : List Nat) (fuel0 fuel : Nat)
    (hip : rd16 s0.buf ETH_TYPE = IP_TYPE)
    (h : forwardable lk s0 best)
    (hb : isBytes s0.buf)
    (hlen : ETH_SIZE + IP_SIZE ≤ s0.len)
    (hq : s0.waiting.cells = [])
    (hmiss : arpFind s0.macs best.next_hop = none)
    (hroom : s0.macs.addrs.length < ARP_SIZE)
    (hrl : ETH_SIZE + ARP_HDR_SIZE ≤ reply.length)
    (harp : rd16 (bufOfList reply) ETH_TYPE = ARP_TYPE)
    (hop : rd16 (bufOfList reply) ARP_OP = OP_REPLY)
    (hspa : rd32 (bufOfList reply) ARP_SPA = best.next_hop)
    (hsha : readMac (bufOfList reply) ARP_SHA = m)
    (hmac : (lk.mac best.interface).length = 6)
    (hfuel : 1 ≤ fuel) :
    ∃ s1 out1, dispatch lk fuel0 s0 = some (s1, out1) ∧
      ∃ s3 f, dispatch lk fuel (Recv_FromAny_Link s1 reply i2) = some (s3, [f]) ∧
        f.interface = best.interface ∧
        f.data.length = s0.len ∧
        f.data.take 6 = m ∧
        (f.data.drop 6).take 6 = lk.mac best.interface ∧
        f.data[IP_TTL]? = some (s0.buf IP_TTL - 1) ∧
        (∀ i, 12 ≤ i → i < s0.len →
          f.data[i]? = some (forwardedBuf s0.buf (rd16 s0.buf IP_CHECK) i)) ∧
        arpFind s3.macs best.next_hop = some { ip := best.next_hop, mac := m } ∧
        s3.waiting.cells = [] := by
  unfold ETH_SIZE IP_SIZE at hlen
  unfold ETH_SIZE ARP_HDR_SIZE at hrl
  obtain ⟨hw, hmacs⟩ := Handler_IPV4_miss_state lk s0 best h hmiss
  refine ⟨(Handler_IPV4 lk s0).1, (Handler_IPV4 lk s0).2, dispatch_ip lk fuel0 s0 hip, ?_⟩
  -- the state in which the reply is handled
  have hB : ∀ i, i < 42 →
      (Recv_FromAny_Link (Handler_IPV4 lk s0).1 reply i2).buf i = bufOfList reply i :=
    fun i hi => Recv_FromAny_Link_buf _ _ _ i (by omega)
  have harp2 : rd16 (Recv_FromAny_Link (Handler_IPV4 lk s0).1 reply i2).buf ETH_TYPE
      = ARP_TYPE := by
    rw [← harp]
    simp only [rd16, ETH_TYPE]
    rw [hB 12 (by decide), hB 13 (by decide)]
  have hop2 : rd16 (Recv_FromAny_Link (Handler_IPV4 lk s0).1 reply i2).buf ARP_OP
      = OP_REPLY := by
    rw [← hop]
    simp only [rd16, ARP_OP]
    rw [hB 20 (by decide), hB 21 (by decide)]
  have hspa2 : rd32 (Recv_FromAny_Link (Handler_IPV4 lk s0).1 reply i2).buf ARP_SPA
      = best.next_hop := by
    rw [← hspa]
    simp only [rd32, ARP_SPA]
    rw [hB 28 (by decide), hB 29 (by decide), hB 30 (by decide), hB 31 (by decide)]
  have hsha2 : readMac (Recv_FromAny_Link (Handler_IPV4 lk s0).1 reply i2).buf ARP_SHA = m := by
    rw [← hsha]
    apply readMac_congr
    intro k hk
    exact hB _ (by unfold ARP_SHA; omega)
  have hcells : (Recv_FromAny_Link (Handler_IPV4 lk s0).1 reply i2).waiting.cells =
      [Send_Packet
        { s0 with
          buf := forwardedBuf (wr16 s0.buf IP_CHECK 0) (rd16 s0.buf IP_CHECK),
          next_hop := best.next_hop, interface := best.interface }] := by
    show (Handler_IPV4 lk s0).1.waiting.cells = _
    rw [hw]
    simp [Enqueue, hq]
  rw [dispatch_arp lk fuel _ harp2, Handler_ARP_reply_eq lk fuel _ harp2 hop2]
  obtain ⟨s3, e1, e2, e3, _, _⟩ := drainLoop_all_match lk _ fuel
    { Recv_FromAny_Link (Handler_IPV4 lk s0).1 reply i2 with
      macs := Insert_ARP_Entry (Recv_FromAny_Link (Handler_IPV4 lk s0).1 reply i2).macs
        { ip := rd32 (Recv_FromAny_Link (Handler_IPV4 lk s0).1 reply i2).buf ARP_SPA,
          mac := readMac (Recv_FromAny_Link (Handler_IPV4 lk s0).1 reply i2).buf ARP_SHA } }
    [] hcells
    (by
      intro p hp
      rw [List.mem_singleton] at hp
      subst hp
      exact hspa2.symm)
    (by simpa using hfuel)
  rw [e1]
  simp only [List.nil_append, List.map_cons, List.map_nil]
  rw [hsha2]
  obtain ⟨d1, d2, d3, d4⟩ := drainedFrame_spec lk m
    (Send_Packet
      { s0 with
        buf := forwardedBuf (wr16 s0.buf IP_CHECK 0) (rd16 s0.buf IP_CHECK),
        next_hop := best.next_hop, interface := best.interface })
    (by rw [← hsha]; exact readMac_length _ _) hmac
  have hpk : ∀ i, i < s0.len →
      (Send_Packet
        { s0 with
          buf := forwardedBuf (wr16 s0.buf IP_CHECK 0) (rd16 s0.buf IP_CHECK),
          next_hop := best.next_hop, interface := best.interface }).buf i
        = forwardedBuf s0.buf (rd16 s0.buf IP_CHECK) i := by
    intro i hi
    simp only [Send_Packet, memcpy]
    rw [if_pos (by omega)]
    simp only [Nat.sub_zero, Nat.zero_add]
    exact forwardedBuf_zeroed _ _ _
  have hty : s0.buf 12 = 8 ∧ s0.buf 13 = 0 := by
    have h12 := hb 12
    have h13 := hb 13
    have e : s0.buf 12 + 256 * s0.buf 13 = 8 := hip
    omega
  obtain ⟨t1, t2, t3⟩ := d3 (show 14 ≤ s0.len by omega)
  refine ⟨s3, _, rfl, d1, d2, t1, t2, ?_, ?_, ?_, e2⟩
  · rw [d4 IP_TTL (by decide) (show IP_TTL < s0.len by unfold IP_TTL; omega),
      hpk IP_TTL (by unfold IP_TTL; omega), forwardedBuf_ttl _ _ (hb _)]
  · intro i hi1 hi2
    by_cases hi14 : 14 ≤ i
    · rw [d4 i hi14 hi2, hpk i hi2]
    · have hsl : ((drainedFrame lk m
          (Send_Packet
            { s0 with
              buf := forwardedBuf (wr16 s0.buf IP_CHECK 0) (rd16 s0.buf IP_CHECK),
              next_hop := best.next_hop, interface := best.interface })).data.drop 12).take 2
          = [0x08, 0x00] := t3
      have hcase : i = 12 ∨ i = 13 := by omega
      have hg : ∀ j, j < 2 →
          (drainedFrame lk m
            (Send_Packet
              { s0 with
                buf := forwardedBuf (wr16 s0.buf IP_CHECK 0) (rd16 s0.buf IP_CHECK),
                next_hop := best.next_hop, interface := best.interface })).data[12 + j]?
            = [0x08, 0x00][j]? := by
        intro j hj
        rw [← hsl, List.getElem?_take_of_lt hj, List.getElem?_drop]
      rcases hcase with rfl | rfl
      · rw [hg 0 (by decide), forwardedBuf_other _ _ _ (by decide) (by decide) (by decide), hty.1]
        rfl
      · rw [hg 1 (by decide), forwardedBuf_other _ _ _ (by decide) (by decide) (by decide), hty.2]
        rfl
  · rw [e3]
    show arpFind (Insert_ARP_Entry (Handler_IPV4 lk s0).1.macs _) _ = _
    rw [hspa2, hsha2, hmacs]
    exact Insert_ARP_Entry_find s0.macs best.next_hop m hmiss hroom

/-- C12 (witness): the scenario "forward with ARP miss then reply": `frameTTL10`
on interface 0 with an empty cache and queue, then `frameArpReply` on interface 1. -/
theorem dispatch_miss_then_reply_witness :
    forwardable linkEx (received tableEx Create_ARP_Table Queue frameTTL10 0)
      { next_hop := 0x0101A8C0, interface := 1, status := true } ∧
    isBytes (bufOfList frameTTL10) ∧
    arpFind Create_ARP_Table 0x0101A8C0 = none ∧
    ∃ s1 out1, dispatch linkEx 0 (received tableEx Create_ARP_Table Queue frameTTL10 0)
        = some (s1, out1) ∧
      ∃ s3 f, dispatch linkEx 1 (Recv_FromAny_Link s1 frameArpReply 1) = some (s3, [f]) ∧
        f.interface = 1 ∧
        f.data.length = 42 ∧
        f.data.take 6 = [0xaa, 0xbb, 0xcc, 0xdd, 0xee, 0xff] ∧
        (f.data.drop 6).take 6 = linkEx.mac 1 ∧
        f.data[IP_TTL]? = some (10 - 1) ∧
        (∀ i, 12 ≤ i → i < 42 →
          f.data[i]? = some (forwardedBuf (bufOfList frameTTL10)
            (rd16 (bufOfList frameTTL10) IP_CHECK) i)) ∧
        arpFind s3.macs 0x0101A8C0 =
          some { ip := 0x0101A8C0, mac := [0xaa, 0xbb, 0xcc, 0xdd, 0xee, 0xff] } ∧
        s3.waiting.cells = [] :=
  ⟨⟨by decide, by decide, by decide, by decide⟩,
    isBytes_bufOfList frameTTL10 (by decide), by decide,
    dispatch_miss_then_reply linkEx (received tableEx Create_ARP_Table Queue frameTTL10 0)
      { next_hop := 0x0101A8C0, interface := 1, status := true } frameArpReply 1
      [0xaa, 0xbb, 0xcc, 0xdd, 0xee, 0xff] 0 1
      (by decide) ⟨by decide, by decide, by decide, by decide⟩
      (isBytes_bufOfList frameTTL10 (by decide)) (by decide) rfl (by decide) (by decide)
      (by decide) (by decide) (by decide) (by decide) (by decide) (by decide) (by decide)⟩

set_option maxRecDepth 100000 in
/-- C12 (counterexample): with the ARP cache `fullCache` at its capacity of 1001
entries, none of them for 192.168.1.1, and an empty pending queue, `frameTTL10` is
dispatched and then the ARP REPLY `frameArpReply` from 192.168.1.1: the second dispatch
sends the pending datagram on interface 1 and empties the queue, but afterwards the ARP
cache still has no entry for 192.168.1.1. -/
theorem dispatch_reply_not_cached_when_full :
    arpFind fullCache 0x0101A8C0 = none ∧
    fullCache.addrs.length = 1001 ∧
    ((dispatch linkEx 0 (received tableEx fullCache Queue frameTTL10 0)).bind
      (fun r1 => dispatch linkEx 1 (Recv_FromAny_Link r1.1 frameArpReply 1))).map
      (fun r => (arpFind r.1.macs 0x0101A8C0, r.1.waiting.cells.length,
        r.2.map (fun f => f.interface)))
      = some (none, 0, [1]) := by
  decide

/-! ## Source MAC of emitted frames -/

theorem sourceIsOwnMac_of_readMac (lk : Link) (i : Int) (b : Buf) (n : Nat)
    (h : readMac b ETH_SHOST = lk.mac i) : sourceIsOwnMac lk (Send_To_Link i b n) := by
  intro hlen
  have hn : 12 ≤ n := by
    simpa [Send_To_Link, bytesOf_length] using hlen
  show ((bytesOf b n).drop 6).take 6 = lk.mac i
  rw [bytesOf_drop_mac _ _ hn, h]

theorem Header_NewETH_source (lk : Link) (hmac : ∀ i, (lk.mac i).length = 6) (r : routing) :
    readMac (Header_NewETH lk r).buf ETH_SHOST = lk.mac (Header_NewETH lk r).interface := by
  simp only [Header_NewETH]
  exact readMac_writeMac_same _ _ _ (hmac _)

theorem memset_other (b : Buf) (off v n i : Nat) (h : i < off ∨ off + n ≤ i) :
    memset b off v n i = b i := by
  simp only [memset]
  rw [if_neg (by omega)]

theorem Request_ARP_source (lk : Link) (hmac : ∀ i, (lk.mac i).length = 6) (r : routing) :
    readMac (Request_ARP lk r).buf ETH_SHOST = lk.mac (Request_ARP lk r).interface := by
  have h1 : readMac (Request_ARP lk r).buf ETH_SHOST =
      readMac (writeMac (wr16 r.buf ETH_TYPE ARP_TYPE) ETH_SHOST (lk.mac r.interface))
        ETH_SHOST := by
    apply readMac_congr
    intro k hk
    simp only [Request_ARP, Update_ARP_Length, Init_ARP_Header, Init_ETH_Header, ETH_SHOST,
      ETH_DHOST, ETH_TYPE, MAC_SIZE, ARP_HTYPE, ARP_PTYPE, ARP_HLEN, ARP_PLEN, ARP_OP, ARP_SHA,
      ARP_SPA, ARP_THA, ARP_TPA]
    rw [wr32_other _ _ _ _ (by omega), memset_other _ _ _ _ _ (by omega),
      wr32_other _ _ _ _ (by omega), writeMac_other _ _ _ _ (by omega),
      wr16_other _ _ _ _ (by omega) (by omega), wr8_other _ _ _ _ (by omega),
      wr8_other _ _ _ _ (by omega), wr16_other _ _ _ _ (by omega) (by omega),
      wr16_other _ _ _ _ (by omega) (by omega), memset_other _ _ _ _ _ (by omega)]
  rw [h1]
  exact readMac_writeMac_same _ _ _ (hmac _)

theorem forwardIPV4_source (lk : Link) (hmac : ∀ i, (lk.mac i).length = 6) (r : routing)
    (old_check : Nat) :
    readMac (forwardIPV4 lk r old_check).buf ETH_SHOST =
      lk.mac (forwardIPV4 lk r old_check).interface := by
  unfold forwardIPV4
  dsimp only
  split
  · exact Request_ARP_source lk hmac _
  · exact readMac_writeMac_same _ _ _ (hmac _)

theorem Reply_ARP_source (lk : Link) (hmac : ∀ i, (lk.mac i).length = 6) (r : routing) :
    readMac (Reply_ARP lk r).buf ETH_SHOST = lk.mac (Reply_ARP lk r).interface := by
  simp only [Reply_ARP]
  exact readMac_writeMac_same _ _ _ (hmac _)

/-- Every frame sent by `Handler_IPV4` carries the MAC of its interface as source. -/
theorem Handler_IPV4_source (lk : Link) (hmac : ∀ i, (lk.mac i).length = 6) (route : routing) :
    ∀ f ∈ (Handler_IPV4 lk route).2, sourceIsOwnMac lk f := by
  intro f hf
  by_cases hv : checksumValid route.buf
  · by_cases hloc : rd32 route.buf IP_DADDR = lk.ipv4 route.interface
    · rw [Handler_IPV4_local_eq lk route hv hloc, List.mem_singleton] at hf
      subst hf
      exact sourceIsOwnMac_of_readMac lk _ _ _ (Header_NewETH_source lk hmac _)
    · cases hl : LPM_IPV4_Table route.ipv4s (rd32 route.buf IP_DADDR) with
      | none =>
        rw [Handler_IPV4_unreachable_eq lk route hv hloc hl, List.mem_singleton] at hf
        subst hf
        exact sourceIsOwnMac_of_readMac lk _ _ _ (Header_NewETH_source lk hmac _)
      | some best =>
        by_cases ht : 1 < route.buf IP_TTL
        · rw [Handler_IPV4_forward_eq lk route best ⟨hv, hloc, hl, ht⟩, List.mem_singleton] at hf
          subst hf
          exact sourceIsOwnMac_of_readMac lk _ _ _ (forwardIPV4_source lk hmac _ _)
        · rw [Handler_IPV4_expired_eq lk route best hv hloc hl (by omega),
            List.mem_singleton] at hf
          subst hf
          exact sourceIsOwnMac_of_readMac lk _ _ _ (Header_NewETH_source lk hmac _)
  · rw [Handler_IPV4_invalid_eq lk route hv] at hf
    cases hf

theorem drainStep_source (lk : Link) (hmac : ∀ i, (lk.mac i).length = 6) (rout : routing)
    (pkt : packet) (rest : queue packet) :
    ∀ f ∈ (drainStep lk rout pkt rest).2, sourceIsOwnMac lk f := by
  intro f hf
  by_cases h : pkt.next_hop = rd32 rout.buf ARP_SPA
  · rw [drainStep_match lk rout pkt rest h, List.mem_singleton] at hf
    subst hf
    exact sourceIsOwnMac_of_readMac lk _ _ _ (readMac_writeMac_same _ _ _ (hmac _))
  · simp [drainStep, h] at hf

theorem drainLoop_source (lk : Link) (hmac : ∀ i, (lk.mac i).length = 6) (fuel : Nat) :
    ∀ (rout : routing) (out : List frame) (s : routing) (out2 : List frame),
      drainLoop lk fuel rout out = some (s, out2) →
      (∀ f ∈ out, sourceIsOwnMac lk f) → ∀ f ∈ out2, sourceIsOwnMac lk f := by
  induction fuel with
  | zero =>
    intro rout out s out2 h hout
    simp only [drainLoop] at h
    split at h
    · obtain ⟨_, rfl⟩ := Prod.mk.inj (Option.some.inj h)
      exact hout
    · cases h
  | succ fuel ih =>
    intro rout out s out2 h hout
    simp only [drainLoop] at h
    split at h
    · obtain ⟨_, rfl⟩ := Prod.mk.inj (Option.some.inj h)
      exact hout
    · split at h
      · cases h
      · rename_i pkt rest _
        refine ih _ _ s out2 h ?_
        intro f hf
        rcases List.mem_append.mp hf with h1 | h1
        · exact hout f h1
        · exact drainStep_source lk hmac rout pkt rest f h1

/-- Every frame sent by a returning `Handler_ARP` carries the MAC of its interface. -/
theorem Handler_ARP_source (lk : Link) (hmac : ∀ i, (lk.mac i).length = 6) (fuel : Nat)
    (rout s : routing) (out : List frame) (h : Handler_ARP lk fuel rout = some (s, out)) :
    ∀ f ∈ out, sourceIsOwnMac lk f := by
  unfold Handler_ARP at h
  split at h
  · obtain ⟨_, rfl⟩ := Prod.mk.inj (Option.some.inj h)
    intro f hf; cases hf
  · split at h
    · obtain ⟨_, rfl⟩ := Prod.mk.inj (Option.some.inj h)
      intro f hf
      rw [List.mem_singleton] at hf
      subst hf
      exact sourceIsOwnMac_of_readMac lk _ _ _ (Reply_ARP_source lk hmac _)
    · split at h
      · obtain ⟨_, rfl⟩ := Prod.mk.inj (Option.some.inj h)
        intro f hf; cases hf
      · exact drainLoop_source lk hmac fuel _ [] s out h (fun f hf => by cases hf)

/-- C14: for every frame emitted by any dispatch (forwarded datagram, ARP request, ARP
reply, ICMP reply, drained pending packet), the Ethernet source MAC of the emitted frame
equals the MAC of the interface on which that frame is transmitted. The second part
covers every single iteration of the drain loop, also of a loop that does not exit.
Interface MACs are 6 bytes long, and the statement concerns frames long enough to hold
the two Ethernet addresses. -/
theorem dispatch_source_is_own_mac (lk : Link) (hmac : ∀ i, (lk.mac i).length = 6) :
    (∀ (fuel : Nat) (route s : routing) (out : List frame),
      dispatch lk fuel route = some (s, out) → ∀ f ∈ out, sourceIsOwnMac lk f) ∧
    (∀ (rout : routing) (pkt : packet) (rest : queue packet),
      ∀ f ∈ (drainStep lk rout pkt rest).2, sourceIsOwnMac lk f) := by
  refine ⟨?_, drainStep_source lk hmac⟩
  intro fuel route s out h
  by_cases hip : rd16 route.buf ETH_TYPE = IP_TYPE
  · rw [dispatch_ip lk fuel route hip] at h
    have e : out = (Handler_IPV4 lk route).2 := by rw [Option.some.inj h]
    rw [e]
    exact Handler_IPV4_source lk hmac route
  · by_cases harp : rd16 route.buf ETH_TYPE = ARP_TYPE
    · rw [dispatch_arp lk fuel route harp] at h
      exact Handler_ARP_source lk hmac fuel route s out h
    · simp only [dispatch, hip, harp, if_false] at h
      obtain ⟨_, rfl⟩ := Prod.mk.inj (Option.some.inj h)
      intro f hf; cases hf

/-- C14 (witness): the interfaces of `linkEx` have 6-byte MACs; the frame sent by the
dispatch of `frameTTL10` (forwarded on interface 1) carries the MAC of interface 1. -/
theorem dispatch_source_is_own_mac_witness :
    (∀ i, (linkEx.mac i).length = 6) ∧
    ∀ f ∈ (Handler_IPV4 linkEx (received tableEx arpEx Queue frameTTL10 0)).2,
      sourceIsOwnMac linkEx f := by
  have h2 : ∀ i, (linkEx.mac i).length = 6 := by
    intro i
    unfold linkEx
    dsimp only
    split <;> rfl
  exact ⟨h2, (dispatch_source_is_own_mac linkEx h2).1 0
    (received tableEx arpEx Queue frameTTL10 0) _ _
    (dispatch_ip linkEx 0 (received tableEx arpEx Queue frameTTL10 0) (by decide))⟩

/-! ## Checksum as a one's-complement sum -/

theorem wordsBE_le (data : Buf) (k : Nat) :
    ∀ (off : Nat), (∀ i, off ≤ i → i < off + 2 * k → data i < 256) →
      (∀ w ∈ wordsBE data off k, w ≤ 65535) ∧ (wordsBE data off k).sum ≤ 65535 * k := by
  induction k with
  | zero =>
    intro off _
    refine ⟨?_, ?_⟩
    · intro w hw
      cases hw
    · simp [wordsBE]
  | succ k ih =>
    intro off hb
    obtain ⟨h1, h2⟩ := ih (off + 2) (fun i hi1 hi2 => hb i (by omega) (by omega))
    have b0 := hb off (by omega) (by omega)
    have b1 := hb (off + 1) (by omega) (by omega)
    refine ⟨?_, ?_⟩
    · intro w hw
      simp only [wordsBE, List.mem_cons] at hw
      rcases hw with rfl | hw
      · omega
      · exact h1 w hw
    · simp only [wordsBE, List.sum_cons]
      omega

/-- Without overflow of the 64-bit accumulator the summing loop adds the big-endian
words of the byte sequence. -/
theorem sumWords_eq_sum (data : Buf) (k : Nat) :
    ∀ (off acc : Nat), (∀ i, off ≤ i → i < off + 2 * k → data i < 256) →
      acc + 65535 * k < 18446744073709551616 →
      sumWords data off k acc = acc + (wordsBE data off k).sum := by
  induction k with
  | zero => intro off acc _ _; simp [sumWords, wordsBE]
  | succ k ih =>
    intro off acc hb hacc
    have b0 := hb off (by omega) (by omega)
    have b1 := hb (off + 1) (by omega) (by omega)
    have hw : ntohs (rd16 data off) = 256 * data off + data (off + 1) := by
      unfold ntohs rd16
      omega
    have hstep : (acc + ntohs (rd16 data off)) % 2 ^ 64 = acc + (256 * data off + data (off + 1)) := by
      rw [hw]
      apply Nat.mod_eq_of_lt
      norm_num
      omega
    simp only [sumWords, wordsBE, List.sum_cons]
    rw [hstep, ih (off + 2) _ (fun i hi1 hi2 => hb i (by omega) (by omega)) (by omega)]
    omega

theorem ocAdd_ocNorm (A w : Nat) (hw : w ≤ 65535) : ocAdd (ocNorm A) w = ocNorm (A + w) := by
  unfold ocAdd ocNorm
  split_ifs <;> omega

theorem foldl_ocAdd_eq (ws : List Nat) :
    ∀ (A : Nat), (∀ w ∈ ws, w ≤ 65535) → ws.foldl ocAdd (ocNorm A) = ocNorm (A + ws.sum) := by
  induction ws with
  | nil => intro A _; simp
  | cons w ws ih =>
    intro A h
    simp only [List.foldl_cons, List.sum_cons]
    rw [ocAdd_ocNorm A w (h w (List.mem_cons_self _ _)),
      ih (A + w) (fun x hx => h x (List.mem_cons_of_mem _ hx)), Nat.add_assoc]

theorem ocSum_eq_ocNorm (ws : List Nat) (h : ∀ w ∈ ws, w ≤ 65535) :
    ocSum ws = ocNorm ws.sum := by
  have := foldl_ocAdd_eq ws 0 h
  simpa [ocSum, ocNorm] using this

/-- The two folding steps: for a plain sum of at most 800 words, the low 16 bits of the
accumulator after the second step are the one's-complement value of the sum. -/
theorem two_folds_eq_ocNorm (S : Nat) (hS : S ≤ 65535 * 800) :
    ((S / 65536 + S % 65536) + (S / 65536 + S % 65536) / 65536) % 65536 = ocNorm S := by
  have hdm : S = 65536 * (S / 65536) + S % 65536 := (Nat.div_add_mod S 65536).symm
  have hl : S % 65536 < 65536 := Nat.mod_lt _ (by norm_num)
  generalize S / 65536 = c at hdm ⊢
  generalize S % 65536 = l at hdm hl ⊢
  have hc : c ≤ 800 := by omega
  unfold ocNorm
  by_cases h0 : S = 0
  · have hc0 : c = 0 := by omega
    have hl0 : l = 0 := by omega
    subst hc0 hl0
    simp [h0]
  · rw [if_neg h0]
    by_cases hf : c + l < 65536
    · have e1 : (c + l) / 65536 = 0 := Nat.div_eq_of_lt hf
      have e2 : S - 1 = 65535 * c + (c + l - 1) := by omega
      have e3 : (S - 1) % 65535 = c + l - 1 := by
        rw [e2, Nat.mul_add_mod]
        exact Nat.mod_eq_of_lt (by omega)
      rw [e1, e3, Nat.add_zero, Nat.mod_eq_of_lt hf]
      omega
    · obtain ⟨r, hr⟩ := Nat.exists_eq_add_of_le (Nat.le_of_not_lt hf)
      have hr800 : r < 800 := by omega
      have e1 : (c + l) / 65536 = 1 := by
        rw [hr]
        omega
      have e2 : S - 1 = 65535 * (c + 1) + r := by omega
      have e3 : (S - 1) % 65535 = r := by
        rw [e2, Nat.mul_add_mod]
        exact Nat.mod_eq_of_lt (by omega)
      have e4 : (c + l + 1) % 65536 = r + 1 := by
        rw [hr]
        omega
      rw [e1, e3, e4]

/-- C20 (amended): for every byte sequence of even length `n ≤ 1600`, `Checksum` returns
the 16-bit complement (65535 minus the value) of the one's-complement (end-around-carry)
sum of its `n/2` big-endian 16-bit words; that sum is at most 65535, and after the two
folding steps the low 16 bits of the accumulator are that sum, which the cast to
`uint16_t` extracts. -/
theorem Checksum_even_is_ones_complement_sum (junk : Nat) (data : Buf) (off n : Nat)
    (hb : ∀ i, off ≤ i → i < off + n → data i < 256)
    (heven : n % 2 = 0) (hn : n ≤ MAX_PACKET_LEN) :
    Checksum junk data off n = 65535 - ocSum (wordsBE data off (n / 2)) ∧
    ocSum (wordsBE data off (n / 2)) ≤ 65535 ∧
    foldedAcc data off n % 2 ^ 16 = ocSum (wordsBE data off (n / 2)) := by
  unfold MAX_PACKET_LEN at hn
  have hk : n / 2 ≤ 800 := by omega
  have hb2 : ∀ i, off ≤ i → i < off + 2 * (n / 2) → data i < 256 :=
    fun i h1 h2 => hb i h1 (by omega)
  obtain ⟨hw, hsum⟩ := wordsBE_le data (n / 2) off hb2
  have hS : sumWords data off (n / 2) 0 = (wordsBE data off (n / 2)).sum := by
    rw [sumWords_eq_sum data (n / 2) off 0 hb2 (by omega)]
    simp
  have hoc := ocSum_eq_ocNorm _ hw
  have hS800 : (wordsBE data off (n / 2)).sum ≤ 65535 * 800 := by omega
  have hfold := two_folds_eq_ocNorm _ hS800
  have hle : ocSum (wordsBE data off (n / 2)) ≤ 65535 := by
    rw [hoc]
    unfold ocNorm
    split_ifs <;> omega
  have hacc : foldedAcc data off n % 2 ^ 16 = ocSum (wordsBE data off (n / 2)) := by
    rw [hoc, ← hfold]
    unfold foldedAcc
    simp only [hS]
    norm_num
    omega
  refine ⟨?_, hle, hacc⟩
  have hodd : ¬ (n % 2 = 1) := by omega
  have hck : Checksum junk data off n = (2 ^ 64 - 1 - foldedAcc data off n) % 2 ^ 16 := by
    unfold Checksum foldedAcc
    simp only [hodd, if_false]
  have hlt : foldedAcc data off n < 2 ^ 64 := by
    unfold foldedAcc
    exact Nat.mod_lt _ (by norm_num)
  rw [hck, ← hacc]
  norm_num at hlt ⊢
  omega

/-- C20 (witness): the 20 header bytes of `frameTTL10` with the checksum field zeroed;
the words sum, with end-around carry, to `0xA325` and `Checksum` returns `0x5CDA`. -/
theorem Checksum_even_is_ones_complement_sum_witness :
    (∀ i, ETH_SIZE ≤ i → i < ETH_SIZE + 20 →
      wr16 (bufOfList frameTTL10) IP_CHECK 0 i < 256) ∧
    Checksum 0 (wr16 (bufOfList frameTTL10) IP_CHECK 0) ETH_SIZE 20 =
      65535 - ocSum (wordsBE (wr16 (bufOfList frameTTL10) IP_CHECK 0) ETH_SIZE (20 / 2)) ∧
    ocSum (wordsBE (wr16 (bufOfList frameTTL10) IP_CHECK 0) ETH_SIZE (20 / 2)) = 0xA325 ∧
    Checksum 0 (wr16 (bufOfList frameTTL10) IP_CHECK 0) ETH_SIZE 20 = 0x5CDA := by
  have hb : ∀ i, ETH_SIZE ≤ i → i < ETH_SIZE + 20 →
      wr16 (bufOfList frameTTL10) IP_CHECK 0 i < 256 := by
    intro i _ _
    by_cases h1 : i = IP_CHECK
    · subst h1; simp [wr16]
    · by_cases h2 : i = IP_CHECK + 1
      · subst h2; simp [wr16]
      · rw [wr16_other _ _ _ _ h1 h2]
        exact isBytes_bufOfList frameTTL10 (by decide) i
  exact ⟨hb,
    (Checksum_even_is_ones_complement_sum 0 (wr16 (bufOfList frameTTL10) IP_CHECK 0) ETH_SIZE 20
      hb (by decide) (by decide)).1,
    by decide, by decide⟩

/-- C20 (counterexample): on the six bytes `ff ff ff ff 00 01` (even length, at most
1600) the accumulator after the two folding steps is 65537, which is not below `2^16`:
the two steps have not reduced it to 16 bits. Its low 16 bits are 1, the
one's-complement sum of the three words, and `Checksum` returns `0xFFFE`. -/
theorem foldedAcc_not_reduced_to_16_bits :
    6 % 2 = 0 ∧ 6 ≤ MAX_PACKET_LEN ∧
    foldedAcc (bufOfList [0xff, 0xff, 0xff, 0xff, 0x00, 0x01]) 0 6 = 65537 ∧
    ¬ foldedAcc (bufOfList [0xff, 0xff, 0xff, 0xff, 0x00, 0x01]) 0 6 < 2 ^ 16 ∧
    ocSum (wordsBE (bufOfList [0xff, 0xff, 0xff, 0xff, 0x00, 0x01]) 0 3) = 1 ∧
    Checksum 0 (bufOfList [0xff, 0xff, 0xff, 0xff, 0x00, 0x01]) 0 6 = 0xFFFE := by
  decide

/-! ## ARP table: lookup and insertion -/

/-- The scan returns -1 when no entry has the ip, and otherwise the offset of the first
entry with the ip. -/
theorem scanARP_least (ip : Nat) (addrs : List arp_entry) :
    ∀ (start : Nat),
      (scanARP ip addrs start = -1 ∧ ∀ e ∈ addrs, e.ip ≠ ip) ∨
      (∃ k e, scanARP ip addrs start = ((start + k : Nat) : Int) ∧ addrs[k]? = some e ∧
        e.ip = ip ∧ ∀ j e2, j < k → addrs[j]? = some e2 → e2.ip ≠ ip) := by
  induction addrs with
  | nil => intro start; left; exact ⟨rfl, fun e he => by cases he⟩
  | cons a rest ih =>
    intro start
    by_cases ha : a.ip = ip
    · right
      refine ⟨0, a, ?_, by simp, ha, ?_⟩
      · simp [scanARP, ha]
      · intro j e2 hj; omega
    · rcases ih (start + 1) with ⟨h1, h2⟩ | ⟨k, e, h1, h2, h3, h4⟩
      · left
        refine ⟨by simp [scanARP, ha, h1], ?_⟩
        intro e he
        rcases List.mem_cons.mp he with rfl | he2
        · exact ha
        · exact h2 e he2
      · right
        refine ⟨k + 1, e, ?_, by simpa using h2, h3, ?_⟩
        · simp only [scanARP, ha, if_false, h1]
          congr 1; omega
        · intro j e2 hj hje
          cases j with
          | zero =>
            simp at hje
            subst hje
            exact ha
          | succ j =>
            simp at hje
            exact h4 j e2 (by omega) hje

theorem Get_ARP_Entry_neg_iff (arp : arp_table) (ip : Nat) :
    Get_ARP_Entry arp ip < 0 ↔ ∀ e ∈ arp.addrs, e.ip ≠ ip := by
  unfold Get_ARP_Entry
  rcases scanARP_least ip arp.addrs 0 with ⟨h1, h2⟩ | ⟨k, e, h1, h2, h3, _⟩
  · rw [h1]
    exact ⟨fun _ => h2, fun _ => by decide⟩
  · rw [h1]
    constructor
    · intro h
      have : (0 : Int) ≤ ((0 + k : Nat) : Int) := Int.natCast_nonneg _
      omega
    · intro h
      exact absurd h3 (h e (List.getElem?_mem h2))

/-- The two cases of `Insert_ARP_Entry`. -/
theorem Insert_ARP_Entry_cases (arp : arp_table) (new_entry : arp_entry) :
    ((1001 ≤ arp.addrs.length ∨ ∃ e ∈ arp.addrs, e.ip = new_entry.ip) →
      Insert_ARP_Entry arp new_entry = arp) ∧
    (arp.addrs.length < 1001 → (∀ e ∈ arp.addrs, e.ip ≠ new_entry.ip) →
      Insert_ARP_Entry arp new_entry =
        { addrs := arp.addrs ++ [{ ip := new_entry.ip, mac := new_entry.mac }] }) := by
  constructor
  · intro h
    unfold Insert_ARP_Entry
    by_cases hfull : arp.len ≥ (ARP_SIZE : Int)
    · rw [if_pos hfull]
    · rw [if_neg hfull]
      rcases h with h | ⟨e, he, hip⟩
      · exfalso
        apply hfull
        unfold arp_table.len ARP_SIZE
        omega
      · have : ¬ Get_ARP_Entry arp new_entry.ip < 0 := by
          rw [Get_ARP_Entry_neg_iff]
          intro hall
          exact hall e he hip
        rw [if_neg this]
  · intro hlen hall
    have h1 : ¬ (arp.len ≥ (ARP_SIZE : Int)) := by
      unfold arp_table.len ARP_SIZE
      omega
    have h2 : Get_ARP_Entry arp new_entry.ip < 0 := (Get_ARP_Entry_neg_iff _ _).mpr hall
    simp only [Insert_ARP_Entry, h1, if_false, h2, if_true]

/-- `Insert_ARP_Entry` keeps the table within its capacity and free of duplicate ips. -/
theorem Insert_ARP_Entry_keeps_invariant (arp : arp_table) (new_entry : arp_entry)
    (h : arp.addrs.length ≤ 1001 ∧ (arp.addrs.map (fun e => e.ip)).Nodup) :
    (Insert_ARP_Entry arp new_entry).addrs.length ≤ 1001 ∧
      ((Insert_ARP_Entry arp new_entry).addrs.map (fun e => e.ip)).Nodup := by
  obtain ⟨hc1, hc2⟩ := Insert_ARP_Entry_cases arp new_entry
  by_cases hz : 1001 ≤ arp.addrs.length ∨ ∃ e ∈ arp.addrs, e.ip = new_entry.ip
  · rw [hc1 hz]
    exact h
  · have hlen : arp.addrs.length < 1001 := by
      by_contra hc
      exact hz (Or.inl (by omega))
    have hall : ∀ e ∈ arp.addrs, e.ip ≠ new_entry.ip := by
      intro e he hip
      exact hz (Or.inr ⟨e, he, hip⟩)
    rw [hc2 hlen hall]
    refine ⟨?_, ?_⟩
    · simp only [List.length_append, List.length_singleton]
      omega
    · simp only [List.map_append, List.map_cons, List.map_nil]
      rw [List.nodup_append]
      refine ⟨h.2, by simp, ?_⟩
      intro x hx hx2
      rw [List.mem_singleton] at hx2
      subst hx2
      obtain ⟨e, he, hip⟩ := List.mem_map.mp hx
      exact hall e he hip

theorem foldl_Insert_ARP_Entry_invariant (es : List arp_entry) :
    ∀ (arp : arp_table),
      (arp.addrs.length ≤ 1001 ∧ (arp.addrs.map (fun e => e.ip)).Nodup) →
      (es.foldl Insert_ARP_Entry arp).addrs.length ≤ 1001 ∧
        ((es.foldl Insert_ARP_Entry arp).addrs.map (fun e => e.ip)).Nodup := by
  induction es with
  | nil => intro arp h; exact h
  | cons e es ih =>
    intro arp h
    exact ih _ (Insert_ARP_Entry_keeps_invariant arp e h)

/-- C27: for every sequence of `Insert_ARP_Entry` calls applied to the table returned by
`Create_ARP_Table`, the resulting table has `0 ≤ len ≤ 1001` and no two entries at
indices below `len` have the same ip. -/
theorem Insert_ARP_Entry_bounded_and_unique (es : List arp_entry) :
    0 ≤ (es.foldl Insert_ARP_Entry Create_ARP_Table).len ∧
    (es.foldl Insert_ARP_Entry Create_ARP_Table).len ≤ 1001 ∧
    ∀ (i j : Nat) (e1 e2 : arp_entry), i < j →
      (es.foldl Insert_ARP_Entry Create_ARP_Table).addrs[i]? = some e1 →
      (es.foldl Insert_ARP_Entry Create_ARP_Table).addrs[j]? = some e2 →
      e1.ip ≠ e2.ip := by
  obtain ⟨h1, h2⟩ := foldl_Insert_ARP_Entry_invariant es Create_ARP_Table
    ⟨by simp [Create_ARP_Table], by simp [Create_ARP_Table]⟩
  refine ⟨Int.natCast_nonneg _, ?_, ?_⟩
  · unfold arp_table.len
    omega
  · intro i j e1 e2 hij hi hj hip
    rw [List.nodup_iff_getElem?_ne_getElem?] at h2
    have hjlt : j < (es.foldl Insert_ARP_Entry Create_ARP_Table).addrs.length := by
      by_contra hc
      rw [List.getElem?_eq_none (by omega)] at hj
      cases hj
    apply h2 i j hij (by simpa using hjlt)
    simp only [List.getElem?_map, hi, hj, Option.map_some', hip]

/-- C28: for every ARP table `T` and entry `(ip, mac)`: if `T` already contains an entry
for `ip` or `T.len ≥ 1001`, `Insert_ARP_Entry` leaves `T` unchanged (so the first MAC
written for `ip` is kept); otherwise the new table is `T` with `(ip, mac)` appended at
index `T.len` and every earlier entry unchanged. -/
theorem Insert_ARP_Entry_first_write_wins (T : arp_table) (ip : Nat) (mac : List Nat) :
    (((∃ e ∈ T.addrs, e.ip = ip) ∨ T.len ≥ 1001) →
      Insert_ARP_Entry T { ip := ip, mac := mac } = T) ∧
    (¬ ((∃ e ∈ T.addrs, e.ip = ip) ∨ T.len ≥ 1001) →
      (Insert_ARP_Entry T { ip := ip, mac := mac }).addrs =
          T.addrs ++ [{ ip := ip, mac := mac }] ∧
        (Insert_ARP_Entry T { ip := ip, mac := mac }).addrs[T.addrs.length]? =
          some { ip := ip, mac := mac } ∧
        ∀ i, i < T.addrs.length →
          (Insert_ARP_Entry T { ip := ip, mac := mac }).addrs[i]? = T.addrs[i]?) := by
  obtain ⟨hc1, hc2⟩ := Insert_ARP_Entry_cases T { ip := ip, mac := mac }
  constructor
  · intro h
    apply hc1
    rcases h with h | h
    · exact Or.inr h
    · left
      unfold arp_table.len at h
      omega
  · intro h
    have hlen : T.addrs.length < 1001 := by
      by_contra hc
      apply h
      right
      unfold arp_table.len
      omega
    have hall : ∀ e ∈ T.addrs, e.ip ≠ ip := by
      intro e he hip
      exact h (Or.inl ⟨e, he, hip⟩)
    rw [hc2 hlen hall]
    refine ⟨rfl, by simp, ?_⟩
    intro i hi
    exact List.getElem?_append_left hi

/-- C28 (witness): inserting 192.168.1.1 again into `arpEx` changes nothing; inserting
192.168.1.2 appends it. -/
theorem Insert_ARP_Entry_first_write_wins_witness :
    ((∃ e ∈ arpEx.addrs, e.ip = 0x0101A8C0) ∨ arpEx.len ≥ 1001) ∧
    Insert_ARP_Entry arpEx { ip := 0x0101A8C0, mac := [2, 2, 2, 2, 2, 2] } = arpEx ∧
    ¬ ((∃ e ∈ arpEx.addrs, e.ip = 0x0201A8C0) ∨ arpEx.len ≥ 1001) ∧
    (Insert_ARP_Entry arpEx { ip := 0x0201A8C0, mac := [2, 2, 2, 2, 2, 2] }).addrs =
      arpEx.addrs ++ [{ ip := 0x0201A8C0, mac := [2, 2, 2, 2, 2, 2] }] :=
  ⟨by decide,
    (Insert_ARP_Entry_first_write_wins arpEx 0x0101A8C0 [2, 2, 2, 2, 2, 2]).1 (by decide),
    by decide,
    ((Insert_ARP_Entry_first_write_wins arpEx 0x0201A8C0 [2, 2, 2, 2, 2, 2]).2 (by decide)).1⟩

/-- C29: for every ARP table `T` and address `ip`, `Get_ARP_Entry` returns -1 if and only
if no entry at an index below `T.len` has that ip, and otherwise returns the least index
`i < T.len` with `T.addrs[i].ip == ip`. -/
theorem Get_ARP_Entry_least_index (T : arp_table) (ip : Nat) :
    (Get_ARP_Entry T ip = -1 ↔ ∀ (i : Nat) (e : arp_entry), T.addrs[i]? = some e → e.ip ≠ ip) ∧
    (Get_ARP_Entry T ip ≠ -1 →
      ∃ (i : Nat) (e : arp_entry), Get_ARP_Entry T ip = (i : Int) ∧ (i : Int) < T.len ∧
        T.addrs[i]? = some e ∧ e.ip = ip ∧
        ∀ (j : Nat) (e2 : arp_entry), j < i → T.addrs[j]? = some e2 → e2.ip ≠ ip) := by
  unfold Get_ARP_Entry
  rcases scanARP_least ip T.addrs 0 with ⟨h1, h2⟩ | ⟨k, e, h1, h2, h3, h4⟩
  · refine ⟨⟨fun _ i e he => h2 e (List.getElem?_mem he), fun _ => h1⟩, fun h => absurd h1 h⟩
  · have hk : scanARP ip T.addrs 0 = (k : Int) := by
      rw [h1]; simp
    have hklt : k < T.addrs.length := by
      by_contra hc
      rw [List.getElem?_eq_none (by omega)] at h2
      cases h2
    refine ⟨⟨fun h => ?_, fun h => absurd h3 (h k e h2)⟩, fun _ => ?_⟩
    · rw [hk] at h
      have : (0 : Int) ≤ (k : Int) := Int.natCast_nonneg _
      omega
    · refine ⟨k, e, hk, ?_, h2, h3, h4⟩
      unfold arp_table.len
      omega

/-- C29 (witness): in the table holding 192.168.1.1 twice after 10.0.0.1, the lookup
of 192.168.1.1 returns index 1. -/
theorem Get_ARP_Entry_least_index_witness :
    Get_ARP_Entry
      { addrs := [{ ip := 0x0100000A, mac := [1, 1, 1, 1, 1, 1] },
          { ip := 0x0101A8C0, mac := [2, 2, 2, 2, 2, 2] },
          { ip := 0x0101A8C0, mac := [3, 3, 3, 3, 3, 3] }] } 0x0101A8C0 ≠ -1 ∧
    Get_ARP_Entry
      { addrs := [{ ip := 0x0100000A, mac := [1, 1, 1, 1, 1, 1] },
          { ip := 0x0101A8C0, mac := [2, 2, 2, 2, 2, 2] },
          { ip := 0x0101A8C0, mac := [3, 3, 3, 3, 3, 3] }] } 0x0101A8C0 = 1 ∧
    ∃ (i : Nat) (e : arp_entry),
      Get_ARP_Entry
        { addrs := [{ ip := 0x0100000A, mac := [1, 1, 1, 1, 1, 1] },
            { ip := 0x0101A8C0, mac := [2, 2, 2, 2, 2, 2] },
            { ip := 0x0101A8C0, mac := [3, 3, 3, 3, 3, 3] }] } 0x0101A8C0 = (i : Int) ∧
      e.ip = 0x0101A8C0 :=
  ⟨by decide, by decide,
    let ⟨i, e, h1, _, _, h4, _⟩ := (Get_ARP_Entry_least_index
      { addrs := [{ ip := 0x0100000A, mac := [1, 1, 1, 1, 1, 1] },
          { ip := 0x0101A8C0, mac := [2, 2, 2, 2, 2, 2] },
          { ip := 0x0101A8C0, mac := [3, 3, 3, 3, 3, 3] }] } 0x0101A8C0).2 (by decide)
    ⟨i, e, h1, h4⟩⟩

/-! ## ARP handler: replies learnt, requests answered, other frames dropped -/

/-- C25: for every ARP REPLY frame with sender protocol address `s` and sender hardware
address `m`, handled when the ARP cache has fewer than 1001 entries and no entry for `s`
and the pending queue is empty, `Handler_ARP` returns, leaves the ARP cache equal to the
old cache with the entry `(s, m)` appended, so that `Get_ARP_Entry(s)` afterwards yields
an entry with MAC `m`, and emits no frame. -/
theorem Handler_ARP_reply_learns_entry (lk : Link) (fuel : Nat) (rout : routing)
    (harp : rd16 rout.buf ETH_TYPE = ARP_TYPE) (hop : rd16 rout.buf ARP_OP = OP_REPLY)
    (hq : rout.waiting.cells = [])
    (hroom : rout.macs.addrs.length < 1001)
    (hnew : ∀ e ∈ rout.macs.addrs, e.ip ≠ rd32 rout.buf ARP_SPA) :
    ∃ s, Handler_ARP lk fuel rout = some (s, []) ∧
      s.macs.addrs = rout.macs.addrs ++
        [{ ip := rd32 rout.buf ARP_SPA, mac := readMac rout.buf ARP_SHA }] ∧
      0 ≤ Get_ARP_Entry s.macs (rd32 rout.buf ARP_SPA) ∧
      s.macs.addrs.getD (Get_ARP_Entry s.macs (rd32 rout.buf ARP_SPA)).toNat
          { ip := 0, mac := [] } =
        { ip := rd32 rout.buf ARP_SPA, mac := readMac rout.buf ARP_SHA } := by
  rw [Handler_ARP_reply_eq lk fuel rout harp hop]
  obtain ⟨s, h1, _, h3, _, _⟩ := drainLoop_all_match lk [] fuel
    { rout with
      macs := Insert_ARP_Entry rout.macs
        { ip := rd32 rout.buf ARP_SPA, mac := readMac rout.buf ARP_SHA } } [] hq
    (fun p hp => by cases hp) (Nat.zero_le _)
  have hmiss : arpFind rout.macs (rd32 rout.buf ARP_SPA) = none := by
    unfold arpFind
    rw [List.find?_eq_none]
    intro e he
    simpa using hnew e he
  have hins := (Insert_ARP_Entry_cases rout.macs
    { ip := rd32 rout.buf ARP_SPA, mac := readMac rout.buf ARP_SHA }).2 hroom hnew
  have hfind := Insert_ARP_Entry_find rout.macs (rd32 rout.buf ARP_SPA)
    (readMac rout.buf ARP_SHA) hmiss hroom
  have hmacs : s.macs = Insert_ARP_Entry rout.macs
      { ip := rd32 rout.buf ARP_SPA, mac := readMac rout.buf ARP_SHA } := h3
  obtain ⟨g1, g2⟩ := Get_ARP_Entry_hit _ _ _ hfind
  refine ⟨s, by simpa using h1, ?_, ?_, ?_⟩
  · rw [hmacs, hins]
  · rw [hmacs]; exact g1
  · rw [hmacs]; exact g2

/-- C25 (witness): the ARP REPLY `frameArpReply` from 192.168.1.1 handled with an empty
cache and an empty pending queue. -/
theorem Handler_ARP_reply_learns_entry_witness :
    (∀ e ∈ Create_ARP_Table.addrs, e.ip ≠ rd32 (bufOfList frameArpReply) ARP_SPA) ∧
    ∃ s, Handler_ARP linkEx 0 (received tableEx Create_ARP_Table Queue frameArpReply 1)
        = some (s, []) ∧
      s.macs.addrs = [] ++
        [{ ip := 0x0101A8C0, mac := [0xaa, 0xbb, 0xcc, 0xdd, 0xee, 0xff] }] ∧
      0 ≤ Get_ARP_Entry s.macs 0x0101A8C0 ∧
      s.macs.addrs.getD (Get_ARP_Entry s.macs 0x0101A8C0).toNat { ip := 0, mac := [] } =
        { ip := 0x0101A8C0, mac := [0xaa, 0xbb, 0xcc, 0xdd, 0xee, 0xff] } :=
  ⟨by decide,
    Handler_ARP_reply_learns_entry linkEx 0
      (received tableEx Create_ARP_Table Queue frameArpReply 1)
      (by decide) (by decide) rfl (by decide) (by decide)⟩

/-- C26: for every received frame whose EtherType is neither IPv4 nor ARP, and for every
ARP frame whose operation is neither REQUEST nor REPLY, one iteration of the dispatch
loop returns, emits no frame and leaves the router state (ARP cache, pending queue and
routing table included) unchanged. -/
theorem dispatch_drops_unknown_frames (lk : Link) (fuel : Nat) (route : routing) :
    (rd16 route.buf ETH_TYPE ≠ IP_TYPE → rd16 route.buf ETH_TYPE ≠ ARP_TYPE →
      dispatch lk fuel route = some (route, [])) ∧
    (rd16 route.buf ETH_TYPE = ARP_TYPE → rd16 route.buf ARP_OP ≠ OP_REQUEST →
      rd16 route.buf ARP_OP ≠ OP_REPLY →
      dispatch lk fuel route = some (route, [])) := by
  constructor
  · intro h1 h2
    simp only [dispatch, h1, h2, if_false]
  · intro h1 h2 h3
    rw [dispatch_arp lk fuel route h1]
    unfold Handler_ARP
    simp only [h1, ne_eq, not_true_eq_false, if_false, h2, h3, not_false_eq_true, if_true]

/-- C26 (witness): `frameTTL10` with EtherType `86 DD` (IPv6), and `frameArpReply` with
operation 3. -/
theorem dispatch_drops_unknown_frames_witness :
    rd16 (wr16 (bufOfList frameTTL10) ETH_TYPE 0xDD86) ETH_TYPE ≠ IP_TYPE ∧
    rd16 (wr16 (bufOfList frameTTL10) ETH_TYPE 0xDD86) ETH_TYPE ≠ ARP_TYPE ∧
    dispatch linkEx 0
      { received tableEx arpEx Queue frameTTL10 0 with
        buf := wr16 (bufOfList frameTTL10) ETH_TYPE 0xDD86 } =
      some ({ received tableEx arpEx Queue frameTTL10 0 with
        buf := wr16 (bufOfList frameTTL10) ETH_TYPE 0xDD86 }, []) ∧
    rd16 (wr16 (bufOfList frameArpReply) ARP_OP 0x0300) ARP_OP ≠ OP_REQUEST ∧
    rd16 (wr16 (bufOfList frameArpReply) ARP_OP 0x0300) ARP_OP ≠ OP_REPLY ∧
    dispatch linkEx 0
      { received tableEx arpEx (Enqueue Queue pktFor1) frameArpReply 1 with
        buf := wr16 (bufOfList frameArpReply) ARP_OP 0x0300 } =
      some ({ received tableEx arpEx (Enqueue Queue pktFor1) frameArpReply 1 with
        buf := wr16 (bufOfList frameArpReply) ARP_OP 0x0300 }, []) :=
  ⟨by decide, by decide,
    (dispatch_drops_unknown_frames linkEx 0
      { received tableEx arpEx Queue frameTTL10 0 with
        buf := wr16 (bufOfList frameTTL10) ETH_TYPE 0xDD86 }).1 (by decide) (by decide),
    by decide, by decide,
    (dispatch_drops_unknown_frames linkEx 0
      { received tableEx arpEx (Enqueue Queue pktFor1) frameArpReply 1 with
        buf := wr16 (bufOfList frameArpReply) ARP_OP 0x0300 }).2 (by decide) (by decide)
      (by decide)⟩

/-- The ARP REQUEST branch of `Handler_ARP` as an equation. -/
theorem Handler_ARP_request_eq (lk : Link) (fuel : Nat) (rout : routing)
    (harp : rd16 rout.buf ETH_TYPE = ARP_TYPE) (hop : rd16 rout.buf ARP_OP = OP_REQUEST) :
    Handler_ARP lk fuel rout =
      some (Reply_ARP lk rout,
        [Send_To_Link rout.interface (Reply_ARP lk rout).buf rout.len]) := by
  unfold Handler_ARP
  simp only [harp, hop, ne_eq, not_true_eq_false, if_false, if_true]
  rfl

/-- The bytes of the buffer left by `Reply_ARP`, field by field. -/
theorem Reply_ARP_fields (lk : Link) (rout : routing)
    (hmac : (lk.mac rout.interface).length = 6) :
    (List.range 2).map (fun j => (Reply_ARP lk rout).buf (ARP_OP + j)) = [0x00, 0x02] ∧
    (List.range 4).map (fun j => (Reply_ARP lk rout).buf (ARP_SPA + j))
      = le32 (lk.ipv4 rout.interface) ∧
    readMac (Reply_ARP lk rout).buf ARP_SHA = lk.mac rout.interface ∧
    (List.range 4).map (fun j => (Reply_ARP lk rout).buf (ARP_TPA + j))
      = le32 (rd32 rout.buf ARP_SPA) ∧
    readMac (Reply_ARP lk rout).buf ARP_THA = readMac rout.buf ARP_SHA ∧
    readMac (Reply_ARP lk rout).buf ETH_DHOST = readMac rout.buf ETH_SHOST ∧
    readMac (Reply_ARP lk rout).buf ETH_SHOST = lk.mac rout.interface := by
  obtain ⟨a, b, c, d, e, f, hm⟩ : ∃ a b c d e f, lk.mac rout.interface = [a, b, c, d, e, f] := by
    match h : lk.mac rout.interface, hmac with
    | [a, b, c, d, e, f], _ => exact ⟨a, b, c, d, e, f, rfl⟩
  refine ⟨?_, ?_, ?_, ?_, ?_, ?_, ?_⟩
  · show [(Reply_ARP lk rout).buf (ARP_OP + 0), (Reply_ARP lk rout).buf (ARP_OP + 1)] = _
    simp [Reply_ARP, wr16, wr32, writeMac, ETH_SHOST, ETH_DHOST, ARP_OP, ARP_SHA, ARP_SPA,
      ARP_THA, ARP_TPA, OP_REPLY, htons]
  · show [(Reply_ARP lk rout).buf (ARP_SPA + 0), (Reply_ARP lk rout).buf (ARP_SPA + 1),
      (Reply_ARP lk rout).buf (ARP_SPA + 2), (Reply_ARP lk rout).buf (ARP_SPA + 3)] = _
    simp [Reply_ARP, wr16, wr32, writeMac, ETH_SHOST, ETH_DHOST, ARP_OP, ARP_SHA, ARP_SPA,
      ARP_THA, ARP_TPA, le32]
  · rw [hm]
    simp [readMac, List.range_succ, Reply_ARP, wr16, wr32, writeMac, ETH_SHOST, ETH_DHOST,
      ARP_OP, ARP_SHA, ARP_SPA, ARP_THA, ARP_TPA, hm]
  · show [(Reply_ARP lk rout).buf (ARP_TPA + 0), (Reply_ARP lk rout).buf (ARP_TPA + 1),
      (Reply_ARP lk rout).buf (ARP_TPA + 2), (Reply_ARP lk rout).buf (ARP_TPA + 3)] = _
    simp [Reply_ARP, wr16, wr32, writeMac, ETH_SHOST, ETH_DHOST, ARP_OP, ARP_SHA, ARP_SPA,
      ARP_THA, ARP_TPA, le32, rd32]
  · simp [readMac, List.range_succ, Reply_ARP, wr16, wr32, writeMac, ETH_SHOST, ETH_DHOST,
      ARP_OP, ARP_SHA, ARP_SPA, ARP_THA, ARP_TPA]
  · simp [readMac, List.range_succ, Reply_ARP, wr16, wr32, writeMac, ETH_SHOST, ETH_DHOST,
      ARP_OP, ARP_SHA, ARP_SPA, ARP_THA, ARP_TPA]
  · rw [hm]
    simp [readMac, List.range_succ, Reply_ARP, wr16, wr32, writeMac, ETH_SHOST, ETH_DHOST,
      ARP_OP, ARP_SHA, ARP_SPA, ARP_THA, ARP_TPA, hm]

/-- C22: for every ARP REQUEST frame (at least the 42 bytes of the Ethernet and ARP
headers) received on interface `i`, `Handler_ARP` returns and emits exactly one frame, on
interface `i` and of the received length, with operation REPLY (`00 02`), sender protocol
address the IPv4 address of `i`, sender hardware address the MAC of `i`, target protocol
address the sender protocol address of the request, target hardware address the sender
hardware address of the request, Ethernet destination the Ethernet source of the request
and Ethernet source the MAC of `i`; the ARP cache and the pending queue are unchanged. -/
theorem Handler_ARP_request_answered (lk : Link) (fuel : Nat) (rout : routing)
    (harp : rd16 rout.buf ETH_TYPE = ARP_TYPE) (hop : rd16 rout.buf ARP_OP = OP_REQUEST)
    (hlen : ETH_SIZE + ARP_HDR_SIZE ≤ rout.len)
    (hmac : (lk.mac rout.interface).length = 6) :
    ∃ s f, Handler_ARP lk fuel rout = some (s, [f]) ∧
      f.interface = rout.interface ∧
      f.data.length = rout.len ∧
      (f.data.drop ARP_OP).take 2 = [0x00, 0x02] ∧
      (f.data.drop ARP_SPA).take 4 = le32 (lk.ipv4 rout.interface) ∧
      (f.data.drop ARP_SHA).take 6 = lk.mac rout.interface ∧
      (f.data.drop ARP_TPA).take 4 = le32 (rd32 rout.buf ARP_SPA) ∧
      (f.data.drop ARP_THA).take 6 = readMac rout.buf ARP_SHA ∧
      f.data.take 6 = readMac rout.buf ETH_SHOST ∧
      (f.data.drop 6).take 6 = lk.mac rout.interface ∧
      s.macs = rout.macs ∧
      s.waiting = rout.waiting := by
  have hl : 42 ≤ rout.len := hlen
  obtain ⟨h1, h2, h3, h4, h5, h6, h7⟩ := Reply_ARP_fields lk rout hmac
  refine ⟨Reply_ARP lk rout, Send_To_Link rout.interface (Reply_ARP lk rout).buf rout.len,
    Handler_ARP_request_eq lk fuel rout harp hop, rfl, ?_, ?_, ?_, ?_, ?_, ?_, ?_, ?_, rfl, rfl⟩
  · exact bytesOf_length _ _
  · show ((bytesOf _ _).drop ARP_OP).take 2 = _
    rw [bytesOf_slice _ _ _ _ (by unfold ARP_OP; omega)]; exact h1
  · show ((bytesOf _ _).drop ARP_SPA).take 4 = _
    rw [bytesOf_slice _ _ _ _ (by unfold ARP_SPA; omega)]; exact h2
  · show ((bytesOf _ _).drop ARP_SHA).take 6 = _
    rw [bytesOf_slice _ _ _ _ (by unfold ARP_SHA; omega)]; exact h3
  · show ((bytesOf _ _).drop ARP_TPA).take 4 = _
    rw [bytesOf_slice _ _ _ _ (by unfold ARP_TPA; omega)]; exact h4
  · show ((bytesOf _ _).drop ARP_THA).take 6 = _
    rw [bytesOf_slice _ _ _ _ (by unfold ARP_THA; omega)]; exact h5
  · show (bytesOf _ _).take 6 = _
    rw [bytesOf_take_mac _ _ (by omega)]; exact h6
  · show ((bytesOf _ _).drop 6).take 6 = _
    rw [bytesOf_drop_mac _ _ (by omega)]; exact h7

/-- C22 (witness): the ARP REQUEST `frameArpRequest` from 192.168.1.1 received on
interface 1, with one cached entry and one pending packet. -/
theorem Handler_ARP_request_answered_witness :
    ∃ s f, Handler_ARP linkEx 0
        (received tableEx arpEx (Enqueue Queue pktFor2) frameArpRequest 1) = some (s, [f]) ∧
      f.interface = 1 ∧
      f.data.length = 42 ∧
      (f.data.drop ARP_OP).take 2 = [0x00, 0x02] ∧
      (f.data.drop ARP_SPA).take 4 = [192, 168, 1, 254] ∧
      (f.data.drop ARP_SHA).take 6 = [2, 0, 0, 0, 0, 1] ∧
      (f.data.drop ARP_TPA).take 4 = [192, 168, 1, 1] ∧
      (f.data.drop ARP_THA).take 6 = [0xaa, 0xbb, 0xcc, 0xdd, 0xee, 0xff] ∧
      f.data.take 6 = [0xaa, 0xbb, 0xcc, 0xdd, 0xee, 0xff] ∧
      (f.data.drop 6).take 6 = [2, 0, 0, 0, 0, 1] ∧
      s.macs = arpEx ∧
      s.waiting = Enqueue Queue pktFor2 :=
  Handler_ARP_request_answered linkEx 0
    (received tableEx arpEx (Enqueue Queue pktFor2) frameArpRequest 1)
    (by decide) (by decide) (by decide) (by decide)

/-- C23 (counterexample): the ARP REQUEST `frameArpRequestOther` received on interface 1
asks for 192.168.1.77, which differs from the address 192.168.1.254 of interface 1, and
`Handler_ARP` emits one frame on interface 1, an ARP REPLY that gives the MAC of
interface 1. -/
theorem Handler_ARP_answers_request_for_other_address :
    rd32 (bufOfList frameArpRequestOther) ARP_TPA ≠ linkEx.ipv4 1 ∧
    (Handler_ARP linkEx 0
        (received tableEx arpEx Queue frameArpRequestOther 1)).map (fun r => r.2) =
      some [{ interface := 1,
              data := [0xaa, 0xbb, 0xcc, 0xdd, 0xee, 0xff, 2, 0, 0, 0, 0, 1, 0x08, 0x06,
                0, 1, 0x08, 0x00, 6, 4, 0, 2,
                2, 0, 0, 0, 0, 1, 192, 168, 1, 254,
                0xaa, 0xbb, 0xcc, 0xdd, 0xee, 0xff, 192, 168, 1, 1] }] := by
  constructor
  · decide
  · decide

/-- C23 (amended): for every ARP REQUEST frame received on interface `i`, whatever its
target protocol address `t`, `Handler_ARP` returns and emits exactly one frame, on
interface `i`, an ARP REPLY (operation `00 02`) whose sender hardware address is the MAC
of `i`; the state left and the frame emitted are the same for every `t`. -/
theorem Handler_ARP_request_answered_for_any_target (lk : Link) (fuel : Nat)
    (rout : routing) (t : Nat)
    (harp : rd16 rout.buf ETH_TYPE = ARP_TYPE) (hop : rd16 rout.buf ARP_OP = OP_REQUEST)
    (hlen : ETH_SIZE + ARP_HDR_SIZE ≤ rout.len)
    (hmac : (lk.mac rout.interface).length = 6) :
    ∃ s f, Handler_ARP lk fuel { rout with buf := wr32 rout.buf ARP_TPA t } = some (s, [f]) ∧
      f.interface = rout.interface ∧
      (f.data.drop ARP_OP).take 2 = [0x00, 0x02] ∧
      (f.data.drop ARP_SHA).take 6 = lk.mac rout.interface ∧
      Handler_ARP lk fuel rout = some (s, [f]) := by
  have hl : 42 ≤ rout.len := hlen
  have harp2 : rd16 (wr32 rout.buf ARP_TPA t) ETH_TYPE = ARP_TYPE := by
    rw [← harp]
    unfold rd16
    rw [wr32_other _ _ _ _ (by unfold ETH_TYPE ARP_TPA; omega),
      wr32_other _ _ _ _ (by unfold ETH_TYPE ARP_TPA; omega)]
  have hop2 : rd16 (wr32 rout.buf ARP_TPA t) ARP_OP = OP_REQUEST := by
    rw [← hop]
    unfold rd16
    rw [wr32_other _ _ _ _ (by unfold ARP_OP ARP_TPA; omega),
      wr32_other _ _ _ _ (by unfold ARP_OP ARP_TPA; omega)]
  have key : ∀ x, wr32 (wr16 (wr32 rout.buf ARP_TPA t) ARP_OP OP_REPLY) ARP_TPA x
      = wr32 (wr16 rout.buf ARP_OP OP_REPLY) ARP_TPA x := by
    intro x
    funext i
    simp only [wr32, wr16, ARP_TPA, ARP_OP]
    split_ifs <;> rfl
  have hspa : rd32 (wr16 (wr32 rout.buf ARP_TPA t) ARP_OP OP_REPLY) ARP_SPA
      = rd32 (wr16 rout.buf ARP_OP OP_REPLY) ARP_SPA := by
    simp [rd32, wr16, wr32, ARP_TPA, ARP_OP, ARP_SPA]
  have hst : Reply_ARP lk { rout with buf := wr32 rout.buf ARP_TPA t } = Reply_ARP lk rout := by
    simp only [Reply_ARP, hspa, key]
  obtain ⟨h1, _, h3, _, _, _, _⟩ := Reply_ARP_fields lk rout hmac
  refine ⟨Reply_ARP lk rout, Send_To_Link rout.interface (Reply_ARP lk rout).buf rout.len,
    ?_, rfl, ?_, ?_, Handler_ARP_request_eq lk fuel rout harp hop⟩
  · have e := Handler_ARP_request_eq lk fuel { rout with buf := wr32 rout.buf ARP_TPA t }
      harp2 hop2
    rw [hst] at e
    exact e
  · show ((bytesOf _ _).drop ARP_OP).take 2 = _
    rw [bytesOf_slice _ _ _ _ (by unfold ARP_OP; omega)]; exact h1
  · show ((bytesOf _ _).drop ARP_SHA).take 6 = _
    rw [bytesOf_slice _ _ _ _ (by unfold ARP_SHA; omega)]; exact h3

/-- C23 (amended, witness): `frameArpRequest` received on interface 1 with its target
protocol address overwritten by 192.168.1.77. -/
theorem Handler_ARP_request_answered_for_any_target_witness :
    ∃ s f, Handler_ARP linkEx 0
        { received tableEx arpEx Queue frameArpRequest 1 with
          buf := wr32 (received tableEx arpEx Queue frameArpRequest 1).buf ARP_TPA
            0x4D01A8C0 } = some (s, [f]) ∧
      f.interface = 1 ∧
      (f.data.drop ARP_OP).take 2 = [0x00, 0x02] ∧
      (f.data.drop ARP_SHA).take 6 = [2, 0, 0, 0, 0, 1] ∧
      Handler_ARP linkEx 0 (received tableEx arpEx Queue frameArpRequest 1) = some (s, [f]) :=
  Handler_ARP_request_answered_for_any_target linkEx 0
    (received tableEx arpEx Queue frameArpRequest 1) 0x4D01A8C0
    (by decide) (by decide) (by decide) (by decide)

/-- C24: for every interface `i` with a six-byte MAC and every next hop `h`, the frame
sent after `Request_ARP` has exactly 42 bytes: Ethernet destination ff:ff:ff:ff:ff:ff,
Ethernet source the MAC of `i`, EtherType `08 06`, hardware type `00 01`, protocol type
`08 00`, HLEN 6, PLEN 4, operation `00 01`, sender hardware address the MAC of `i`,
sender protocol address the IPv4 address of `i`, target hardware address six zero bytes
and target protocol address `h`. -/
theorem Request_ARP_frame (lk : Link) (r : routing)
    (hmac : (lk.mac r.interface).length = 6) :
    (Request_ARP lk r).len = 42 ∧
    (Request_ARP lk r).interface = r.interface ∧
    (Send_To_Link (Request_ARP lk r).interface (Request_ARP lk r).buf
        (Request_ARP lk r).len).data =
      [0xff, 0xff, 0xff, 0xff, 0xff, 0xff] ++ lk.mac r.interface ++
      [0x08, 0x06, 0x00, 0x01, 0x08, 0x00, 6, 4, 0x00, 0x01] ++
      lk.mac r.interface ++ le32 (lk.ipv4 r.interface) ++
      [0, 0, 0, 0, 0, 0] ++ le32 r.next_hop := by
  obtain ⟨a, b, c, d, e, f, hm⟩ : ∃ a b c d e f, lk.mac r.interface = [a, b, c, d, e, f] := by
    match h : lk.mac r.interface, hmac with
    | [a, b, c, d, e, f], _ => exact ⟨a, b, c, d, e, f, rfl⟩
  refine ⟨rfl, rfl, ?_⟩
  show bytesOf (Request_ARP lk r).buf 42 = _
  rw [hm]
  simp [bytesOf, List.range_succ, Request_ARP, Update_ARP_Length, Init_ARP_Header,
    Init_ETH_Header, wr8, wr16, wr32, writeMac, memset, ETH_TYPE, ETH_SHOST, ETH_DHOST,
    MAC_SIZE, ARP_HTYPE, ARP_PTYPE, ARP_HLEN, ARP_PLEN, ARP_OP, ARP_SHA, ARP_SPA, ARP_THA,
    ARP_TPA, ARP_TYPE, IP_TYPE, HTYPE_ETHER, OP_REQUEST, HW_LEN, PT_LEN, htons, le32, hm]

/-- C24 (witness): the ARP request for next hop 192.168.1.1 on interface 1. -/
theorem Request_ARP_frame_witness :
    (Request_ARP linkEx { received tableEx arpEx Queue frameTTL10 0 with
        next_hop := 0x0101A8C0, interface := 1 }).len = 42 ∧
    (Request_ARP linkEx { received tableEx arpEx Queue frameTTL10 0 with
        next_hop := 0x0101A8C0, interface := 1 }).interface = 1 ∧
    (Send_To_Link
        (Request_ARP linkEx { received tableEx arpEx Queue frameTTL10 0 with
          next_hop := 0x0101A8C0, interface := 1 }).interface
        (Request_ARP linkEx { received tableEx arpEx Queue frameTTL10 0 with
          next_hop := 0x0101A8C0, interface := 1 }).buf
        (Request_ARP linkEx { received tableEx arpEx Queue frameTTL10 0 with
          next_hop := 0x0101A8C0, interface := 1 }).len).data =
      [0xff, 0xff, 0xff, 0xff, 0xff, 0xff] ++ [2, 0, 0, 0, 0, 1] ++
      [0x08, 0x06, 0x00, 0x01, 0x08, 0x00, 6, 4, 0x00, 0x01] ++
      [2, 0, 0, 0, 0, 1] ++ [192, 168, 1, 254] ++
      [0, 0, 0, 0, 0, 0] ++ [192, 168, 1, 1] :=
  Request_ARP_frame linkEx { received tableEx arpEx Queue frameTTL10 0 with
      next_hop := 0x0101A8C0, interface := 1 } (by decide)


/-! ## Checksum of an odd number of bytes -/

set_option maxRecDepth 100000 in
/-- C21 (code at the failing input): on the three bytes `12 34 56` the claimed value,
the complement of the one's-complement sum of the words `0x1234` and `0x5600`, is
`0x97CB`; `Checksum` adds the trailing byte as the low-order byte of `extra_byte`, whose
other byte is not initialised: with that byte zero it returns `0xED75`, for none of the
256 values of that byte does it return `0x97CB`, and the result changes with that byte. -/
theorem Checksum_odd_trailing_byte_is_low_byte :
    65535 - ocSum [0x1234, 0x5600] = 0x97CB ∧
    Checksum 0 (bufOfList [0x12, 0x34, 0x56]) 0 3 = 0xED75 ∧
    65535 - ocSum [0x1234, 0x0056] = 0xED75 ∧
    (List.range 256).all
      (fun junk => Checksum junk (bufOfList [0x12, 0x34, 0x56]) 0 3 != 0x97CB) = true ∧
    Checksum 1 (bufOfList [0x12, 0x34, 0x56]) 0 3 = 0xEC75 := by
  decide

/-! ## Routes with equal prefixes -/

theorem orCreate_of_ne_null (e : ipv4_entry) (he : e ≠ .null) : orCreate e = e := by
  cases e with
  | null => exact absurd rfl he
  | node nh t i l r => rfl

/-- A second insertion walk along the same path overwrites the first. -/
theorem insertWalk_twice (r1 r2 : route) (n : Nat) :
    ∀ (network : Nat) (e : ipv4_entry),
      insertWalk r2 n network (insertWalk r1 n network e) = insertWalk r2 n network e := by
  induction n with
  | zero =>
    intro network e
    cases e with
    | null => rfl
    | node nh t i l r => rfl
  | succ n ih =>
    intro network e
    cases e with
    | null => rfl
    | node nh t i l r =>
      by_cases hb : network % 2 = 1
      · simp only [insertWalk, hb, if_true]
        rw [orCreate_of_ne_null _ (insertWalk_ne_null r1 n (network / 2) (orCreate r)
          (orCreate_ne_null r)), ih]
      · simp only [insertWalk, hb, if_false]
        rw [orCreate_of_ne_null _ (insertWalk_ne_null r1 n (network / 2) (orCreate l)
          (orCreate_ne_null l)), ih]

theorem Insert_IPV4_Table_zero_mask (T : ipv4_table) (r : route) (h : r.mask = 0) :
    Insert_IPV4_Table T r = T := by
  unfold Insert_IPV4_Table
  rw [if_pos h]

theorem Insert_IPV4_Table_root (T : ipv4_table) (r : route) (h : r.mask ≠ 0) :
    (Insert_IPV4_Table T r).root =
      insertWalk r (popcount r.mask) (r.pfx &&& r.mask) T.root := by
  unfold Insert_IPV4_Table
  rw [if_neg h]

/-- Inserting two routes with the same mask and the same network leaves the trie that
inserting the second alone leaves. -/
theorem Insert_IPV4_Table_twice_root (T : ipv4_table) (r1 r2 : route)
    (hmask : r1.mask = r2.mask)
    (hnet : r1.pfx &&& r1.mask = r2.pfx &&& r2.mask) :
    (Insert_IPV4_Table (Insert_IPV4_Table T r1) r2).root = (Insert_IPV4_Table T r2).root := by
  by_cases hm : r2.mask = 0
  · have hm1 : r1.mask = 0 := by rw [hmask]; exact hm
    rw [Insert_IPV4_Table_zero_mask _ r2 hm, Insert_IPV4_Table_zero_mask _ r2 hm,
      Insert_IPV4_Table_zero_mask _ r1 hm1]
  · have hm1 : r1.mask ≠ 0 := by rw [hmask]; exact hm
    rw [Insert_IPV4_Table_root _ r2 hm, Insert_IPV4_Table_root _ r2 hm,
      Insert_IPV4_Table_root _ r1 hm1, hnet, hmask]
    exact insertWalk_twice r1 r2 _ _ _

/-- C30 (counterexample): the table holds the host route 10.0.0.7/32; the routes
`routeNetA` and `routeNetB` have the same mask 255.0.0.0 and the same network 10.0.0.0
and are inserted in this order; the destination 10.0.0.7 matches them, and the lookup
returns the next hop and interface of the host route, not those of `routeNetB`. -/
theorem LPM_IPV4_Table_longer_route_beats_last_insert :
    routeNetA.mask = routeNetB.mask ∧ routeNetB.mask ≠ 0 ∧
    routeNetA.pfx &&& routeNetA.mask = routeNetB.pfx &&& routeNetB.mask ∧
    routeMatches routeNetB 0x0700000A ∧
    LPM_IPV4_Table
      (Insert_IPV4_Table
        (Insert_IPV4_Table (Insert_IPV4_Table CreateEmpty_IPV4_Table routeHost) routeNetA)
        routeNetB) 0x0700000A
      = some { next_hop := 0x0900A8C0, interface := 0, status := true } := by
  decide

/-- C30 (amended): for every table `T` and two routes `r1`, `r2` with the same non-zero
mask and the same value of `prefix & mask`, inserting `r1` and then `r2` into `T` gives,
for every destination `d`, the same lookup result as inserting `r2` alone into `T`; when
the mask is of the form `2^k - 1`, a destination matching them for which `T` has no Valid
node deeper than `popcount(mask)` on its path (no longer match in `T`) gets the next hop
and interface of `r2`. -/
theorem Insert_IPV4_Table_last_insert_wins (T : ipv4_table) (r1 r2 : route)
    (hmask : r1.mask = r2.mask) (hnz : r2.mask ≠ 0)
    (hnet : r1.pfx &&& r1.mask = r2.pfx &&& r2.mask) :
    (∀ d, LPM_IPV4_Table (Insert_IPV4_Table (Insert_IPV4_Table T r1) r2) d =
      LPM_IPV4_Table (Insert_IPV4_Table T r2) d) ∧
    (∀ d, T.root ≠ .null → lowMask r2.mask → routeMatches r2 d →
      (∀ j, popcount r2.mask < j → validAt T.root d j = none) →
      LPM_IPV4_Table (Insert_IPV4_Table (Insert_IPV4_Table T r1) r2) d =
        some { next_hop := r2.next_hop, interface := r2.interface, status := true }) := by
  have hroot := Insert_IPV4_Table_twice_root T r1 r2 hmask hnet
  constructor
  · intro d
    unfold LPM_IPV4_Table
    rw [hroot]
  · intro d hT hlow hmatch hdeep
    unfold LPM_IPV4_Table
    rw [hroot]
    have hslot : ∀ j, validAt (Insert_IPV4_Table T r2).root d j =
        slotStep d j (validAt T.root d j) r2 := fun j => validAt_Insert T hT r2 d j
    have hk : validAt (Insert_IPV4_Table T r2).root d (popcount r2.mask) =
        some { next_hop := r2.next_hop, interface := r2.interface, status := true } := by
      rw [hslot]
      unfold slotStep
      rw [if_pos ⟨hnz, rfl, (slot_cond_iff_routeMatches r2 hlow d).2 hmatch⟩]
    have hgt : ∀ j, popcount r2.mask < j → validAt (Insert_IPV4_Table T r2).root d j = none := by
      intro j hj
      rw [hslot]
      unfold slotStep
      rw [if_neg (fun h => by omega)]
      exact hdeep j hj
    rcases lpmWalk_spec (Insert_IPV4_Table T r2).root d none with ⟨_, hall⟩ | ⟨j, f, hv, hl, hmax⟩
    · rw [hall] at hk; cases hk
    · have h1 : ¬ popcount r2.mask < j := by
        intro h
        rw [hgt j h] at hv; cases hv
      have h2 : ¬ j < popcount r2.mask := by
        intro h
        rw [hmax _ h] at hk; cases hk
      have hj : j = popcount r2.mask := by omega
      rw [hl, ← hv, hj, hk]

/-- C30 (amended, witness): the table `tableEx` with the route 10.0.0.0/8; the routes
10.1.0.0/16 via 192.168.0.9 on interface 0 and 10.1.0.0/16 via 192.168.2.1 on
interface 2 are inserted in this order, and the destination 10.1.2.3 gets the second. -/
theorem Insert_IPV4_Table_last_insert_wins_witness :
    (∀ j, popcount 0x0000FFFF < j → validAt tableEx.root 0x0302010A j = none) ∧
    (∀ d, LPM_IPV4_Table
        (Insert_IPV4_Table
          (Insert_IPV4_Table tableEx
            { pfx := 0x0000010A, next_hop := 0x0900A8C0, mask := 0x0000FFFF, interface := 0 })
          { pfx := 0x0000010A, next_hop := 0x0102A8C0, mask := 0x0000FFFF, interface := 2 }) d =
      LPM_IPV4_Table
        (Insert_IPV4_Table tableEx
          { pfx := 0x0000010A, next_hop := 0x0102A8C0, mask := 0x0000FFFF, interface := 2 }) d) ∧
    LPM_IPV4_Table
        (Insert_IPV4_Table
          (Insert_IPV4_Table tableEx
            { pfx := 0x0000010A, next_hop := 0x0900A8C0, mask := 0x0000FFFF, interface := 0 })
          { pfx := 0x0000010A, next_hop := 0x0102A8C0, mask := 0x0000FFFF, interface := 2 })
        0x0302010A =
      some { next_hop := 0x0102A8C0, interface := 2, status := true } := by
  have hroot : CreateEmpty_IPV4_Table.root ≠ .null := by simp [CreateEmpty_IPV4_Table]
  have hdeep : ∀ j, popcount 0x0000FFFF < j → validAt tableEx.root 0x0302010A j = none := by
    intro j hj
    have h16 : popcount 0x0000FFFF = 16 := by decide
    have h8 : popcount 0x000000FF = 8 := by decide
    rw [h16] at hj
    unfold tableEx
    rw [validAt_insertAll _ _ _ _ hroot]
    have hempty : validAt CreateEmpty_IPV4_Table.root 0x0302010A j = none := by
      cases j <;> simp [CreateEmpty_IPV4_Table, validAt]
    rw [hempty]
    simp only [List.foldl, slotStep, h8]
    rw [if_neg (fun h => by omega)]
  have h := Insert_IPV4_Table_last_insert_wins tableEx
    { pfx := 0x0000010A, next_hop := 0x0900A8C0, mask := 0x0000FFFF, interface := 0 }
    { pfx := 0x0000010A, next_hop := 0x0102A8C0, mask := 0x0000FFFF, interface := 2 }
    rfl (by decide) rfl
  exact ⟨hdeep, h.1,
    h.2 0x0302010A (by decide) ⟨16, by decide, by decide⟩ (by decide) hdeep⟩


/-! ## Routes with a zero mask, and prefix bits outside the mask -/

/-- C31: for every table `T` and every route whose mask is 0, `Insert_IPV4_Table` leaves
`T` unchanged (same trie, same size), so every `LPM_IPV4_Table` result is the same as
before; in particular a default route (mask 0) inserted into the empty table is not
installed: every lookup returns none. -/
theorem Insert_IPV4_Table_ignores_zero_mask (T : ipv4_table) (r : route) (h : r.mask = 0) :
    Insert_IPV4_Table T r = T ∧
    (∀ d, LPM_IPV4_Table (Insert_IPV4_Table T r) d = LPM_IPV4_Table T d) ∧
    (∀ d, LPM_IPV4_Table (Insert_IPV4_Table CreateEmpty_IPV4_Table r) d = none) := by
  refine ⟨Insert_IPV4_Table_zero_mask T r h, ?_, ?_⟩
  · intro d
    rw [Insert_IPV4_Table_zero_mask T r h]
  · intro d
    rw [Insert_IPV4_Table_zero_mask _ r h]
    simp [LPM_IPV4_Table, CreateEmpty_IPV4_Table, lpmWalk]

/-- C31 (witness): the default route 0.0.0.0/0 via 192.168.0.9 inserted into `tableEx`
and into the empty table. -/
theorem Insert_IPV4_Table_ignores_zero_mask_witness :
    Insert_IPV4_Table tableEx
        { pfx := 0, next_hop := 0x0900A8C0, mask := 0, interface := 0 } = tableEx ∧
    (∀ d, LPM_IPV4_Table (Insert_IPV4_Table tableEx
        { pfx := 0, next_hop := 0x0900A8C0, mask := 0, interface := 0 }) d =
      LPM_IPV4_Table tableEx d) ∧
    (∀ d, LPM_IPV4_Table (Insert_IPV4_Table CreateEmpty_IPV4_Table
        { pfx := 0, next_hop := 0x0900A8C0, mask := 0, interface := 0 }) d = none) :=
  Insert_IPV4_Table_ignores_zero_mask tableEx
    { pfx := 0, next_hop := 0x0900A8C0, mask := 0, interface := 0 } rfl

/-- The insertion walk reads only the next hop and the interface of the route. -/
theorem insertWalk_congr (r1 r2 : route) (hn : r1.next_hop = r2.next_hop)
    (hi : r1.interface = r2.interface) (n : Nat) :
    ∀ (network : Nat) (e : ipv4_entry),
      insertWalk r1 n network e = insertWalk r2 n network e := by
  induction n with
  | zero =>
    intro network e
    cases e with
    | null => rfl
    | node nh t i l r => simp [insertWalk, hn, hi]
  | succ n ih =>
    intro network e
    cases e with
    | null => rfl
    | node nh t i l r =>
      by_cases hb : network % 2 = 1
      · simp only [insertWalk, hb, if_true]
        rw [ih]
      · simp only [insertWalk, hb, if_false]
        rw [ih]

/-- C32: for every table `T` and every route with prefix `p`, mask `m`, next hop `n`
and interface `i`, `Insert_IPV4_Table` of `(p, m, n, i)` gives the same table as
`Insert_IPV4_Table` of `(p & m, m, n, i)`: bits of the prefix outside the mask never
influence the trie. -/
theorem Insert_IPV4_Table_masks_the_prefix (T : ipv4_table) (r : route) :
    Insert_IPV4_Table T r =
      Insert_IPV4_Table T
        { pfx := r.pfx &&& r.mask, next_hop := r.next_hop, mask := r.mask,
          interface := r.interface } := by
  unfold Insert_IPV4_Table
  by_cases hm : r.mask = 0
  · rw [if_pos hm, if_pos hm]
  · rw [if_neg hm, if_neg hm]
    have hand : (r.pfx &&& r.mask) &&& r.mask = r.pfx &&& r.mask := by
      rw [Nat.land_assoc, Nat.and_self]
    show ipv4_table.mk _ _ = ipv4_table.mk _ _
    dsimp only
    rw [hand, insertWalk_congr r
      { pfx := r.pfx &&& r.mask, next_hop := r.next_hop, mask := r.mask,
        interface := r.interface } rfl rfl]

/-! ## Drain loop with a packet for another next hop -/

/-- One more iteration of the drain loop on a non-empty queue. -/
theorem drainIterate_succ_cons (lk : Link) (n : Nat) (rout : routing) (x : packet)
    (t : List packet) (hc : rout.waiting.cells = x :: t) :
    drainIterate lk (n + 1) rout =
      drainIterate lk n (drainStep lk rout x { cells := t }).1 := by
  have hempty : EmptyQueue rout.waiting = false := by
    unfold EmptyQueue; rw [hc]; rfl
  have hdq : Dequeue rout.waiting = (some x, { cells := t }) := by
    unfold Dequeue; rw [hc]
  simp only [drainIterate, hempty, hdq]
  rfl

/-- A packet for another next hop is in the queue after every iteration of the drain
loop. -/
theorem drainIterate_keeps (lk : Link) (n : Nat) :
    ∀ (rout : routing) (p : packet), p ∈ rout.waiting.cells →
      p.next_hop ≠ rd32 rout.buf ARP_SPA →
      p ∈ (drainIterate lk n rout).waiting.cells ∧
      (drainIterate lk n rout).buf = rout.buf := by
  induction n with
  | zero => intro rout p hp _; exact ⟨hp, rfl⟩
  | succ n ih =>
    intro rout p hp hne
    cases hc : rout.waiting.cells with
    | nil => rw [hc] at hp; cases hp
    | cons x t =>
      rw [drainIterate_succ_cons lk n rout x t hc]
      have hmem : p ∈ (drainStep lk rout x { cells := t }).1.waiting.cells := by
        rw [drainStep_waiting]
        rw [hc] at hp
        rcases List.mem_cons.mp hp with rfl | hpt
        · rw [if_neg hne]; simp
        · split
          · exact hpt
          · exact List.mem_append_left _ hpt
      have hb := drainStep_buf lk rout x { cells := t }
      obtain ⟨h1, h2⟩ := ih (drainStep lk rout x { cells := t }).1 p hmem (by rw [hb]; exact hne)
      exact ⟨h1, by rw [h2, hb]⟩

/-- C37: if the pending queue contains a packet whose next hop differs from the sender
protocol address `r` of an ARP REPLY, then after every number `n` of iterations of the
drain loop of `Handler_ARP` the queue is non-empty and every such packet is in the
queue, so the exit condition is never reached: the loop has not exited after any number
of iterations. Conversely, when the loop exits, every packet that was queued has next
hop `r`. -/
theorem drainLoop_never_exits_with_other_next_hop (lk : Link) (rout : routing) :
    ((∃ p ∈ rout.waiting.cells, p.next_hop ≠ rd32 rout.buf ARP_SPA) →
      (∀ n, EmptyQueue (drainIterate lk n rout).waiting = false ∧
        ∀ p ∈ rout.waiting.cells, p.next_hop ≠ rd32 rout.buf ARP_SPA →
          p ∈ (drainIterate lk n rout).waiting.cells) ∧
      (∀ fuel out, drainLoop lk fuel rout out = none)) ∧
    (∀ fuel out res, drainLoop lk fuel rout out = some res →
      ∀ p ∈ rout.waiting.cells, p.next_hop = rd32 rout.buf ARP_SPA) := by
  constructor
  · intro hex
    refine ⟨?_, fun fuel out => drainLoop_stuck lk fuel rout out hex⟩
    intro n
    obtain ⟨p, hp, hne⟩ := hex
    refine ⟨?_, fun q hq hqne => (drainIterate_keeps lk n rout q hq hqne).1⟩
    have hmem := (drainIterate_keeps lk n rout p hp hne).1
    unfold EmptyQueue
    cases hc : (drainIterate lk n rout).waiting.cells with
    | nil => rw [hc] at hmem; cases hmem
    | cons x t => rfl
  · intro fuel out res hres p hp
    by_contra hne
    rw [drainLoop_stuck lk fuel rout out ⟨p, hp, hne⟩] at hres
    cases hres

/-- C37 (witness): the queue holds a packet for 192.168.1.1 and then a packet for
192.168.1.2, and the ARP REPLY `frameArpReply` comes from 192.168.1.1. -/
theorem drainLoop_never_exits_with_other_next_hop_witness :
    (∃ p ∈ (received tableEx Create_ARP_Table (Enqueue (Enqueue Queue pktFor1) pktFor2)
        frameArpReply 1).waiting.cells,
      p.next_hop ≠ rd32 (received tableEx Create_ARP_Table
        (Enqueue (Enqueue Queue pktFor1) pktFor2) frameArpReply 1).buf ARP_SPA) ∧
    (∀ n, EmptyQueue (drainIterate linkEx n
        (received tableEx Create_ARP_Table (Enqueue (Enqueue Queue pktFor1) pktFor2)
          frameArpReply 1)).waiting = false) ∧
    (∀ fuel out, drainLoop linkEx fuel
        (received tableEx Create_ARP_Table (Enqueue (Enqueue Queue pktFor1) pktFor2)
          frameArpReply 1) out = none) := by
  have hex : ∃ p ∈ (received tableEx Create_ARP_Table (Enqueue (Enqueue Queue pktFor1) pktFor2)
        frameArpReply 1).waiting.cells,
      p.next_hop ≠ rd32 (received tableEx Create_ARP_Table
        (Enqueue (Enqueue Queue pktFor1) pktFor2) frameArpReply 1).buf ARP_SPA :=
    ⟨pktFor2, by simp [received, Enqueue, Queue], by decide⟩
  have h := (drainLoop_never_exits_with_other_next_hop linkEx
    (received tableEx Create_ARP_Table (Enqueue (Enqueue Queue pktFor1) pktFor2)
      frameArpReply 1)).1 hex
  exact ⟨hex, fun n => (h.1 n).1, h.2⟩

/-! ## The trie against a naive linear scan -/

/-- For a route whose mask is `2^k - 1` with `1 ≤ k ≤ 32`, the slot at depth `j` is
overwritten exactly when `j = k` and the route matches the destination. -/
theorem slotStep_lowMask (d j k : Nat) (acc : Option forward) (r : route)
    (hk1 : 1 ≤ k) (hk : k ≤ 32) (hm : r.mask = 2 ^ k - 1) :
    slotStep d j acc r =
      if j = k ∧ d &&& r.mask = r.pfx &&& r.mask then
        some { next_hop := r.next_hop, interface := r.interface, status := true }
      else acc := by
  have hpc : popcount r.mask = k := by rw [hm]; exact popcount_lowMask k hk
  have hnz : r.mask ≠ 0 := by
    rw [hm]
    have : 2 ^ 1 ≤ 2 ^ k := Nat.pow_le_pow_right (by decide) hk1
    omega
  have hiff := slot_cond_iff_routeMatches r ⟨k, hk, hm⟩ d
  rw [hpc] at hiff
  unfold slotStep
  by_cases hj : j = k
  · subst hj
    by_cases hmt : d &&& r.mask = r.pfx &&& r.mask
    · rw [if_pos ⟨hnz, hpc, hiff.2 hmt⟩, if_pos ⟨rfl, hmt⟩]
    · rw [if_neg (fun h => hmt (hiff.1 h.2.2)), if_neg (fun h => hmt h.2)]
  · rw [if_neg (fun h => hj (by rw [← h.2.1, hpc])), if_neg (fun h => hj h.1)]

/-- The best route of the naive scan against the slots of the trie path of `d`: nothing
found means that every slot is empty; otherwise the slot at the depth of the best route
holds its data and every deeper slot is empty. -/
theorem naive_scan_slots (d : Nat) (R : List route)
    (hR : ∀ r ∈ R, ∃ k, 1 ≤ k ∧ k ≤ 32 ∧ r.mask = 2 ^ k - 1) :
    (R.foldl (naiveStep d) none = none → ∀ j, R.foldl (slotStep d j) none = none) ∧
    (∀ b, R.foldl (naiveStep d) none = some b →
      (∃ k, 1 ≤ k ∧ k ≤ 32 ∧ b.mask = 2 ^ k - 1 ∧
        R.foldl (slotStep d k) none =
          some { next_hop := b.next_hop, interface := b.interface, status := true } ∧
        ∀ j, k < j → R.foldl (slotStep d j) none = none)) := by
  induction R using List.reverseRecOn with
  | nil =>
    refine ⟨fun _ _ => rfl, ?_⟩
    intro b hb
    cases hb
  | append_singleton R r ih =>
    have hR1 : ∀ x ∈ R, ∃ k, 1 ≤ k ∧ k ≤ 32 ∧ x.mask = 2 ^ k - 1 :=
      fun x hx => hR x (List.mem_append_left _ hx)
    obtain ⟨k, hk1, hk, hm⟩ := hR r (List.mem_append_right _ (List.mem_singleton_self r))
    obtain ⟨ih1, ih2⟩ := ih hR1
    have hslot : ∀ j, (R ++ [r]).foldl (slotStep d j) none =
        if j = k ∧ d &&& r.mask = r.pfx &&& r.mask then
          some { next_hop := r.next_hop, interface := r.interface, status := true }
        else R.foldl (slotStep d j) none := by
      intro j
      rw [List.foldl_append]
      exact slotStep_lowMask d j k _ r hk1 hk hm
    have hnaive : (R ++ [r]).foldl (naiveStep d) none =
        naiveStep d (R.foldl (naiveStep d) none) r := by
      rw [List.foldl_append]; rfl
    by_cases hmt : d &&& r.mask = r.pfx &&& r.mask
    · -- the new route matches
      cases hbest : R.foldl (naiveStep d) none with
      | none =>
        have hnone := ih1 hbest
        refine ⟨?_, ?_⟩
        · intro h
          rw [hnaive, hbest] at h
          simp [naiveStep, hmt] at h
        · intro b hb
          rw [hnaive, hbest] at hb
          simp only [naiveStep, hmt, if_true] at hb
          have hbr : r = b := Option.some.inj hb
          subst hbr
          refine ⟨k, hk1, hk, hm, ?_, ?_⟩
          · rw [hslot k, if_pos ⟨rfl, hmt⟩]
          · intro j hj
            rw [hslot j, if_neg (fun h => by omega)]
            exact hnone j
      | some b0 =>
        obtain ⟨k0, hk01, hk0, hm0, hs0, hdeep0⟩ := ih2 b0 hbest
        refine ⟨?_, ?_⟩
        · intro h
          rw [hnaive, hbest] at h
          simp only [naiveStep, hmt, if_true] at h
          split at h <;> cases h
        · intro b hb
          rw [hnaive, hbest] at hb
          simp only [naiveStep, hmt, if_true] at hb
          have hpow : (b0.mask ≤ r.mask) ↔ k0 ≤ k := by
            rw [hm0, hm]
            have h1 : 0 < 2 ^ k0 := Nat.pow_pos (by decide)
            have h2 : 0 < 2 ^ k := Nat.pow_pos (by decide)
            constructor
            · intro h
              by_contra hc
              have : 2 ^ k < 2 ^ k0 := Nat.pow_lt_pow_right (by decide) (by omega)
              omega
            · intro h
              have : 2 ^ k0 ≤ 2 ^ k := Nat.pow_le_pow_right (by decide) h
              omega
          by_cases hle : b0.mask ≤ r.mask
          · rw [if_pos hle] at hb
            have hbr : r = b := Option.some.inj hb
            subst hbr
            have hkk := hpow.1 hle
            refine ⟨k, hk1, hk, hm, ?_, ?_⟩
            · rw [hslot k, if_pos ⟨rfl, hmt⟩]
            · intro j hj
              rw [hslot j, if_neg (fun h => by omega)]
              exact hdeep0 j (by omega)
          · rw [if_neg hle] at hb
            have hbr : b0 = b := Option.some.inj hb
            subst hbr
            have hkk : k < k0 := by
              by_contra hc
              exact hle (hpow.2 (by omega))
            refine ⟨k0, hk01, hk0, hm0, ?_, ?_⟩
            · rw [hslot k0, if_neg (fun h => by omega)]
              exact hs0
            · intro j hj
              rw [hslot j, if_neg (fun h => by omega)]
              exact hdeep0 j hj
    · -- the new route does not match
      have hnaive2 : (R ++ [r]).foldl (naiveStep d) none = R.foldl (naiveStep d) none := by
        rw [hnaive]
        simp only [naiveStep, hmt, if_false]
      have hslot2 : ∀ j, (R ++ [r]).foldl (slotStep d j) none = R.foldl (slotStep d j) none := by
        intro j
        rw [hslot j, if_neg (fun h => hmt h.2)]
      refine ⟨?_, ?_⟩
      · intro h j
        rw [hslot2 j]
        exact ih1 (by rw [← hnaive2]; exact h) j
      · intro b hb
        rw [hnaive2] at hb
        obtain ⟨k0, hk01, hk0, hm0, hs0, hdeep0⟩ := ih2 b hb
        refine ⟨k0, hk01, hk0, hm0, ?_, ?_⟩
        · rw [hslot2 k0]; exact hs0
        · intro j hj
          rw [hslot2 j]; exact hdeep0 j hj

/-- C35: for every list of routes `R` in which each mask, as the stored 32-bit value,
equals `2^k - 1` for some `1 ≤ k ≤ 32`, and every destination `d`, `LPM_IPV4_Table` on
the table built by inserting `R` in order into the empty table returns the result of the
naive linear scan `naiveLPM`: the next hop and interface of the route with the greatest
mask among those with `(d & mask) == (prefix & mask)`, the last inserted one among
equals, and none if no route matches. -/
theorem LPM_IPV4_Table_eq_naive_scan (R : List route)
    (hR : ∀ r ∈ R, ∃ k, 1 ≤ k ∧ k ≤ 32 ∧ r.mask = 2 ^ k - 1) (d : Nat) :
    LPM_IPV4_Table (insertAll CreateEmpty_IPV4_Table R) d = naiveLPM R d := by
  have hroot : CreateEmpty_IPV4_Table.root ≠ .null := by simp [CreateEmpty_IPV4_Table]
  have hempty : ∀ j, validAt CreateEmpty_IPV4_Table.root d j = none := by
    intro j; cases j <;> simp [CreateEmpty_IPV4_Table, validAt]
  have hslot : ∀ j, validAt (insertAll CreateEmpty_IPV4_Table R).root d j =
      R.foldl (slotStep d j) none := by
    intro j; rw [validAt_insertAll R d j _ hroot, hempty]
  obtain ⟨h1, h2⟩ := naive_scan_slots d R hR
  unfold LPM_IPV4_Table naiveLPM
  cases hbest : R.foldl (naiveStep d) none with
  | none =>
    have hnone := h1 hbest
    rcases lpmWalk_spec (insertAll CreateEmpty_IPV4_Table R).root d none with
      ⟨hl, _⟩ | ⟨j, f, hv, _, _⟩
    · rw [hl]; rfl
    · rw [hslot j, hnone j] at hv; cases hv
  | some b =>
    obtain ⟨k, _, _, _, hs, hdeep⟩ := h2 b hbest
    rcases lpmWalk_spec (insertAll CreateEmpty_IPV4_Table R).root d none with
      ⟨_, hall⟩ | ⟨j, f, hv, hl, hmax⟩
    · rw [← hslot k, hall k] at hs; cases hs
    · have e1 : ¬ k < j := by
        intro h
        rw [hslot j, hdeep j h] at hv; cases hv
      have e2 : ¬ j < k := by
        intro h
        rw [← hslot k, hmax k h] at hs; cases hs
      have hj : j = k := by omega
      rw [hl, ← hv, hj, hslot k, hs]
      rfl

/-- C35 (witness): the routes 10.0.0.0/8 (twice, with different next hops), 10.1.0.0/16
and 192.168.0.0/16 and the destination 10.0.0.7: the lookup returns the second
10.0.0.0/8 route, like the naive scan. -/
theorem LPM_IPV4_Table_eq_naive_scan_witness :
    LPM_IPV4_Table (insertAll CreateEmpty_IPV4_Table
        [routeNetA,
         { pfx := 0x0000010A, next_hop := 0x0900A8C0, mask := 0x0000FFFF, interface := 0 },
         routeNetB,
         { pfx := 0x0000A8C0, next_hop := 0x0900A8C0, mask := 0x0000FFFF, interface := 0 }])
        0x0700000A =
      naiveLPM
        [routeNetA,
         { pfx := 0x0000010A, next_hop := 0x0900A8C0, mask := 0x0000FFFF, interface := 0 },
         routeNetB,
         { pfx := 0x0000A8C0, next_hop := 0x0900A8C0, mask := 0x0000FFFF, interface := 0 }]
        0x0700000A ∧
    naiveLPM
        [routeNetA,
         { pfx := 0x0000010A, next_hop := 0x0900A8C0, mask := 0x0000FFFF, interface := 0 },
         routeNetB,
         { pfx := 0x0000A8C0, next_hop := 0x0900A8C0, mask := 0x0000FFFF, interface := 0 }]
        0x0700000A = some { next_hop := 0x0102A8C0, interface := 2, status := true } :=
  ⟨LPM_IPV4_Table_eq_naive_scan _
    (by
      intro r hr
      simp only [List.mem_cons, List.mem_singleton, List.not_mem_nil, or_false] at hr
      rcases hr with rfl | rfl | rfl | rfl
      · exact ⟨8, by decide, by decide, by decide⟩
      · exact ⟨16, by decide, by decide, by decide⟩
      · exact ⟨8, by decide, by decide, by decide⟩
      · exact ⟨16, by decide, by decide, by decide⟩) 0x0700000A,
   by decide⟩

/-! ## Invariants of the trie -/

theorem popcount_le (x : Nat) : popcount x ≤ 32 := by
  unfold popcount
  have h := List.sum_le_card_nsmul ((List.range 32).map (fun i => (x / 2 ^ i) % 2)) 1
    (by
      intro y hy
      obtain ⟨i, _, rfl⟩ := List.mem_map.mp hy
      have : x / 2 ^ i % 2 < 2 := Nat.mod_lt _ (by decide)
      omega)
  simpa using h

theorem popcount_pos (x : Nat) (h0 : x ≠ 0) (h32 : x < 2 ^ 32) : 0 < popcount x := by
  have hlog : Nat.log2 x < 32 := (Nat.log2_lt h0).2 h32
  have hbit : x / 2 ^ Nat.log2 x % 2 = 1 := by
    have h1 : 2 ^ Nat.log2 x ≤ x := Nat.log2_self_le h0
    have h2 : x < 2 ^ (Nat.log2 x + 1) := Nat.lt_log2_self
    have h3 : x / 2 ^ Nat.log2 x = 1 := by
      apply Nat.div_eq_of_lt_le
      · simpa using h1
      · rw [pow_succ] at h2
        omega
    rw [h3]
  unfold popcount
  have hmem : x / 2 ^ Nat.log2 x % 2 ∈ (List.range 32).map (fun i => (x / 2 ^ i) % 2) :=
    List.mem_map.mpr ⟨Nat.log2 x, List.mem_range.mpr hlog, rfl⟩
  have hle := List.single_le_sum (fun y _ => Nat.zero_le y) _ hmem
  omega

theorem mod_two_pow_eq_iff_testBit (a b k : Nat) :
    a % 2 ^ k = b % 2 ^ k ↔ ∀ j, j < k → a.testBit j = b.testBit j := by
  constructor
  · intro h j hj
    have h1 := Nat.testBit_mod_two_pow a k j
    have h2 := Nat.testBit_mod_two_pow b k j
    rw [h] at h1
    rw [h1] at h2
    simpa [hj] using h2
  · intro h
    apply Nat.eq_of_testBit_eq
    intro j
    rw [Nat.testBit_mod_two_pow, Nat.testBit_mod_two_pow]
    by_cases hj : j < k
    · simp [hj, h j hj]
    · simp [hj]

/-- The slot condition of the trie is `endsOnPath`. -/
theorem slot_cond_iff_endsOnPath (r : route) (d j : Nat) :
    (r.mask ≠ 0 ∧ popcount r.mask = j ∧ d % 2 ^ j = (r.pfx &&& r.mask) % 2 ^ j) ↔
      endsOnPath r d j := by
  unfold endsOnPath
  rw [eq_comm (a := d % 2 ^ j), mod_two_pow_eq_iff_testBit]

/-- A filled slot holds the data of the last route of the list whose walk ends there. -/
theorem foldl_slotStep_last (d j : Nat) (R : List route) (f : forward)
    (h : R.foldl (slotStep d j) none = some f) :
    ∃ R1 r R2, R = R1 ++ r :: R2 ∧ endsOnPath r d j ∧
      f = { next_hop := r.next_hop, interface := r.interface, status := true } ∧
      ∀ r2 ∈ R2, ¬ endsOnPath r2 d j := by
  induction R using List.reverseRecOn with
  | nil => cases h
  | append_singleton R r ih =>
    rw [List.foldl_append] at h
    simp only [List.foldl_cons, List.foldl_nil] at h
    unfold slotStep at h
    by_cases hc : r.mask ≠ 0 ∧ popcount r.mask = j ∧ d % 2 ^ j = (r.pfx &&& r.mask) % 2 ^ j
    · rw [if_pos hc] at h
      refine ⟨R, r, [], rfl, (slot_cond_iff_endsOnPath r d j).1 hc,
        (Option.some.inj h).symm, ?_⟩
      intro r2 hr2
      cases hr2
    · rw [if_neg hc] at h
      obtain ⟨R1, r1, R2, hR, h1, h2, h3⟩ := ih h
      refine ⟨R1, r1, R2 ++ [r], by rw [hR]; simp, h1, h2, ?_⟩
      intro r2 hr2
      rcases List.mem_append.mp hr2 with hr2 | hr2
      · exact h3 r2 hr2
      · rw [List.mem_singleton.mp hr2]
        exact fun hcon => hc ((slot_cond_iff_endsOnPath r d j).2 hcon)

theorem height_orCreate (e : ipv4_entry) : height (orCreate e) ≤ max (height e) 1 := by
  cases e with
  | null => simp [orCreate, Create_IPV4_Entry, height]
  | node nh t i l r => simp [orCreate]

/-- An insertion walk of `n` steps leaves no node deeper than `n` edges below its start,
unless there was one before. -/
theorem height_insertWalk (rt : route) (n : Nat) :
    ∀ (network : Nat) (e : ipv4_entry), e ≠ .null →
      height (insertWalk rt n network e) ≤ max (height e) (n + 1) := by
  induction n with
  | zero =>
    intro network e he
    cases e with
    | null => exact absurd rfl he
    | node nh t i l r => simp [insertWalk, height]
  | succ n ih =>
    intro network e he
    cases e with
    | null => exact absurd rfl he
    | node nh t i l r =>
      by_cases hb : network % 2 = 1
      · simp only [insertWalk, hb, if_true, height]
        have h1 := ih (network / 2) (orCreate r) (orCreate_ne_null r)
        have h2 := height_orCreate r
        omega
      · simp only [insertWalk, hb, if_false, height]
        have h1 := ih (network / 2) (orCreate l) (orCreate_ne_null l)
        have h2 := height_orCreate l
        omega

theorem height_insertAll (R : List route) :
    ∀ (T : ipv4_table), T.root ≠ .null → height T.root ≤ 33 →
      height (insertAll T R).root ≤ 33 := by
  induction R with
  | nil => intro T _ h; exact h
  | cons r R ih =>
    intro T hT hh
    show height (insertAll (Insert_IPV4_Table T r) R).root ≤ 33
    have hne : (Insert_IPV4_Table T r).root ≠ .null := insertAll_root_ne_null [r] T hT
    refine ih (Insert_IPV4_Table T r) hne ?_
    by_cases hm : r.mask = 0
    · rw [Insert_IPV4_Table_zero_mask T r hm]; exact hh
    · rw [Insert_IPV4_Table_root T r hm]
      have h1 := height_insertWalk r (popcount r.mask) (r.pfx &&& r.mask) T.root hT
      have h2 := popcount_le r.mask
      omega

/-- C33: in every table built from `CreateEmpty_IPV4_Table` by any sequence of
`Insert_IPV4_Table` calls with 32-bit masks, the root exists and is never Valid, every
node lies at depth at most 32 (at most 33 nodes on a downward path), and every Valid
node at depth `k` on the path spelled by the bits of `d` (left = 0, right = 1) carries
the next hop and interface of an inserted route with a non-zero mask, `popcount(mask) = k`
and bit `j` of `prefix & mask` equal to bit `j` of `d` for all `j < k`, namely of the last
such route inserted. -/
theorem insertAll_trie_invariants (R : List route) (h32 : ∀ r ∈ R, r.mask < 2 ^ 32) :
    (insertAll CreateEmpty_IPV4_Table R).root ≠ .null ∧
    (∀ d, validAt (insertAll CreateEmpty_IPV4_Table R).root d 0 = none) ∧
    height (insertAll CreateEmpty_IPV4_Table R).root ≤ 33 ∧
    (∀ d k f, validAt (insertAll CreateEmpty_IPV4_Table R).root d k = some f →
      k ≤ 32 ∧
      ∃ R1 r R2, R = R1 ++ r :: R2 ∧ endsOnPath r d k ∧
        f = { next_hop := r.next_hop, interface := r.interface, status := true } ∧
        ∀ r2 ∈ R2, ¬ endsOnPath r2 d k) := by
  have hroot : CreateEmpty_IPV4_Table.root ≠ .null := by simp [CreateEmpty_IPV4_Table]
  have hempty : ∀ d j, validAt CreateEmpty_IPV4_Table.root d j = none := by
    intro d j; cases j <;> simp [CreateEmpty_IPV4_Table, validAt]
  have hslot : ∀ d j, validAt (insertAll CreateEmpty_IPV4_Table R).root d j =
      R.foldl (slotStep d j) none := by
    intro d j; rw [validAt_insertAll R d j _ hroot, hempty]
  refine ⟨insertAll_root_ne_null R _ hroot, ?_, ?_, ?_⟩
  · intro d
    rw [hslot]
    cases hf : R.foldl (slotStep d 0) none with
    | none => rfl
    | some f =>
      obtain ⟨R1, r, R2, hR, ⟨hnz, hpc, _⟩, _, _⟩ := foldl_slotStep_last d 0 R f hf
      have hr : r ∈ R := by rw [hR]; simp
      have := popcount_pos r.mask hnz (h32 r hr)
      omega
  · exact height_insertAll R _ hroot (by simp [CreateEmpty_IPV4_Table, height])
  · intro d k f hv
    rw [hslot] at hv
    obtain ⟨R1, r, R2, hR, hon, hf, hlast⟩ := foldl_slotStep_last d k R f hv
    refine ⟨?_, R1, r, R2, hR, hon, hf, hlast⟩
    rw [← hon.2.1]
    exact popcount_le r.mask

/-- C33 (witness): the table built from the routes 10.0.0.0/8 (twice) and 10.0.0.7/32;
the node at depth 8 on the path of 10.0.0.7 carries the data of the second /8 route. -/
theorem insertAll_trie_invariants_witness :
    (insertAll CreateEmpty_IPV4_Table [routeNetA, routeNetB, routeHost]).root ≠ .null ∧
    (∀ d, validAt (insertAll CreateEmpty_IPV4_Table [routeNetA, routeNetB, routeHost]).root
      d 0 = none) ∧
    height (insertAll CreateEmpty_IPV4_Table [routeNetA, routeNetB, routeHost]).root ≤ 33 ∧
    validAt (insertAll CreateEmpty_IPV4_Table [routeNetA, routeNetB, routeHost]).root
      0x0700000A 8 = some { next_hop := 0x0102A8C0, interface := 2, status := true } ∧
    (8 ≤ 32 ∧
      ∃ R1 r R2, [routeNetA, routeNetB, routeHost] = R1 ++ r :: R2 ∧
        endsOnPath r 0x0700000A 8 ∧
        ({ next_hop := 0x0102A8C0, interface := 2, status := true } : forward) =
          { next_hop := r.next_hop, interface := r.interface, status := true } ∧
        ∀ r2 ∈ R2, ¬ endsOnPath r2 0x0700000A 8) := by
  have h := insertAll_trie_invariants [routeNetA, routeNetB, routeHost]
    (by
      intro r hr
      simp only [List.mem_cons, List.mem_singleton, List.not_mem_nil, or_false] at hr
      rcases hr with rfl | rfl | rfl <;> decide)
  have hv : validAt (insertAll CreateEmpty_IPV4_Table [routeNetA, routeNetB, routeHost]).root
      0x0700000A 8 = some { next_hop := 0x0102A8C0, interface := 2, status := true } := by
    decide
  exact ⟨h.1, h.2.1, h.2.2.1, hv, h.2.2.2 _ _ _ hv⟩


/-! ## Incremental checksum update against the full recomputation -/

/-- For an even number of bytes, at most 1600, `Checksum` is 65535 minus the
one's-complement value of the plain sum of the big-endian words. -/
theorem Checksum_eq_ocNorm (junk : Nat) (data : Buf) (off n : Nat)
    (hb : ∀ i, off ≤ i → i < off + n → data i < 256)
    (heven : n % 2 = 0) (hn : n ≤ 1600) :
    Checksum junk data off n = 65535 - ocNorm (wordsBE data off (n / 2)).sum := by
  have hk : n / 2 ≤ 800 := by omega
  have hb2 : ∀ i, off ≤ i → i < off + 2 * (n / 2) → data i < 256 :=
    fun i h1 h2 => hb i h1 (by omega)
  obtain ⟨_, hsum⟩ := wordsBE_le data (n / 2) off hb2
  have hS : sumWords data off (n / 2) 0 = (wordsBE data off (n / 2)).sum := by
    rw [sumWords_eq_sum data (n / 2) off 0 hb2 (by omega)]
    simp
  have hS800 : (wordsBE data off (n / 2)).sum ≤ 65535 * 800 := by omega
  have hfold := two_folds_eq_ocNorm _ hS800
  have hacc : foldedAcc data off n % 2 ^ 16 = ocNorm (wordsBE data off (n / 2)).sum := by
    rw [← hfold]
    unfold foldedAcc
    simp only [hS]
    norm_num
    omega
  have hodd : ¬ (n % 2 = 1) := by omega
  have hck : Checksum junk data off n = (2 ^ 64 - 1 - foldedAcc data off n) % 2 ^ 16 := by
    unfold Checksum foldedAcc
    simp only [hodd, if_false]
  have hlt : foldedAcc data off n < 2 ^ 64 := by
    unfold foldedAcc
    exact Nat.mod_lt _ (by norm_num)
  rw [hck, ← hacc]
  norm_num at hlt ⊢
  omega

theorem incrementalCheck_eq (old ttl : Nat) :
    incrementalCheck old ttl = (old + 1) % 65536 := by
  unfold incrementalCheck bitNot
  omega

theorem ocNorm_of_decomp (S q n : Nat) (h : S = 65535 * q + n + 1) (hn : n < 65535) :
    ocNorm S = n + 1 := by
  unfold ocNorm
  rw [if_neg (by omega)]
  omega

/-- The plain sum of the ten big-endian words of the IPv4 header, with the checksum
field left out. -/
theorem header_words_sum (b : Buf) (t : Nat) :
    (wordsBE (wr16 (wr8 b IP_TTL t) IP_CHECK 0) ETH_SIZE 10).sum =
      256 * (t % 256) +
      (256 * b 14 + b 15 + 256 * b 16 + b 17 + 256 * b 18 + b 19 + 256 * b 20 + b 21 +
        b 23 + 256 * b 26 + b 27 + 256 * b 28 + b 29 + 256 * b 30 + b 31 +
        256 * b 32 + b 33) := by
  simp [wordsBE, wr16, wr8, IP_TTL, IP_CHECK, ETH_SIZE]
  omega

theorem htons_of_bytes (h l : Nat) (hh : h < 256) (hl : l < 256) :
    htons (256 * h + l) = 256 * l + h := by
  unfold htons
  omega

/-- The arithmetic of the update: `c` is the checksum of the header, `c2` the checksum
after the TTL word has lost 256; unless `c` is `0xFEFF`, adding one to the byte-swapped
`c` gives the byte-swapped `c2`. -/
theorem htons_succ_of_ttl_decrement (S : Nat) (h512 : 512 ≤ S)
    (hne : 65535 - ocNorm S ≠ 0xFEFF) :
    (htons (65535 - ocNorm S) + 1) % 65536 = htons (65535 - ocNorm (S - 256)) := by
  obtain ⟨q, n, hS, hn⟩ : ∃ q n, S = 65535 * q + n + 1 ∧ n < 65535 :=
    ⟨(S - 1) / 65535, (S - 1) % 65535, by omega, Nat.mod_lt _ (by norm_num)⟩
  rw [ocNorm_of_decomp S q n hS hn] at hne ⊢
  by_cases hbig : 256 ≤ n
  · rw [ocNorm_of_decomp (S - 256) q (n - 256) (by omega) (by omega)]
    obtain ⟨h, l, hc, hl⟩ : ∃ h l, 65534 - n = 256 * h + l ∧ l < 256 :=
      ⟨(65534 - n) / 256, (65534 - n) % 256, by omega, Nat.mod_lt _ (by norm_num)⟩
    have e1 : 65535 - (n + 1) = 256 * h + l := by omega
    have e2 : 65535 - (n - 256 + 1) = 256 * (h + 1) + l := by omega
    rw [e1, e2, htons_of_bytes h l (by omega) hl, htons_of_bytes (h + 1) l (by omega) hl]
    omega
  · have hq : 1 ≤ q := by omega
    rw [ocNorm_of_decomp (S - 256) (q - 1) (n + 65279) (by omega) (by omega)]
    have e1 : 65535 - (n + 1) = 256 * 255 + (254 - n) := by omega
    have e2 : 65535 - (n + 65279 + 1) = 256 * 0 + (255 - n) := by omega
    rw [e1, e2, htons_of_bytes 255 (254 - n) (by omega) (by omega),
      htons_of_bytes 0 (255 - n) (by omega) (by omega)]
    omega

/-- C36: the incremental update of `Handler_IPV4` stores `(old_check + 1) mod 2^16`,
with `old_check` the stored field read as a little-endian 16-bit integer, whatever the
TTL; for every 20-byte header with a valid checksum, TTL > 1 and a stored checksum whose
wire bytes are not `FE FF`, this value equals the full recomputation
`htons(Checksum(header with TTL - 1 and the checksum field zeroed, 20))`. -/
theorem incrementalCheck_eq_full_recomputation (b : Buf)
    (hb : ∀ i, ETH_SIZE ≤ i → i < ETH_SIZE + IP_SIZE → b i < 256)
    (hvalid : checksumValid b) (httl : 1 < b IP_TTL)
    (hne : ¬ (b IP_CHECK = 0xFE ∧ b (IP_CHECK + 1) = 0xFF)) :
    (∀ ttl, incrementalCheck (rd16 b IP_CHECK) ttl = (rd16 b IP_CHECK + 1) % 2 ^ 16) ∧
    rd16 (forwardedBuf b (rd16 b IP_CHECK)) IP_CHECK = (rd16 b IP_CHECK + 1) % 2 ^ 16 ∧
    (rd16 b IP_CHECK + 1) % 2 ^ 16 =
      htons (Checksum 0 (wr16 (wr8 b IP_TTL (b IP_TTL - 1)) IP_CHECK 0) ETH_SIZE IP_SIZE) := by
  have hinc : ∀ ttl, incrementalCheck (rd16 b IP_CHECK) ttl = (rd16 b IP_CHECK + 1) % 2 ^ 16 :=
    fun ttl => incrementalCheck_eq _ ttl
  have ht256 : b IP_TTL < 256 := hb IP_TTL (by decide) (by decide)
  have h24 : b IP_CHECK < 256 := hb IP_CHECK (by decide) (by decide)
  have h25 : b (IP_CHECK + 1) < 256 := hb (IP_CHECK + 1) (by decide) (by decide)
  -- bytes of the two zeroed headers
  have hbZ : ∀ t, ∀ i, ETH_SIZE ≤ i → i < ETH_SIZE + 20 →
      wr16 (wr8 b IP_TTL t) IP_CHECK 0 i < 256 := by
    intro t i h1 h2
    unfold wr16 wr8
    have := hb i h1 h2
    split_ifs <;> omega
  have hsame : wr8 b IP_TTL (b IP_TTL) = b := by
    funext i
    unfold wr8
    split_ifs with h
    · rw [h]; exact Nat.mod_eq_of_lt ht256
    · rfl
  -- the two checksums
  have hc1 : Checksum 0 (wr16 b IP_CHECK 0) ETH_SIZE IP_SIZE =
      65535 - ocNorm (wordsBE (wr16 (wr8 b IP_TTL (b IP_TTL)) IP_CHECK 0) ETH_SIZE 10).sum := by
    rw [hsame]
    exact Checksum_eq_ocNorm 0 _ ETH_SIZE 20
      (fun i h1 h2 => by have := hbZ (b IP_TTL) i h1 h2; rwa [hsame] at this)
      (by decide) (by decide)
  have hc2 : Checksum 0 (wr16 (wr8 b IP_TTL (b IP_TTL - 1)) IP_CHECK 0) ETH_SIZE IP_SIZE =
      65535 - ocNorm (wordsBE (wr16 (wr8 b IP_TTL (b IP_TTL - 1)) IP_CHECK 0) ETH_SIZE 10).sum :=
    Checksum_eq_ocNorm 0 _ ETH_SIZE 20 (hbZ (b IP_TTL - 1)) (by decide) (by decide)
  rw [header_words_sum] at hc1 hc2
  rw [Nat.mod_eq_of_lt ht256] at hc1
  rw [Nat.mod_eq_of_lt (by omega : b IP_TTL - 1 < 256)] at hc2
  generalize hX : 256 * b 14 + b 15 + 256 * b 16 + b 17 + 256 * b 18 + b 19 + 256 * b 20 +
    b 21 + b 23 + 256 * b 26 + b 27 + 256 * b 28 + b 29 + 256 * b 30 + b 31 + 256 * b 32 +
    b 33 = X at hc1 hc2
  have hS2 : 256 * (b IP_TTL - 1) + X = (256 * b IP_TTL + X) - 256 := by omega
  rw [hS2] at hc2
  have hv : rd16 b IP_CHECK = htons (65535 - ocNorm (256 * b IP_TTL + X)) := by
    have := hvalid
    unfold checksumValid at this
    rw [this, hc1]
  have hneq : 65535 - ocNorm (256 * b IP_TTL + X) ≠ 0xFEFF := by
    intro hcon
    rw [hcon] at hv
    apply hne
    unfold rd16 at hv
    have : htons 0xFEFF = 0xFFFE := by decide
    rw [this] at hv
    omega
  have hmain := htons_succ_of_ttl_decrement (256 * b IP_TTL + X) (by omega) hneq
  refine ⟨hinc, ?_, ?_⟩
  · have hlt : (rd16 b IP_CHECK + 1) % 2 ^ 16 < 65536 := Nat.mod_lt _ (by norm_num)
    unfold forwardedBuf
    rw [hinc]
    unfold rd16
    rw [wr8_other _ _ _ _ (by decide), wr8_other _ _ _ _ (by decide)]
    exact rd16_wr16_same _ _ _ hlt
  · rw [hc2, hv]
    exact hmain

/-- C36 (witness): the header of `frameTTL10` (TTL 10, stored checksum `5C DA`): the
update stores `0xDA5D`, wire bytes `5D DA`, the checksum of the header with TTL 9. -/
theorem incrementalCheck_eq_full_recomputation_witness :
    (∀ ttl, incrementalCheck (rd16 (bufOfList frameTTL10) IP_CHECK) ttl =
      (rd16 (bufOfList frameTTL10) IP_CHECK + 1) % 2 ^ 16) ∧
    rd16 (forwardedBuf (bufOfList frameTTL10) (rd16 (bufOfList frameTTL10) IP_CHECK)) IP_CHECK
      = (0xDA5C + 1) % 2 ^ 16 ∧
    (0xDA5C + 1) % 2 ^ 16 =
      htons (Checksum 0 (wr16 (wr8 (bufOfList frameTTL10) IP_TTL (10 - 1)) IP_CHECK 0)
        ETH_SIZE IP_SIZE) :=
  incrementalCheck_eq_full_recomputation (bufOfList frameTTL10)
    (fun i _ _ => isBytes_bufOfList frameTTL10 (by decide) i)
    (by decide) (by decide) (by decide)

/-! ## The queue in memory refines a list -/

theorem chain_length_unique {α : Type} (mem : Nat → Option (cell α)) (L1 : List α) :
    ∀ (p : Option Nat) (l1 : Option Nat) (L2 : List α) (l2 : Option Nat),
      ptr.chain mem p L1 l1 → ptr.chain mem p L2 l2 → L1.length = L2.length := by
  induction L1 with
  | nil =>
    intro p l1 L2 l2 h1 h2
    cases L2 with
    | nil => rfl
    | cons y L2 =>
      obtain ⟨a, c, hp, _⟩ := h2
      have h1n : p = none := h1
      rw [h1n] at hp
      cases hp
  | cons x L1 ih =>
    intro p l1 L2 l2 h1 h2
    obtain ⟨a, c, hp, hm, _, _, hrest⟩ := h1
    cases L2 with
    | nil =>
      have h2n : p = none := h2
      rw [h2n] at hp
      cases hp
    | cons y L2 =>
      obtain ⟨a2, c2, hp2, hm2, _, _, hrest2⟩ := h2
      have ha : a2 = a := by
        rw [hp] at hp2
        exact (Option.some.inj hp2).symm
      subst ha
      have hc : c2 = c := by
        rw [hm] at hm2
        exact (Option.some.inj hm2).symm
      subst hc
      simp only [List.length_cons]
      rw [ih _ _ _ _ hrest hrest2]

/-- Freeing a cell from which a longer chain starts leaves the chain as it is. -/
theorem chain_free_other {α : Type} (mem : Nat → Option (cell α)) (a0 : Nat) (L : List α) :
    ∀ (p last : Option Nat), ptr.chain mem p L last →
      (∀ M l, ptr.chain mem (some a0) M l → L.length < M.length) →
      ptr.chain (fun i => if i = a0 then none else mem i) p L last := by
  induction L with
  | nil => intro p last h _; exact h
  | cons x L ih =>
    intro p last h hlong
    obtain ⟨a, c, hp, hm, he, hl, hrest⟩ := h
    have hne : a ≠ a0 := by
      intro heq
      subst heq
      have := hlong (x :: L) last ⟨a, c, rfl, hm, he, hl, hrest⟩
      exact Nat.lt_irrefl _ this
    refine ⟨a, c, hp, ?_, he, hl, ?_⟩
    · simp only [hne, if_false]
      exact hm
    · apply ih _ _ hrest
      intro M l hM
      have := hlong M l hM
      simp only [List.length_cons] at this
      omega

/-- The cell that `last` points to has a `NULL` `next` pointer. -/
theorem chain_last_cell {α : Type} (mem : Nat → Option (cell α)) (L : List α) :
    ∀ (p last : Option Nat), ptr.chain mem p L last → L ≠ [] →
      ∃ t c, last = some t ∧ mem t = some c ∧ c.next = none := by
  induction L with
  | nil => intro p last _ hne; exact absurd rfl hne
  | cons x L ih =>
    intro p last h _
    obtain ⟨a, c, _, hm, _, hl, hrest⟩ := h
    cases L with
    | nil =>
      have hn : c.next = none := hrest
      exact ⟨a, c, hl rfl, hm, hn⟩
    | cons y L => exact ih _ _ hrest (by simp)

/-- Appending a fresh cell behind the last cell extends the chain by one element. -/
theorem chain_snoc {α : Type} (mem : Nat → Option (cell α)) (x : α) (a t : Nat)
    (hfree : mem a = none) (L : List α) :
    ∀ (p : Option Nat), ptr.chain mem p L (some t) → L ≠ [] →
      ptr.chain
        (fun i =>
          if some i = some t then
            ((ptr.InsertElem mem x none a).1 i).map
              (fun c => { c with next := (ptr.InsertElem mem x none a).2 })
          else (ptr.InsertElem mem x none a).1 i)
        p (L ++ [x]) (some a) := by
  induction L with
  | nil => intro p _ hne; exact absurd rfl hne
  | cons y L ih =>
    intro p h _
    obtain ⟨a1, c1, hp, hm, he, hl, hrest⟩ := h
    have hne_a : a1 ≠ a := by
      intro heq
      rw [heq, hfree] at hm
      cases hm
    obtain ⟨t2, ct, ht2, hmt, hnt⟩ := chain_last_cell mem (y :: L) p (some t)
      ⟨a1, c1, hp, hm, he, hl, hrest⟩ (by simp)
    have htt : t2 = t := (Option.some.inj ht2).symm
    subst htt
    have hta : t2 ≠ a := by
      intro heq
      rw [heq, hfree] at hmt
      cases hmt
    cases L with
    | nil =>
      have hat : a1 = t2 := (Option.some.inj (hl rfl)).symm
      subst hat
      refine ⟨a1, { c1 with next := some a }, hp, ?_, he, ?_, ?_⟩
      · simp [ptr.InsertElem, hne_a, hm]
      · intro hcon
        simp at hcon
      · refine ⟨a, { elem := x, next := none }, rfl, ?_, rfl, fun _ => rfl, rfl⟩
        have hne2 : ¬ a = a1 := fun h => hne_a h.symm
        simp [ptr.InsertElem, hne2]
    | cons z L =>
      have hat : a1 ≠ t2 := by
        intro heq
        subst heq
        rw [hm] at hmt
        have hcc : c1 = ct := Option.some.inj hmt
        obtain ⟨a3, _, hp3, _⟩ := hrest
        rw [hcc, hnt] at hp3
        cases hp3
      refine ⟨a1, c1, hp, ?_, he, ?_, ih _ hrest (by simp)⟩
      · simp [ptr.InsertElem, hne_a, hat, hm]
      · intro hcon
        simp at hcon

theorem Rep_Queue {α : Type} (mem : Nat → Option (cell α)) : ptr.Rep (ptr.Queue mem) [] :=
  rfl

theorem Rep_EmptyQueue {α : Type} (q : ptr.queue α) (L : List α) (h : ptr.Rep q L) :
    ptr.EmptyQueue q = true ↔ L = [] := by
  unfold ptr.Rep at h
  cases L with
  | nil =>
    have hn : q.head = none := h
    simp [ptr.EmptyQueue, hn]
  | cons x L =>
    obtain ⟨a, c, hp, _⟩ := h
    simp [ptr.EmptyQueue, hp]

theorem Rep_Enqueue {α : Type} (q : ptr.queue α) (L : List α) (x : α) (a : Nat)
    (h : ptr.Rep q L) (hfree : q.mem a = none) : ptr.Rep (ptr.Enqueue q x a) (L ++ [x]) := by
  unfold ptr.Rep at h
  cases L with
  | nil =>
    have hn : q.head = none := h
    have he : ptr.EmptyQueue q = true := by simp [ptr.EmptyQueue, hn]
    unfold ptr.Rep ptr.Enqueue
    rw [if_pos he]
    refine ⟨a, { elem := x, next := none }, rfl, ?_, rfl, fun _ => rfl, rfl⟩
    simp [ptr.InsertElem]
  | cons y L =>
    obtain ⟨t, ct, ht, _, _⟩ := chain_last_cell q.mem (y :: L) q.head q.tail h (by simp)
    have he : ¬ ptr.EmptyQueue q = true := by
      obtain ⟨a1, c1, hp, _⟩ := h
      simp [ptr.EmptyQueue, hp]
    unfold ptr.Rep ptr.Enqueue
    rw [if_neg he]
    rw [ht] at h ⊢
    exact chain_snoc q.mem x a t hfree (y :: L) q.head h (by simp)

theorem Rep_Dequeue_cons {α : Type} (q : ptr.queue α) (x : α) (L : List α)
    (h : ptr.Rep q (x :: L)) :
    (ptr.Dequeue q).1 = some x ∧ ptr.Rep (ptr.Dequeue q).2 L := by
  have hall := h
  unfold ptr.Rep at h
  obtain ⟨a, c, hp, hm, he, hl, hrest⟩ := h
  have hne : ¬ ptr.EmptyQueue q = true := by simp [ptr.EmptyQueue, hp]
  have hdq : ptr.Dequeue q =
      ((q.mem a).map (fun c => c.elem),
        { mem := (ptr.DeleteElem q.mem a).1, head := (ptr.DeleteElem q.mem a).2,
          tail := q.tail }) := by
    unfold ptr.Dequeue
    rw [if_neg hne, hp]
  rw [hdq]
  refine ⟨by simp [hm, he], ?_⟩
  unfold ptr.Rep
  show ptr.chain (fun i => if i = a then none else q.mem i)
    ((q.mem a).bind (fun c => c.next)) L q.tail
  rw [hm]
  apply chain_free_other q.mem a L c.next q.tail hrest
  intro M l hM
  have hlen := chain_length_unique q.mem (x :: L) q.head q.tail M l hall (by rw [hp]; exact hM)
  rw [← hlen]
  simp

theorem Rep_Dequeue_nil {α : Type} (q : ptr.queue α) (h : ptr.Rep q []) :
    ptr.Dequeue q = (none, q) := by
  have hn : q.head = none := h
  have he : ptr.EmptyQueue q = true := by simp [ptr.EmptyQueue, hn]
  unfold ptr.Dequeue
  rw [if_pos he]

theorem Rep_step {α : Type} (ops : List (qop α)) :
    ∀ (q : ptr.queue α) (L : List α), ptr.Rep q L → ptr.allocOk q ops →
      ptr.Rep (ops.foldl ptr.step q) (ops.foldl listStep L) := by
  induction ops with
  | nil => intro q L h _; exact h
  | cons op ops ih =>
    intro q L h hok
    cases op with
    | enq x a =>
      obtain ⟨hfree, hrest⟩ := hok
      exact ih _ _ (Rep_Enqueue q L x a h hfree) hrest
    | deq =>
      have hrest : ptr.allocOk (ptr.Dequeue q).2 ops := hok
      cases L with
      | nil =>
        have hd := Rep_Dequeue_nil q h
        refine ih _ _ ?_ hrest
        show ptr.Rep (ptr.Dequeue q).2 []
        rw [hd]
        exact h
      | cons y L => exact ih _ _ (Rep_Dequeue_cons q y L h).2 hrest

/-- C34: the queue of `queue.c` refines a list. `Queue()` has the content `[]`; every
queue built from `Queue()` by any sequence of operations (each `malloc` returning a free
address) has a list `L` as its content; with the content `L`, `Enqueue(x)` makes the
content `L ++ [x]`, `Dequeue` on a non-empty queue returns the head of `L` and leaves its
tail, `Dequeue` on an empty queue returns `NULL` and leaves the queue as it is, and
`EmptyQueue` is true if and only if `L` is empty. -/
theorem ptr_queue_refines_list (α : Type) :
    (∀ mem : Nat → Option (cell α), ptr.Rep (ptr.Queue mem) []) ∧
    (∀ (mem : Nat → Option (cell α)) (ops : List (qop α)),
      ptr.allocOk (ptr.Queue mem) ops →
      ptr.Rep (ops.foldl ptr.step (ptr.Queue mem)) (ops.foldl listStep [])) ∧
    (∀ (q : ptr.queue α) (L : List α) (x : α) (a : Nat), ptr.Rep q L → q.mem a = none →
      ptr.Rep (ptr.Enqueue q x a) (L ++ [x])) ∧
    (∀ (q : ptr.queue α) (x : α) (L : List α), ptr.Rep q (x :: L) →
      (ptr.Dequeue q).1 = some x ∧ ptr.Rep (ptr.Dequeue q).2 L) ∧
    (∀ (q : ptr.queue α), ptr.Rep q [] →
      (ptr.Dequeue q).1 = none ∧ (ptr.Dequeue q).2 = q ∧ ptr.Rep (ptr.Dequeue q).2 []) ∧
    (∀ (q : ptr.queue α) (L : List α), ptr.Rep q L →
      (ptr.EmptyQueue q = true ↔ L = [])) := by
  refine ⟨Rep_Queue, ?_, Rep_Enqueue, Rep_Dequeue_cons, ?_, Rep_EmptyQueue⟩
  · intro mem ops hok
    exact Rep_step ops _ _ (Rep_Queue mem) hok
  · intro q h
    rw [Rep_Dequeue_nil q h]
    exact ⟨rfl, rfl, h⟩

/-- C34 (witness): a queue is filled with 7 and 8, emptied, and refilled with 9 in a
cell at the address of a freed cell: the content is `[]` after emptying and `[9]` after
refilling, `EmptyQueue` is true in between, and `Dequeue` then returns 9. -/
theorem ptr_queue_refines_list_witness :
    ptr.allocOk (ptr.Queue (fun _ => none)) opsRefilled ∧
    ptr.Rep (opsEmptied.foldl ptr.step (ptr.Queue (fun _ => none))) [] ∧
    ptr.EmptyQueue (opsEmptied.foldl ptr.step (ptr.Queue (fun _ => none))) = true ∧
    ptr.Rep (opsRefilled.foldl ptr.step (ptr.Queue (fun _ => none))) [9] ∧
    (ptr.Dequeue (opsRefilled.foldl ptr.step (ptr.Queue (fun _ => none)))).1 = some 9 ∧
    ptr.Rep (ptr.Dequeue (opsRefilled.foldl ptr.step (ptr.Queue (fun _ => none)))).2 [] := by
  have hok1 : ptr.allocOk (ptr.Queue (fun _ => (none : Option (cell Nat)))) opsEmptied :=
    ⟨rfl, rfl, trivial⟩
  have hok2 : ptr.allocOk (ptr.Queue (fun _ => (none : Option (cell Nat)))) opsRefilled :=
    ⟨rfl, rfl, rfl, trivial⟩
  have h1 : ptr.Rep (opsEmptied.foldl ptr.step (ptr.Queue (fun _ => none))) [] :=
    (ptr_queue_refines_list Nat).2.1 _ opsEmptied hok1
  have h2 : ptr.Rep (opsRefilled.foldl ptr.step (ptr.Queue (fun _ => none))) [9] :=
    (ptr_queue_refines_list Nat).2.1 _ opsRefilled hok2
  have h3 := (ptr_queue_refines_list Nat).2.2.2.1 _ 9 [] h2
  exact ⟨hok2, h1, ((ptr_queue_refines_list Nat).2.2.2.2.2 _ [] h1).2 rfl, h2, h3.1, h3.2⟩


end Router
